import Mathlib

/-!
# XMODEM / XMODEM-1K (`xmodem/xmodem.go`)

A shallow embedding of the checksum, the frame writer, the sender and the
receiver of `xmodem.go`, followed by theorems about them.

* Bytes and 16-bit words are natural numbers; every `uint16` operation that can
  overflow is reduced modulo `65536`, every `uint8` one modulo `256`.
* The `io.ReadWriter` the Go code talks to is a value of `Conn`: the data that
  is still to arrive (in the segments in which it arrives), the writes made so
  far, and what the stream answers once it has nothing left or refuses a write.
* Loops are written with a fuel argument; running out of fuel is the result
  `none`, which is never a result of the Go code. `modemSend_isSome` and
  `ModemReceive_isSome` show that the fuel the two functions hand to their
  loops is always enough.
* Two ends connected back to back are the rounds of `loopback`.
-/

namespace Xmodem

/-! ## Constants -/

/-- A Go `error` value, identified by a number. -/
abbrev Error := Nat

def NUL : Nat := 0x00
def SOH : Nat := 0x01
def STX : Nat := 0x02
def EOT : Nat := 0x04
def SUB : Nat := 0x1A
def ACK : Nat := 0x06
def NAK : Nat := 0x15
def POLL : Nat := 0x43

def XModemBlockLength : Nat := 128
def XModem1KBlockLength : Nat := 1024

/-! ## Checksum -/

/-- One pass of the inner `for i := 0; i < 8; i++` loop of `CRC16` on a `uint16`. -/
def crcShift (u16CRC : Nat) : Nat :=
  if u16CRC &&& 0x8000 > 0 then
    ((u16CRC <<< 1) % 65536) ^^^ 0x1021
  else
    (u16CRC <<< 1) % 65536

/-- The body of the outer loop of `CRC16` for one `character`. -/
def crcUpdate (u16CRC : Nat) (character : Nat) : Nat :=
  crcShift^[8] (u16CRC ^^^ ((character <<< 8) % 65536))

/-- `CRC16(data []byte) uint16`. -/
def CRC16 (data : List Nat) : Nat :=
  data.foldl crcUpdate 0

/-- `CRC16Constant(data []byte, length int) uint16`: the second loop runs
`length - len(data)` times (not at all when that is not positive). -/
def CRC16Constant (data : List Nat) (length : Nat) : Nat :=
  (fun u16CRC => crcUpdate u16CRC SUB)^[length - data.length] (data.foldl crcUpdate 0)

/-! ## The stream -/

/-- An `io.ReadWriter` with a scripted peer.

`input` is what the peer still delivers, as the segments in which it arrives: a
`Read` never returns bytes of two segments at once. `output` lists the
successful writes, oldest first. When `input` is used up `Read` fails with
`readErr`. `writeBudget = some k` lets `k` more writes succeed and then makes
`Write` fail with `writeErr`; `none` lets every write succeed. `calls` counts
the calls of `Read` and `Write`, failed ones included. -/
structure Conn where
  input : List (List Nat)
  output : List (List Nat)
  readErr : Error
  writeErr : Error
  writeBudget : Option Nat
  calls : Nat
deriving DecidableEq, Repr

/-- What is left of the pending segments after `n` bytes of the first one were
handed out. -/
def advance (n : Nat) (seg : List Nat) (rest : List (List Nat)) : List (List Nat) :=
  if seg.length ≤ n then rest else seg.drop n :: rest

/-- The pending segments without leading empty ones. -/
def pending : List (List Nat) → List (List Nat)
  | [] => []
  | [] :: rest => pending rest
  | (b :: seg) :: rest => (b :: seg) :: rest

/-- `c.Read(buf)` with `len(buf) = n`: the bytes read (at least one and at most
`n` of them, for `n > 0`) or the error, and the stream afterwards. -/
def Conn.Read (c : Conn) (n : Nat) : Except Error (List Nat) × Conn :=
  match pending c.input with
  | [] => (.error c.readErr, { c with input := [], calls := c.calls + 1 })
  | seg :: rest =>
    (.ok (seg.take n), { c with input := advance n seg rest, calls := c.calls + 1 })

/-- `c.Write(p)`: the error, if any, and the stream afterwards. -/
def Conn.Write (c : Conn) (p : List Nat) : Option Error × Conn :=
  match c.writeBudget with
  | some 0 => (some c.writeErr, { c with calls := c.calls + 1 })
  | some (k + 1) =>
    (none, { c with output := c.output ++ [p], writeBudget := some k, calls := c.calls + 1 })
  | none => (none, { c with output := c.output ++ [p], calls := c.calls + 1 })

/-- A fresh stream whose peer delivers `input`, whose writes all succeed, and
whose `Read` fails with `io.EOF` (numbered 1) after the last segment. -/
def Conn.script (input : List (List Nat)) : Conn :=
  { input := input, output := [], readErr := 1, writeErr := 2, writeBudget := none, calls := 0 }

/-- All bytes written so far, in order. -/
def Conn.written (c : Conn) : List Nat := c.output.flatten

/-! ## Sender -/

/-- `sendBlock(c, block, data, packetPayloadLen)`. -/
def sendBlock (c : Conn) (block : Nat) (data : List Nat) (packetPayloadLen : Nat) :
    Option Error × Conn :=
  let startByte := if packetPayloadLen = XModem1KBlockLength then STX else SOH
  match c.Write [startByte] with
  | (some err, c) => (some err, c)
  | (none, c) =>
  match c.Write [block] with
  | (some err, c) => (some err, c)
  | (none, c) =>
  match c.Write [255 - block] with
  | (some err, c) => (some err, c)
  | (none, c) =>
  let paddedData := data ++ List.replicate (packetPayloadLen - data.length) SUB
  match c.Write paddedData with
  | (some err, c) => (some err, c)
  | (none, c) =>
  let u16CRC := CRC16Constant data packetPayloadLen
  match c.Write [(u16CRC >>> 8) % 256] with
  | (some err, c) => (some err, c)
  | (none, c) =>
  match c.Write [(u16CRC &&& 0xFF) % 256] with
  | (some err, c) => (some err, c)
  | (none, c) => (none, c)

/-- How the `for currentBlock < blocks && failed < 10` loop of `modemSend` ends:
with a `return err` from inside, or by its condition, with the counters it
then has. -/
inductive SendExit where
  | returned (err : Error)
  | finished (currentBlock failed : Nat)
deriving DecidableEq, Repr

/-- The slice `data[currentBlock*packetPayloadLen:]` or
`data[currentBlock*packetPayloadLen:(currentBlock+1)*packetPayloadLen]` that
`modemSend` passes to `sendBlock`. -/
def chunkAt (data : List Nat) (packetPayloadLen currentBlock : Nat) : List Nat :=
  if (currentBlock + 1) * packetPayloadLen > data.length then
    data.drop (currentBlock * packetPayloadLen)
  else
    (data.take ((currentBlock + 1) * packetPayloadLen)).drop (currentBlock * packetPayloadLen)

/-- The loop of `modemSend`. `oBuffer` is the one-byte read buffer. -/
def sendLoop (data : List Nat) (packetPayloadLen blocks : Nat) :
    Nat → Conn → Nat → Nat → Nat → Option (SendExit × Conn)
  | fuel, c, oBuffer, currentBlock, failed =>
    if currentBlock < blocks ∧ failed < 10 then
      match fuel with
      | 0 => none
      | fuel + 1 =>
        match sendBlock c ((currentBlock + 1) % 256)
            (chunkAt data packetPayloadLen currentBlock) packetPayloadLen with
        | (some err, c) => some (.returned err, c)
        | (none, c) =>
        match c.Read 1 with
        | (.error err, c) => some (.returned err, c)
        | (.ok bs, c) =>
          let oBuffer := bs.headD oBuffer
          if oBuffer = ACK then
            sendLoop data packetPayloadLen blocks fuel c oBuffer (currentBlock + 1) failed
          else
            sendLoop data packetPayloadLen blocks fuel c oBuffer currentBlock (failed + 1)
    else
      some (.finished currentBlock failed, c)

/-- The number of blocks `modemSend` computes. -/
def blockCount (data : List Nat) (packetPayloadLen : Nat) : Nat :=
  let blocks := data.length / packetPayloadLen
  if data.length > blocks * packetPayloadLen then blocks + 1 else blocks

/-- `modemSend(c, data, packetPayloadLen)`. The loop runs at most
`blocks + 10` times, which is the fuel given to it. -/
def modemSend (c : Conn) (data : List Nat) (packetPayloadLen : Nat) :
    Option (Option Error × Conn) :=
  match c.Read 1 with
  | (.error err, c) => some (some err, c)
  | (.ok bs, c) =>
    let oBuffer := bs.headD 0
    if oBuffer = POLL then
      let blocks := blockCount data packetPayloadLen
      match sendLoop data packetPayloadLen blocks (blocks + 10) c oBuffer 0 0 with
      | none => none
      | some (.returned err, c) => some (some err, c)
      | some (.finished _ _, c) =>
        match c.Write [EOT] with
        | (some err, c) => some (some err, c)
        | (none, c) => some (none, c)
    else
      some (none, c)

/-- `ModemSend(c, data)`. -/
def ModemSend (c : Conn) (data : List Nat) : Option (Option Error × Conn) :=
  modemSend c data XModemBlockLength

/-- `ModemSend1K(c, data)`. -/
def ModemSend1K (c : Conn) (data : List Nat) : Option (Option Error × Conn) :=
  modemSend c data XModem1KBlockLength

/-! ## Receiver -/

/-- The `for received < packetSize` loop of `ModemReceive`, reading into a
`dBuffer` of `dLen` bytes: the payload collected, or the error. -/
def readPayload (dLen packetSize : Nat) :
    Nat → Conn → Nat → List Nat → Option (Except Error (List Nat) × Conn)
  | fuel, c, received, pData =>
    if received < packetSize then
      match fuel with
      | 0 => none
      | fuel + 1 =>
        match c.Read dLen with
        | (.error err, c) => some (.error err, c)
        | (.ok bs, c) => readPayload dLen packetSize fuel c (received + bs.length) (pData ++ bs)
    else
      some (.ok pData, c)

/-- The header test of `ModemReceive`:
`packetCount > inverseCount || inverseCount+packetCount != 255` on `uint8`. -/
def headerRejected (packetCount inverseCount : Nat) : Bool :=
  decide (packetCount > inverseCount) || decide ((inverseCount + packetCount) % 256 ≠ 255)

/-- The `for { ... }` loop of `ModemReceive`. `data` is the output buffer,
`oBuffer` the one-byte read buffer, `dLen` the length of `dBuffer`. The result
is what `ModemReceive` returns: the bytes and the error. -/
def recvLoop : Nat → Conn → List Nat → Nat → Nat → Option ((List Nat × Option Error) × Conn)
  | 0, _, _, _, _ => none
  | fuel + 1, c, data, oBuffer, dLen =>
    match c.Read 1 with
    | (.error err, c) => some (([], some err), c)
    | (.ok bs, c) =>
    let oBuffer := bs.headD oBuffer
    let pType := oBuffer
    if pType = EOT then
      match c.Write [ACK] with
      | (some err, c) => some (([], some err), c)
      | (none, c) => some ((data, none), c)
    else
    let packetSize :=
      if pType = SOH then XModemBlockLength
      else if pType = STX then XModem1KBlockLength
      else 0
    let dLen := if pType = STX then XModem1KBlockLength else dLen
    match c.Read 1 with
    | (.error err, c) => some (([], some err), c)
    | (.ok bs, c) =>
    let oBuffer := bs.headD oBuffer
    let packetCount := oBuffer
    match c.Read 1 with
    | (.error err, c) => some (([], some err), c)
    | (.ok bs, c) =>
    let oBuffer := bs.headD oBuffer
    let inverseCount := oBuffer
    if headerRejected packetCount inverseCount then
      match c.Write [NAK] with
      | (some err, c) => some (([], some err), c)
      | (none, c) => recvLoop fuel c data oBuffer dLen
    else
    match readPayload dLen packetSize packetSize c 0 [] with
    | none => none
    | some (.error err, c) => some (([], some err), c)
    | some (.ok pData, c) =>
    match c.Read 1 with
    | (.error err, c) => some (([], some err), c)
    | (.ok bs, c) =>
    let oBuffer := bs.headD oBuffer
    let crc := oBuffer
    match c.Read 1 with
    | (.error err, c) => some (([], some err), c)
    | (.ok bs, c) =>
    let oBuffer := bs.headD oBuffer
    let crc := ((crc <<< 8) % 65536) ||| oBuffer
    let crcCalc := CRC16 pData
    if crcCalc = crc then
      match c.Write [ACK] with
      | (some err, c) => some (([], some err), c)
      | (none, c) => recvLoop fuel c (data ++ pData) oBuffer dLen
    else
      match c.Write [NAK] with
      | (some err, c) => some (([], some err), c)
      | (none, c) => recvLoop fuel c data oBuffer dLen

/-- The number of bytes still to arrive. -/
def Conn.remaining (c : Conn) : Nat := c.input.flatten.length

/-- `ModemReceive(c)`. Every pass of the loop that does not return reads at
least one byte, so `c.remaining + 1` passes are enough fuel. -/
def ModemReceive (c : Conn) : Option ((List Nat × Option Error) × Conn) :=
  match c.Write [POLL] with
  | (some err, c) => some (([], some err), c)
  | (none, c) => recvLoop (c.remaining + 1) c [] 0 XModemBlockLength

/-! ## Frames, as the specification lays them out -/

/-- The payload of a frame: the chunk followed by `SUB` up to the block length. -/
def padTo (L : Nat) (chunk : List Nat) : List Nat :=
  chunk ++ List.replicate (L - chunk.length) SUB

/-- The start marker of a block length: `STX` for 1024, `SOH` otherwise. -/
def marker (L : Nat) : Nat := if L = XModem1KBlockLength then STX else SOH

/-- The frame `[marker][blockNumber][255-blockNumber][payload][checksumHigh][checksumLow]`
as the six pieces in which it is written. -/
def frameWrites (block : Nat) (chunk : List Nat) (L : Nat) : List (List Nat) :=
  [[marker L], [block], [255 - block], padTo L chunk,
   [CRC16 (padTo L chunk) / 256], [CRC16 (padTo L chunk) % 256]]

/-! ## Blocks, as the specification splits the payload -/

/-- The chunk of the block with 0-based index `i`: `p[i*L : min((i+1)*L, len(p))]`. -/
def blockChunk (p : List Nat) (L i : Nat) : List Nat :=
  (p.take (min ((i + 1) * L) p.length)).drop (i * L)

/-- The writes of the frames of the first `n` blocks of `p`, the block with
index `i` numbered `(i + 1) mod 256`. -/
def framesOf (p : List Nat) (L n : Nat) : List (List Nat) :=
  (List.range n).flatMap (fun i => frameWrites ((i + 1) % 256) (blockChunk p L i) L)

/-- The payloads of the first `n` blocks of `p`, one after the other. -/
def payloadsOf (p : List Nat) (L n : Nat) : List Nat :=
  (List.range n).flatMap (fun i => padTo L (blockChunk p L i))

/-- The writes of the frames of the `k` blocks of `p` from index `i₀` on. -/
def framesFrom (p : List Nat) (L i₀ k : Nat) : List (List Nat) :=
  (List.range' i₀ k).flatMap (fun i => frameWrites ((i + 1) % 256) (blockChunk p L i) L)

/-- The payloads of the `k` blocks of `p` from index `i₀` on, one after the other. -/
def payloadsFrom (p : List Nat) (L i₀ k : Nat) : List Nat :=
  (List.range' i₀ k).flatMap (fun i => padTo L (blockChunk p L i))

/-! ## Sender and receiver connected back to back -/

/-- What the two ends of an in-memory loopback have written so far, write by
write. -/
structure Link where
  fromSender : List (List Nat)
  fromReceiver : List (List Nat)
deriving DecidableEq, Repr

/-- One round of the loopback. Each end is a function of what has reached it, and
no write fails or waits: first the receiver runs on everything the sender has
written so far, then the sender runs on everything the receiver has written so
far, every write arriving as one segment. An end that has used up what has
arrived gets `io.EOF` from the script, which here stands for waiting: its
writes up to that point are what it has written by then. The round counts only
if both ends extend what they had written before. -/
def Link.round (data : List Nat) (packetPayloadLen : Nat) (k : Link) : Option Link :=
  match ModemReceive (Conn.script k.fromSender) with
  | none => none
  | some (_, cr) =>
    match modemSend (Conn.script cr.output) data packetPayloadLen with
    | none => none
    | some (_, cs) =>
      if k.fromReceiver.isPrefixOf cr.output ∧ k.fromSender.isPrefixOf cs.output then
        some ⟨cs.output, cr.output⟩
      else
        none

/-- The link after a number of rounds, starting with nothing written. -/
def loopback (data : List Nat) (packetPayloadLen : Nat) : Nat → Option Link
  | 0 => some ⟨[], []⟩
  | n + 1 => (loopback data packetPayloadLen n).bind (Link.round data packetPayloadLen)

/-- What `modemSend` and `ModemReceive` return on a link that has settled: each
end, given everything the other has written, has written exactly what the link
records. The result is the sender's error and the receiver's bytes and error. -/
def Link.outcome (data : List Nat) (packetPayloadLen : Nat) (k : Link) :
    Option (Option Error × (List Nat × Option Error)) :=
  match modemSend (Conn.script k.fromReceiver) data packetPayloadLen,
      ModemReceive (Conn.script k.fromSender) with
  | some (es, cs), some (rr, cr) =>
    if cs.output = k.fromSender ∧ cr.output = k.fromReceiver then some (es, rr) else none
  | _, _ => none

/-- `modemSend(c, data, packetPayloadLen)` against a connected `ModemReceive`,
after the given number of rounds: what the two return, if the link has settled
by then. -/
def transfer (data : List Nat) (packetPayloadLen rounds : Nat) :
    Option (Option Error × (List Nat × Option Error)) :=
  (loopback data packetPayloadLen rounds).bind (Link.outcome data packetPayloadLen)

/-- The receiver's writes on a link whose sender has written the frames of `j`
blocks. -/
def acksAfter (j : Nat) : List (List Nat) :=
  if j = 0 then [] else [POLL] :: List.replicate (j - 1) [ACK]

/-! ## The checksum, as the specification defines it

CRC-16/CCITT-XMODEM: the remainder of `d(x) * x^16` on division by
`x^16 + x^12 + x^5 + 1` over GF(2), most significant bit first. -/

open Polynomial in
/-- The polynomial over GF(2) whose coefficient of `x^i`, for `i < w`, is bit `i`
of `n`. -/
noncomputable def bitsPoly (w n : Nat) : (ZMod 2)[X] :=
  ∑ i ∈ Finset.range w, if n.testBit i then X ^ i else 0

open Polynomial in
/-- The message polynomial `d(x)`: the bits of the bytes of `d`, the most
significant bit of the first byte in front. -/
noncomputable def msgPoly (d : List Nat) : (ZMod 2)[X] :=
  d.foldl (fun m b => m * X ^ 8 + bitsPoly 8 b) 0

open Polynomial in
/-- The generator polynomial `x^16 + x^12 + x^5 + 1`. -/
noncomputable def crcPoly : (ZMod 2)[X] := X ^ 16 + X ^ 12 + X ^ 5 + 1

/-! ## The sender's frames, given the responses it reads -/

/-- The writes of the frames that are answered by the responses `rs`, one frame
per response, starting at the block with index `currentBlock`: the frame of
the same block again after a response other than `ACK`, the frame of the next
block after an `ACK`. -/
def framesFor (p : List Nat) (L : Nat) : Nat → List Nat → List (List Nat)
  | _, [] => []
  | currentBlock, r :: rs =>
    frameWrites ((currentBlock + 1) % 256) (blockChunk p L currentBlock) L ++
      framesFor p L (if r = ACK then currentBlock + 1 else currentBlock) rs

/-! ## Runs of calls on the stream -/

/-- The stream `c'` is what `c` becomes by a run of `Read`s (into buffers that
are not empty) and `Write`s that all succeed. -/
inductive Steps : Conn → Conn → Prop where
  | refl (c : Conn) : Steps c c
  | read {c c₁ c₂ : Conn} (n : Nat) (bs : List Nat) :
      Steps c c₁ → 0 < n → c₁.Read n = (.ok bs, c₂) → Steps c c₂
  | write {c c₁ c₂ : Conn} (p : List Nat) :
      Steps c c₁ → c₁.Write p = (none, c₂) → Steps c c₂

/-- One call on the stream `c₁`, a `Read` or a `Write`, returns the error `e` and
leaves the stream `c₂`. -/
def Fails (c₁ : Conn) (e : Error) (c₂ : Conn) : Prop :=
  (∃ n, 0 < n ∧ c₁.Read n = (.error e, c₂)) ∨ (∃ p, c₁.Write p = (some e, c₂))

/-- What a function that was handed the stream `c` and returns the error `err`
has done to the stream, if it stops at the first call that fails and returns
the error of that call: with no error, calls that all succeeded, leading to
`c'`; with the error `e`, calls that all succeeded and then one call that
failed with `e` and left `c'`, and no call after it. -/
def Outcome (c : Conn) (err : Option Error) (c' : Conn) : Prop :=
  match err with
  | none => Steps c c'
  | some e => ∃ c₁, Steps c c₁ ∧ Fails c₁ e c'

/-- The error with which the loop of `modemSend` makes `modemSend` return, if
it does. -/
def SendExit.err : SendExit → Option Error
  | .returned e => some e
  | .finished _ _ => none

/-! # Theorems -/

/-! ## Checksum: bounds and padding -/

theorem crcShift_lt (u : Nat) : crcShift u < 65536 := by
  unfold crcShift
  split
  · exact Nat.xor_lt_two_pow (n := 16) (Nat.mod_lt _ (by decide)) (by decide)
  · exact Nat.mod_lt _ (by decide)

theorem crcUpdate_lt (u : Nat) (b : Nat) : crcUpdate u b < 65536 := by
  unfold crcUpdate
  rw [show (8 : Nat) = 7 + 1 from rfl, Function.iterate_succ_apply']
  exact crcShift_lt _

theorem foldl_crcUpdate_lt (d : List Nat) (u : Nat) (hu : u < 65536) :
    d.foldl crcUpdate u < 65536 := by
  induction d generalizing u with
  | nil => simpa using hu
  | cons b d ih => exact ih _ (crcUpdate_lt u b)

theorem CRC16_lt (d : List Nat) : CRC16 d < 65536 :=
  foldl_crcUpdate_lt d 0 (by decide)

theorem iterate_crcUpdate_eq_foldl (k : Nat) (b : Nat) (u : Nat) :
    (fun v => crcUpdate v b)^[k] u = (List.replicate k b).foldl crcUpdate u := by
  induction k generalizing u with
  | zero => rfl
  | succ k ih => simp [Function.iterate_succ_apply, List.replicate_succ, ih]

theorem CRC16Constant_eq (d : List Nat) (n : Nat) :
    CRC16Constant d n = CRC16 (d ++ List.replicate (n - d.length) SUB) := by
  simp [CRC16Constant, CRC16, List.foldl_append, iterate_crcUpdate_eq_foldl]

theorem word_split (v : Nat) (hv : v < 65536) :
    (((v >>> 8) % 256) <<< 8) % 65536 ||| ((v &&& 0xFF) % 256) = v := by
  have h1 : v >>> 8 = v / 256 := by simp [Nat.shiftRight_eq_div_pow]
  have h2 : v &&& 0xFF = v % 256 := by
    simpa using Nat.and_pow_two_sub_one_eq_mod v 8
  rw [h1, h2]
  have h3 : v / 256 < 256 := by omega
  rw [Nat.mod_eq_of_lt h3, Nat.mod_mod]
  have h4 : (v / 256) <<< 8 = 2 ^ 8 * (v / 256) := by simp [Nat.shiftLeft_eq, Nat.mul_comm]
  rw [h4, Nat.mod_eq_of_lt (by omega)]
  rw [← Nat.mul_add_lt_is_or (Nat.mod_lt v (by decide : 0 < 2 ^ 8))]
  omega


/-! ## The stream: basic facts -/

theorem Write_ok (c : Conn) (p : List Nat) (hw : c.writeBudget = none) :
    c.Write p = (none, { c with output := c.output ++ [p], calls := c.calls + 1 }) := by
  simp [Conn.Write, hw]

theorem pending_flatten (inp : List (List Nat)) : (pending inp).flatten = inp.flatten := by
  induction inp with
  | nil => rfl
  | cons seg rest ih =>
    cases seg with
    | nil => simpa [pending] using ih
    | cons b seg => rfl

theorem pending_of_flatten_cons (inp : List (List Nat)) (b : Nat) (bs : List Nat)
    (h : inp.flatten = b :: bs) :
    ∃ seg rest, pending inp = (b :: seg) :: rest ∧ seg ++ rest.flatten = bs := by
  induction inp with
  | nil => simp at h
  | cons s rest ih =>
    cases s with
    | nil => simpa [pending] using ih (by simpa using h)
    | cons a seg =>
      simp only [List.flatten_cons, List.cons_append, List.cons.injEq] at h
      exact ⟨seg, rest, by simp [pending, h.1], h.2⟩

theorem advance_one_flatten (b : Nat) (seg : List Nat) (rest : List (List Nat)) :
    (advance 1 (b :: seg) rest).flatten = seg ++ rest.flatten := by
  unfold advance
  cases seg with
  | nil => simp
  | cons a seg => simp

/-- Reading into a one-byte buffer hands out the next byte of the stream. -/
theorem Read_one (c : Conn) (b : Nat) (bs : List Nat) (h : c.input.flatten = b :: bs) :
    ∃ inp, inp.flatten = bs ∧
      c.Read 1 = (.ok [b], { c with input := inp, calls := c.calls + 1 }) := by
  obtain ⟨seg, rest, hp, hf⟩ := pending_of_flatten_cons c.input b bs h
  refine ⟨advance 1 (b :: seg) rest, ?_, ?_⟩
  · rw [advance_one_flatten, hf]
  · simp [Conn.Read, hp]

theorem pending_eq_nil (inp : List (List Nat)) (h : inp.flatten = []) : pending inp = [] := by
  induction inp with
  | nil => rfl
  | cons s rest ih =>
    simp only [List.flatten_cons, List.append_eq_nil] at h
    obtain ⟨hs, hr⟩ := h
    subst hs
    simpa [pending] using ih hr

/-- Reading from a stream with nothing left fails with the stream's error. -/
theorem Read_eof (c : Conn) (n : Nat) (h : c.input.flatten = []) :
    c.Read n = (.error c.readErr, { c with input := [], calls := c.calls + 1 }) := by
  simp [Conn.Read, pending_eq_nil c.input h]

/-- A read of a whole segment, when the buffer is at least as long. -/
theorem Read_segment (c : Conn) (n : Nat) (b : Nat) (seg : List Nat) (rest : List (List Nat))
    (h : c.input = (b :: seg) :: rest) (hn : seg.length + 1 ≤ n) :
    c.Read n = (.ok (b :: seg), { c with input := rest, calls := c.calls + 1 }) := by
  have h1 : (b :: seg).take n = b :: seg := List.take_of_length_le (by simpa using hn)
  simp [Conn.Read, h, pending, h1, advance, hn]

/-! ## Sender: one frame -/

theorem hi_lo_bytes (v : Nat) (hv : v < 65536) :
    (v >>> 8) % 256 = v / 256 ∧ (v &&& 0xFF) % 256 = v % 256 := by
  have h1 : v >>> 8 = v / 256 := by simp [Nat.shiftRight_eq_div_pow]
  have h2 : v &&& 0xFF = v % 256 := by
    simpa using Nat.and_pow_two_sub_one_eq_mod v 8
  rw [h1, h2]
  constructor <;> omega

theorem sendBlock_ok (c : Conn) (block : Nat) (data : List Nat) (L : Nat)
    (hw : c.writeBudget = none) :
    sendBlock c block data L =
      (none, { c with output := c.output ++ frameWrites block data L, calls := c.calls + 6 }) := by
  have hlt := CRC16_lt (padTo L data)
  obtain ⟨e1, e2⟩ := hi_lo_bytes _ hlt
  simp [sendBlock, Conn.Write, hw, frameWrites, marker, padTo, CRC16Constant_eq, e1, e2] at *

/-! ## Sender: splitting into blocks -/

theorem chunkAt_eq_blockChunk (p : List Nat) (L i : Nat) : chunkAt p L i = blockChunk p L i := by
  unfold chunkAt blockChunk
  split
  · rename_i h
    rw [Nat.min_eq_right (Nat.le_of_lt h), List.take_length]
  · rename_i h
    rw [Nat.min_eq_left (Nat.le_of_not_lt h)]

theorem blockChunk_eq (p : List Nat) (L i : Nat) : blockChunk p L i = (p.drop (i * L)).take L := by
  unfold blockChunk
  rw [List.drop_take]
  rcases Nat.le_total ((i + 1) * L) p.length with h | h
  · rw [Nat.min_eq_left h]
    congr 1
    rw [Nat.add_mul, Nat.one_mul, Nat.add_sub_cancel_left]
  · rw [Nat.min_eq_right h]
    rw [List.take_of_length_le (by simp), List.take_of_length_le]
    simp only [List.length_drop]
    rw [Nat.add_mul, Nat.one_mul] at h
    omega

theorem blockChunk_length_le (p : List Nat) (L i : Nat) : (blockChunk p L i).length ≤ L := by
  rw [blockChunk_eq]
  simp [List.length_take]

theorem blockChunk_succ (p : List Nat) (L i : Nat) :
    blockChunk p L (i + 1) = blockChunk (p.drop L) L i := by
  rw [blockChunk_eq, blockChunk_eq, List.drop_drop]
  congr 2
  rw [Nat.add_mul, Nat.one_mul, Nat.add_comm]

theorem payloadsOf_succ' (p : List Nat) (L n : Nat) :
    payloadsOf p L (n + 1) = padTo L (p.take L) ++ payloadsOf (p.drop L) L n := by
  unfold payloadsOf
  rw [List.range_succ_eq_map]
  simp only [List.flatMap_cons, List.flatMap_map]
  congr 1
  · rw [blockChunk_eq]; simp
  · congr 1
    funext i
    rw [blockChunk_succ]

/-- The payloads of the first `n` blocks are the first `n * L` bytes of the
payload, followed by `SUB` where the payload is shorter. -/
theorem payloadsOf_eq (L n : Nat) (p : List Nat) :
    payloadsOf p L n = p.take (n * L) ++ List.replicate (n * L - p.length) SUB := by
  induction n generalizing p with
  | zero => simp [payloadsOf]
  | succ n ih =>
    rw [payloadsOf_succ', ih, padTo]
    rcases Nat.lt_or_ge p.length L with h | h
    · have h1 : p.take L = p := List.take_of_length_le (Nat.le_of_lt h)
      have h2 : p.drop L = [] := List.drop_of_length_le (Nat.le_of_lt h)
      have h3 : p.take ((n + 1) * L) = p :=
        List.take_of_length_le (by rw [Nat.add_mul, Nat.one_mul]; omega)
      rw [h1, h2, h3]
      simp only [List.take_nil, List.length_nil, Nat.sub_zero, List.nil_append, List.append_assoc,
        List.append_replicate_replicate]
      congr 2
      rw [Nat.add_mul, Nat.one_mul]; omega
    · have h1 : (p.take L).length = L := by simp [List.length_take, h]
      rw [h1, Nat.sub_self]
      simp only [List.replicate_zero, List.append_nil, List.length_drop]
      rw [← List.append_assoc]
      congr 1
      · rw [show (n + 1) * L = L + n * L by rw [Nat.add_mul, Nat.one_mul, Nat.add_comm]]
        rw [List.take_add]
      · congr 1
        rw [Nat.add_mul, Nat.one_mul]; omega

/-! ## Sender: the loop -/

theorem blockCount_eq (p : List Nat) (L : Nat) (hL : 0 < L) :
    blockCount p L = (p.length + L - 1) / L := by
  unfold blockCount
  simp only
  have hd := Nat.div_add_mod p.length L
  have hm := Nat.mod_lt p.length hL
  have hc : L * (p.length / L) = p.length / L * L := Nat.mul_comm _ _
  symm
  split
  · rename_i h
    apply Nat.div_eq_of_lt_le
    · rw [Nat.add_mul, Nat.one_mul] ; omega
    · rw [Nat.add_mul, Nat.one_mul, Nat.add_mul, Nat.one_mul]; omega
  · rename_i h
    apply Nat.div_eq_of_lt_le
    · omega
    · rw [Nat.add_mul, Nat.one_mul]; omega

theorem framesOf_succ (p : List Nat) (L n : Nat) :
    framesOf p L (n + 1) = framesOf p L n ++ frameWrites ((n + 1) % 256) (blockChunk p L n) L := by
  simp [framesOf, List.range_succ, List.flatMap_append]

/-- One pass of the sender's loop: the frame of the current block is written and
one response byte `r` is read; `ACK` moves on to the next block, anything else
counts as a failure. -/
theorem sendLoop_step (data : List Nat) (L blocks fuel : Nat) (c : Conn) (ob cb failed r : Nat)
    (bs : List Nat) (hcb : cb < blocks) (hf : failed < 10) (hw : c.writeBudget = none)
    (hin : c.input.flatten = r :: bs) :
    ∃ inp, inp.flatten = bs ∧
      sendLoop data L blocks (fuel + 1) c ob cb failed =
        sendLoop data L blocks fuel
          { c with
            input := inp
            output := c.output ++ frameWrites ((cb + 1) % 256) (blockChunk data L cb) L
            calls := c.calls + 7 }
          r (if r = ACK then cb + 1 else cb) (if r = ACK then failed else failed + 1) := by
  obtain ⟨inp, hinp, hr⟩ := Read_one
    { c with output := c.output ++ frameWrites ((cb + 1) % 256) (blockChunk data L cb) L,
             calls := c.calls + 6 } r bs hin
  refine ⟨inp, hinp, ?_⟩
  rw [sendLoop]
  simp only [hcb, hf, and_self, if_true]
  rw [sendBlock_ok c _ _ _ hw, chunkAt_eq_blockChunk]
  simp only [hr, List.headD_cons]
  split <;> rfl

theorem framesOf_eq_framesFrom (p : List Nat) (L n : Nat) : framesOf p L n = framesFrom p L 0 n := by
  simp [framesOf, framesFrom, List.range_eq_range']

theorem framesFrom_succ (p : List Nat) (L i k : Nat) :
    framesFrom p L i (k + 1) =
      frameWrites ((i + 1) % 256) (blockChunk p L i) L ++ framesFrom p L (i + 1) k := by
  simp [framesFrom, List.range'_succ]

/-- The sender's loop when the next `k` responses are all `ACK` and `k` blocks
are left: it writes their frames and ends with every block sent. -/
theorem sendLoop_acks (data : List Nat) (L blocks : Nat) :
    ∀ (k fuel : Nat) (c : Conn) (ob cb failed : Nat) (rest : List Nat),
      cb + k = blocks → k ≤ fuel → failed < 10 → c.writeBudget = none →
      c.input.flatten = List.replicate k ACK ++ rest →
      ∃ inp, inp.flatten = rest ∧
        sendLoop data L blocks fuel c ob cb failed =
          some (.finished blocks failed,
            { c with
              input := inp
              output := c.output ++ framesFrom data L cb k
              calls := c.calls + 7 * k }) := by
  intro k
  induction k with
  | zero =>
    intro fuel c ob cb failed rest hcb _ _ _ hin
    refine ⟨c.input, by simpa using hin, ?_⟩
    have : ¬ cb < blocks := by omega
    rw [sendLoop.eq_def]
    simp [this, framesFrom]
    omega
  | succ k ih =>
    intro fuel c ob cb failed rest hcb hfuel hf hw hin
    obtain ⟨fuel, rfl⟩ : ∃ f, fuel = f + 1 := ⟨fuel - 1, by omega⟩
    obtain ⟨inp, hinp, hstep⟩ := sendLoop_step data L blocks fuel c ob cb failed ACK
      (List.replicate k ACK ++ rest) (by omega) hf hw (by simpa [List.replicate_succ] using hin)
    obtain ⟨inp', hinp', hrun⟩ := ih fuel
      { c with
        input := inp
        output := c.output ++ frameWrites ((cb + 1) % 256) (blockChunk data L cb) L
        calls := c.calls + 7 }
      ACK (cb + 1) failed rest (by omega) (by omega) hf hw hinp
    refine ⟨inp', hinp', ?_⟩
    rw [hstep]
    simp only [if_true] at hrun ⊢
    rw [hrun, framesFrom_succ]
    simp only [List.append_assoc, Option.some.injEq, Prod.mk.injEq, true_and, Conn.mk.injEq,
      and_true]
    omega

theorem modemSend_acks (c : Conn) (data : List Nat) (L : Nat) (rest : List Nat)
    (hw : c.writeBudget = none)
    (hin : c.input.flatten = POLL :: (List.replicate (blockCount data L) ACK ++ rest)) :
    ∃ inp, inp.flatten = rest ∧
      modemSend c data L =
        some (none,
          { c with
            input := inp
            output := c.output ++ framesOf data L (blockCount data L) ++ [[EOT]]
            calls := c.calls + 7 * blockCount data L + 2 }) := by
  obtain ⟨inp, hinp, hr⟩ := Read_one c POLL _ hin
  obtain ⟨inp', hinp', hrun⟩ := sendLoop_acks data L (blockCount data L) (blockCount data L)
    (blockCount data L + 10) { c with input := inp, calls := c.calls + 1 } POLL 0 0 rest
    (by omega) (by omega) (by omega) hw hinp
  refine ⟨inp', hinp', ?_⟩
  unfold modemSend
  simp only [hr, List.headD_cons, if_true, hrun]
  simp only [Conn.Write, hw, framesOf_eq_framesFrom, Option.some.injEq, Prod.mk.injEq, true_and,
    Conn.mk.injEq, and_true]
  omega

/-! ## Receiver: one frame -/

theorem padTo_length (L : Nat) (chunk : List Nat) (h : chunk.length ≤ L) :
    (padTo L chunk).length = L := by
  simp [padTo]; omega

theorem Read_cons (seg : List Nat) (rest out : List (List Nat)) (re we : Error)
    (wb : Option Nat) (calls n : Nat) (hne : seg ≠ []) (hn : seg.length ≤ n) :
    Conn.Read ⟨seg :: rest, out, re, we, wb, calls⟩ n =
      (.ok seg, ⟨rest, out, re, we, wb, calls + 1⟩) := by
  cases seg with
  | nil => exact absurd rfl hne
  | cons b seg =>
    have h1 : (b :: seg).take n = b :: seg := List.take_of_length_le hn
    have h2 : seg.length + 1 ≤ n := by simpa using hn
    simp [Conn.Read, pending, h1, advance, h2]

theorem headerRejected_false (b : Nat) (hb : b ≤ 127) : headerRejected b (255 - b) = false := by
  have h1 : ¬ b > 255 - b := by omega
  have h2 : (255 - b + b) % 256 = 255 := by omega
  simp [headerRejected, h1, h2]

theorem readPayload_one (dLen L : Nat) (seg : List Nat) (rest out : List (List Nat))
    (re we : Error) (wb : Option Nat) (calls fuel : Nat) (hL : 0 < L)
    (hseg : seg.length = L) (hd : L ≤ dLen) :
    readPayload dLen L (fuel + 1) ⟨seg :: rest, out, re, we, wb, calls⟩ 0 [] =
      some (.ok seg, ⟨rest, out, re, we, wb, calls + 1⟩) := by
  have hne : seg ≠ [] := by
    intro h; subst h; simp at hseg; omega
  rw [readPayload]
  simp only [hL, if_true]
  rw [Read_cons seg rest out re we wb calls dLen hne (by omega)]
  simp only [Nat.zero_add, List.nil_append]
  rw [readPayload.eq_def]
  simp [hseg]

theorem Write_mk (inp out : List (List Nat)) (re we : Error) (calls : Nat) (p : List Nat) :
    Conn.Write ⟨inp, out, re, we, none, calls⟩ p = (none, ⟨inp, out ++ [p], re, we, none, calls + 1⟩) :=
  rfl

theorem crc_recombine (v : Nat) (hv : v < 65536) : ((v / 256) <<< 8) % 65536 ||| v % 256 = v := by
  have h := word_split v hv
  obtain ⟨e1, e2⟩ := hi_lo_bytes v hv
  rw [e1, e2] at h
  exact h

/-- One pass of the receiver's loop over a frame as `sendBlock` writes it, with a
block number the header test lets through: the payload is appended and `ACK`
is written. -/
theorem recvLoop_frame (fuel : Nat) (c : Conn) (data : List Nat) (ob dLen b : Nat)
    (chunk : List Nat) (L : Nat) (rest : List (List Nat))
    (hL : L = 128 ∨ L = 1024) (hb : b ≤ 127) (hlen : chunk.length ≤ L) (hd : 128 ≤ dLen)
    (hw : c.writeBudget = none) (hin : c.input = frameWrites b chunk L ++ rest) :
    recvLoop (fuel + 1) c data ob dLen =
      recvLoop fuel
        { c with input := rest, output := c.output ++ [[ACK]], calls := c.calls + 7 }
        (data ++ padTo L chunk) (CRC16 (padTo L chunk) % 256)
        (if L = 1024 then 1024 else dLen) := by
  obtain ⟨inp, out, re, we, wb, calls⟩ := c
  simp only at hw hin
  subst hw hin
  have hpl := padTo_length L chunk hlen
  have hcrc := crc_recombine _ (CRC16_lt (padTo L chunk))
  have hrej := headerRejected_false b hb
  rw [recvLoop]
  simp only [frameWrites, List.cons_append, List.nil_append]
  rw [Read_cons _ _ _ _ _ _ _ 1 (by simp) (by simp)]
  simp only [List.headD_cons]
  rcases hL with rfl | rfl
  · have hm : marker 128 = SOH := by decide
    rw [hm]
    simp only [show SOH ≠ EOT by decide, if_false, if_true, show SOH ≠ STX by decide]
    rw [Read_cons _ _ _ _ _ _ _ 1 (by simp) (by simp)]
    simp only [List.headD_cons]
    rw [Read_cons _ _ _ _ _ _ _ 1 (by simp) (by simp)]
    simp only [List.headD_cons, hrej]
    simp only [XModemBlockLength]
    rw [show (128 : Nat) = 127 + 1 from rfl]
    rw [readPayload_one dLen (127 + 1) _ _ _ _ _ _ _ _ (by omega) hpl hd]
    simp only []
    rw [Read_cons _ _ _ _ _ _ _ 1 (by simp) (by simp)]
    simp only [List.headD_cons]
    rw [Read_cons _ _ _ _ _ _ _ 1 (by simp) (by simp)]
    simp only [List.headD_cons, hcrc, if_true, Write_mk]
    simp
  · have hm : marker 1024 = STX := by decide
    rw [hm]
    simp only [show STX ≠ EOT by decide, if_false, if_true, show STX ≠ SOH by decide]
    rw [Read_cons _ _ _ _ _ _ _ 1 (by simp) (by simp)]
    simp only [List.headD_cons]
    rw [Read_cons _ _ _ _ _ _ _ 1 (by simp) (by simp)]
    simp only [List.headD_cons, hrej]
    simp only [XModem1KBlockLength]
    rw [show (1024 : Nat) = 1023 + 1 from rfl]
    rw [readPayload_one (1023 + 1) (1023 + 1) _ _ _ _ _ _ _ _ (by omega) hpl (by omega)]
    simp only []
    rw [Read_cons _ _ _ _ _ _ _ 1 (by simp) (by simp)]
    simp only [List.headD_cons]
    rw [Read_cons _ _ _ _ _ _ _ 1 (by simp) (by simp)]
    simp only [List.headD_cons, hcrc, if_true, Write_mk]
    simp

/-! ## Receiver: a run of frames -/

theorem payloadsOf_eq_payloadsFrom (p : List Nat) (L n : Nat) :
    payloadsOf p L n = payloadsFrom p L 0 n := by
  simp [payloadsOf, payloadsFrom, List.range_eq_range']

theorem payloadsFrom_succ (p : List Nat) (L i k : Nat) :
    payloadsFrom p L i (k + 1) = padTo L (blockChunk p L i) ++ payloadsFrom p L (i + 1) k := by
  simp [payloadsFrom, List.range'_succ]

theorem framesFrom_flatten_length (p : List Nat) (L i k : Nat) :
    (framesFrom p L i k).flatten.length = k * (L + 5) := by
  induction k generalizing i with
  | zero => simp [framesFrom]
  | succ k ih =>
    rw [framesFrom_succ, List.flatten_append, List.length_append, ih]
    have := padTo_length L _ (blockChunk_length_le p L i)
    simp [frameWrites, this, Nat.add_mul]
    omega

/-- The receiver's loop over the frames of `k` consecutive blocks, numbered at
most 127: every one is answered with `ACK` and its payload is appended. -/
theorem recvLoop_frames (p : List Nat) (L : Nat) (hL : L = 128 ∨ L = 1024) :
    ∀ (k i fuel : Nat) (c : Conn) (data : List Nat) (ob dLen : Nat) (rest : List (List Nat)),
      i + k ≤ 127 → 128 ≤ dLen → c.writeBudget = none →
      c.input = framesFrom p L i k ++ rest →
      ∃ ob' dLen', 128 ≤ dLen' ∧
        recvLoop (fuel + k) c data ob dLen =
          recvLoop fuel
            { c with
              input := rest
              output := c.output ++ List.replicate k [ACK]
              calls := c.calls + 7 * k }
            (data ++ payloadsFrom p L i k) ob' dLen' := by
  intro k
  induction k with
  | zero =>
    intro i fuel c data ob dLen rest _ hd _ hin
    refine ⟨ob, dLen, hd, ?_⟩
    simp only [framesFrom, List.range'_zero, List.flatMap_nil, List.nil_append] at hin
    simp [payloadsFrom, ← hin]
  | succ k ih =>
    intro i fuel c data ob dLen rest hik hd hw hin
    rw [framesFrom_succ, List.append_assoc] at hin
    have hmod : (i + 1) % 256 = i + 1 := Nat.mod_eq_of_lt (by omega)
    rw [hmod] at hin
    have hstep := recvLoop_frame (fuel + k) c data ob dLen (i + 1) (blockChunk p L i) L
      (framesFrom p L (i + 1) k ++ rest) hL (by omega) (blockChunk_length_le p L i) hd hw hin
    obtain ⟨ob', dLen', hd', hrun⟩ := ih (i + 1) fuel
      { c with
        input := framesFrom p L (i + 1) k ++ rest
        output := c.output ++ [[ACK]]
        calls := c.calls + 7 }
      (data ++ padTo L (blockChunk p L i)) (CRC16 (padTo L (blockChunk p L i)) % 256)
      (if L = 1024 then 1024 else dLen) rest (by omega) (by split <;> omega) hw rfl
    refine ⟨ob', dLen', hd', ?_⟩
    rw [show fuel + (k + 1) = fuel + k + 1 from rfl, hstep, hrun, payloadsFrom_succ]
    simp only [List.append_assoc, List.replicate_succ, List.singleton_append]
    congr 2
    omega

theorem recvLoop_eot (fuel : Nat) (c : Conn) (data : List Nat) (ob dLen : Nat)
    (rest : List (List Nat)) (hw : c.writeBudget = none) (hin : c.input = [EOT] :: rest) :
    recvLoop (fuel + 1) c data ob dLen =
      some ((data, none),
        { c with input := rest, output := c.output ++ [[ACK]], calls := c.calls + 2 }) := by
  obtain ⟨inp, out, re, we, wb, calls⟩ := c
  simp only at hw hin
  subst hw hin
  rw [recvLoop, Read_cons _ _ _ _ _ _ _ 1 (by simp) (by simp)]
  simp [Write_mk]

theorem recvLoop_eof (fuel : Nat) (c : Conn) (data : List Nat) (ob dLen : Nat)
    (hin : c.input.flatten = []) :
    recvLoop (fuel + 1) c data ob dLen =
      some (([], some c.readErr), { c with input := [], calls := c.calls + 1 }) := by
  rw [recvLoop, Read_eof c 1 hin]

/-- `ModemReceive` on the frames of the first `k ≤ 127` blocks followed by `EOT`:
it acknowledges every frame and the `EOT`, and returns the payloads. -/
theorem ModemReceive_frames_eot (p : List Nat) (L : Nat) (hL : L = 128 ∨ L = 1024) (k : Nat)
    (hk : k ≤ 127) (c : Conn) (rest : List (List Nat)) (hw : c.writeBudget = none)
    (hin : c.input = framesOf p L k ++ [EOT] :: rest) :
    ModemReceive c =
      some ((payloadsOf p L k, none),
        { c with
          input := rest
          output := c.output ++ [POLL] :: (List.replicate k [ACK] ++ [[ACK]])
          calls := c.calls + 7 * k + 3 }) := by
  unfold ModemReceive
  rw [Write_ok c _ hw]
  simp only
  rw [framesOf_eq_framesFrom] at hin
  have hrem : ({ c with output := c.output ++ [[POLL]], calls := c.calls + 1 } : Conn).remaining + 1
      = (k * (L + 4) + rest.flatten.length + 1) + 1 + k := by
    simp only [Conn.remaining, hin, List.flatten_append, List.length_append,
      framesFrom_flatten_length, List.flatten_cons, List.length_cons, List.length_nil, Nat.mul_add]
    omega
  rw [hrem]
  obtain ⟨ob', dLen', _, hrun⟩ := recvLoop_frames p L hL k 0 (k * (L + 4) + rest.flatten.length + 1 + 1)
    { c with output := c.output ++ [[POLL]], calls := c.calls + 1 } [] 0 XModemBlockLength
    ([EOT] :: rest) (by omega) (by decide) hw hin
  rw [hrun, recvLoop_eot _ _ _ _ _ rest (by exact hw) (by rfl), payloadsOf_eq_payloadsFrom]
  simp only [List.nil_append, List.append_assoc, List.singleton_append, List.cons_append,
    Option.some.injEq, Prod.mk.injEq, true_and, Conn.mk.injEq, and_true]
  omega

/-- `ModemReceive` on the frames of the first `k ≤ 127` blocks and nothing more:
it acknowledges every frame and then finds the stream exhausted. -/
theorem ModemReceive_frames_eof (p : List Nat) (L : Nat) (hL : L = 128 ∨ L = 1024) (k : Nat)
    (hk : k ≤ 127) (c : Conn) (hw : c.writeBudget = none) (hin : c.input = framesOf p L k) :
    ModemReceive c =
      some (([], some c.readErr),
        { c with
          input := []
          output := c.output ++ [POLL] :: List.replicate k [ACK]
          calls := c.calls + 7 * k + 2 }) := by
  unfold ModemReceive
  rw [Write_ok c _ hw]
  simp only
  rw [framesOf_eq_framesFrom] at hin
  have hrem : ({ c with output := c.output ++ [[POLL]], calls := c.calls + 1 } : Conn).remaining + 1
      = (k * (L + 4)) + 1 + k := by
    simp only [Conn.remaining, hin, framesFrom_flatten_length, Nat.mul_add]
    omega
  rw [hrem]
  obtain ⟨ob', dLen', _, hrun⟩ := recvLoop_frames p L hL k 0 (k * (L + 4) + 1)
    { c with output := c.output ++ [[POLL]], calls := c.calls + 1 } [] 0 XModemBlockLength
    [] (by omega) (by decide) hw (by simpa using hin)
  rw [hrun, recvLoop_eof _ _ _ _ _ (by simp)]
  simp only [List.nil_append, List.append_assoc, List.singleton_append, List.cons_append,
    Option.some.injEq, Prod.mk.injEq, true_and, Conn.mk.injEq, and_true]
  omega

/-! ## Sender: responses that run out -/

theorem sendLoop_acks_eof (data : List Nat) (L blocks : Nat) :
    ∀ (k fuel : Nat) (c : Conn) (ob cb failed : Nat),
      cb + k < blocks → k < fuel → failed < 10 → c.writeBudget = none →
      c.input.flatten = List.replicate k ACK →
      sendLoop data L blocks fuel c ob cb failed =
        some (.returned c.readErr,
          { c with
            input := []
            output := c.output ++ framesFrom data L cb (k + 1)
            calls := c.calls + 7 * (k + 1) }) := by
  intro k
  induction k with
  | zero =>
    intro fuel c ob cb failed hcb hfuel hf hw hin
    obtain ⟨fuel, rfl⟩ : ∃ f, fuel = f + 1 := ⟨fuel - 1, by omega⟩
    have hcb' : cb < blocks := by omega
    rw [sendLoop]
    simp only [hcb', hf, and_self, if_true]
    rw [sendBlock_ok c _ _ _ hw, chunkAt_eq_blockChunk]
    simp only
    rw [Read_eof _ 1 (by simpa using hin)]
    simp [framesFrom]
  | succ k ih =>
    intro fuel c ob cb failed hcb hfuel hf hw hin
    obtain ⟨fuel, rfl⟩ : ∃ f, fuel = f + 1 := ⟨fuel - 1, by omega⟩
    obtain ⟨inp, hinp, hstep⟩ := sendLoop_step data L blocks fuel c ob cb failed ACK
      (List.replicate k ACK) (by omega) hf hw (by simpa [List.replicate_succ] using hin)
    have hrun := ih fuel
      { c with
        input := inp
        output := c.output ++ frameWrites ((cb + 1) % 256) (blockChunk data L cb) L
        calls := c.calls + 7 }
      ACK (cb + 1) failed (by omega) (by omega) hf hw hinp
    rw [hstep]
    simp only [if_true] at hrun ⊢
    rw [hrun, framesFrom_succ data L cb (k + 1)]
    simp only [List.append_assoc, Option.some.injEq, Prod.mk.injEq, true_and, Conn.mk.injEq,
      and_true]
    omega

/-- `modemSend` when `POLL` and then `k` times `ACK` arrive, fewer than there are
blocks: the frames of the first `k + 1` blocks are written, and the next read
finds the stream exhausted. -/
theorem modemSend_acks_eof (c : Conn) (data : List Nat) (L k : Nat)
    (hw : c.writeBudget = none) (hk : k < blockCount data L)
    (hin : c.input.flatten = POLL :: List.replicate k ACK) :
    modemSend c data L =
      some (some c.readErr,
        { c with
          input := []
          output := c.output ++ framesOf data L (k + 1)
          calls := c.calls + 7 * (k + 1) + 1 }) := by
  obtain ⟨inp, hinp, hr⟩ := Read_one c POLL _ hin
  have hrun := sendLoop_acks_eof data L (blockCount data L) k
    (blockCount data L + 10) { c with input := inp, calls := c.calls + 1 } POLL 0 0
    (by omega) (by omega) (by omega) hw hinp
  unfold modemSend
  simp only [hr, List.headD_cons, if_true, hrun]
  simp only [framesOf_eq_framesFrom, Option.some.injEq, Prod.mk.injEq, true_and,
    Conn.mk.injEq, and_true]
  omega

/-! ## The loopback -/

theorem flatten_poll_acks (j : Nat) :
    ([POLL] :: List.replicate j [ACK]).flatten = POLL :: List.replicate j ACK := by
  induction j with
  | zero => rfl
  | succ j ih =>
    simp only [List.flatten_cons, List.singleton_append, List.cons.injEq, true_and] at ih ⊢
    rw [List.replicate_succ, List.flatten_cons, ih, List.replicate_succ]
    rfl

theorem isPrefixOf_append (l m : List (List Nat)) : l.isPrefixOf (l ++ m) = true := by
  rw [List.isPrefixOf_iff_prefix]
  exact List.prefix_append l m

theorem loopback_frames (p : List Nat) (L : Nat) (hL : L = 128 ∨ L = 1024)
    (hB : blockCount p L ≤ 127) :
    ∀ j, j ≤ blockCount p L → loopback p L j = some ⟨framesOf p L j, acksAfter j⟩ := by
  intro j
  induction j with
  | zero => intro _; simp [loopback, framesOf, acksAfter]
  | succ j ih =>
    intro hj
    rw [loopback, ih (by omega)]
    simp only [Option.some_bind, Link.round]
    rw [ModemReceive_frames_eof p L hL j (by omega) (Conn.script (framesOf p L j)) rfl rfl]
    simp only [Conn.script, List.nil_append]
    rw [modemSend_acks_eof _ p L j rfl (by omega) (by simp [flatten_poll_acks j])]
    simp only [List.nil_append]
    have h1 : (acksAfter j).isPrefixOf ([POLL] :: List.replicate j [ACK]) = true := by
      unfold acksAfter
      split
      · simp
      · rename_i hj0
        obtain ⟨i, rfl⟩ : ∃ i, j = i + 1 := ⟨j - 1, by omega⟩
        rw [List.isPrefixOf_iff_prefix]
        simp only [Nat.add_sub_cancel, List.replicate_succ']
        exact ⟨[[ACK]], by simp⟩
    have h2 : (framesOf p L j).isPrefixOf (framesOf p L (j + 1)) = true := by
      rw [framesOf_succ]; exact isPrefixOf_append _ _
    simp only [h1, h2, and_self, if_true]
    simp [acksAfter]

theorem acksAfter_prefix (j : Nat) :
    (acksAfter j).isPrefixOf ([POLL] :: List.replicate j [ACK]) = true := by
  unfold acksAfter
  split
  · simp
  · obtain ⟨i, rfl⟩ : ∃ i, j = i + 1 := ⟨j - 1, by omega⟩
    rw [List.isPrefixOf_iff_prefix]
    simp only [Nat.add_sub_cancel, List.replicate_succ']
    exact ⟨[[ACK]], by simp⟩

theorem loopback_eot (p : List Nat) (L : Nat) (hL : L = 128 ∨ L = 1024)
    (hB : blockCount p L ≤ 127) :
    loopback p L (blockCount p L + 1) =
      some ⟨framesOf p L (blockCount p L) ++ [[EOT]],
        [POLL] :: List.replicate (blockCount p L) [ACK]⟩ := by
  rw [loopback, loopback_frames p L hL hB _ (Nat.le_refl _)]
  simp only [Option.some_bind, Link.round]
  rw [ModemReceive_frames_eof p L hL _ hB (Conn.script (framesOf p L _)) rfl rfl]
  simp only [Conn.script, List.nil_append]
  obtain ⟨inp, _, hs⟩ := modemSend_acks
    ⟨[POLL] :: List.replicate (blockCount p L) [ACK], [], 1, 2, none, 0⟩ p L [] rfl
    (by simp [flatten_poll_acks])
  rw [hs]
  simp only [List.nil_append, acksAfter_prefix, isPrefixOf_append, and_self, if_true]

theorem loopback_settled (p : List Nat) (L : Nat) (hL : L = 128 ∨ L = 1024)
    (hB : blockCount p L ≤ 127) :
    loopback p L (blockCount p L + 2) =
      some ⟨framesOf p L (blockCount p L) ++ [[EOT]],
        [POLL] :: (List.replicate (blockCount p L) [ACK] ++ [[ACK]])⟩ := by
  rw [loopback, loopback_eot p L hL hB]
  simp only [Option.some_bind, Link.round]
  rw [ModemReceive_frames_eot p L hL _ hB (Conn.script _) [] rfl rfl]
  simp only [Conn.script, List.nil_append]
  obtain ⟨inp, _, hs⟩ := modemSend_acks
    ⟨[POLL] :: (List.replicate (blockCount p L) [ACK] ++ [[ACK]]), [], 1, 2, none, 0⟩ p L [ACK] rfl
    (by simp [flatten_poll_acks])
  rw [hs]
  have h1 : ([POLL] :: List.replicate (blockCount p L) [ACK]).isPrefixOf
      ([POLL] :: (List.replicate (blockCount p L) [ACK] ++ [[ACK]])) = true :=
    isPrefixOf_append ([POLL] :: List.replicate (blockCount p L) [ACK]) [[ACK]]
  simp only [List.nil_append, h1, List.isPrefixOf_iff_prefix, List.prefix_refl, and_self,
    if_true]

/-- A payload of at most 127 blocks sent over the loopback: after `blocks + 2`
rounds both ends have returned without error and the receiver has the
payloads of all blocks. -/
theorem transfer_ok (p : List Nat) (L : Nat) (hL : L = 128 ∨ L = 1024)
    (hB : blockCount p L ≤ 127) :
    transfer p L (blockCount p L + 2) =
      some (none, (payloadsOf p L (blockCount p L), none)) := by
  rw [transfer, loopback_settled p L hL hB]
  simp only [Option.some_bind, Link.outcome]
  rw [ModemReceive_frames_eot p L hL _ hB (Conn.script _) [] rfl rfl]
  obtain ⟨inp, _, hs⟩ := modemSend_acks
    (Conn.script ([POLL] :: (List.replicate (blockCount p L) [ACK] ++ [[ACK]]))) p L [ACK] rfl
    (by simp [Conn.script, flatten_poll_acks])
  rw [hs]
  simp [Conn.script]

theorem blockCount_mul_ge (p : List Nat) (L : Nat) (hL : 0 < L) :
    p.length ≤ blockCount p L * L := by
  unfold blockCount
  simp only
  have hd := Nat.div_add_mod p.length L
  have hm := Nat.mod_lt p.length hL
  have hc : L * (p.length / L) = p.length / L * L := Nat.mul_comm _ _
  split
  · rw [Nat.add_mul, Nat.one_mul]; omega
  · omega

/-- All blocks' payloads together are the payload padded with `SUB` to a whole
number of blocks. -/
theorem payloadsOf_blockCount (p : List Nat) (L : Nat) (hL : 0 < L) :
    payloadsOf p L (blockCount p L) =
      p ++ List.replicate (blockCount p L * L - p.length) SUB := by
  rw [payloadsOf_eq, List.take_of_length_le (blockCount_mul_ge p L hL)]

/-! ## Receiver: rejected headers -/

/-- One pass of the receiver's loop over a header the header test rejects: three
bytes are read, `NAK` is written, and the loop starts over with the output
buffer as it was. -/
theorem recvLoop_header_rejected (fuel : Nat) (c : Conn) (data : List Nat)
    (ob dLen pType packetCount inverseCount : Nat) (bs : List Nat)
    (ht : pType ≠ EOT) (hrej : headerRejected packetCount inverseCount = true)
    (hw : c.writeBudget = none)
    (hin : c.input.flatten = pType :: packetCount :: inverseCount :: bs) :
    ∃ inp, inp.flatten = bs ∧
      recvLoop (fuel + 1) c data ob dLen =
        recvLoop fuel
          { c with input := inp, output := c.output ++ [[NAK]], calls := c.calls + 4 }
          data inverseCount (if pType = STX then XModem1KBlockLength else dLen) := by
  obtain ⟨inp1, hinp1, h1⟩ := Read_one c pType _ hin
  obtain ⟨inp2, hinp2, h2⟩ := Read_one { c with input := inp1, calls := c.calls + 1 }
    packetCount _ hinp1
  obtain ⟨inp3, hinp3, h3⟩ := Read_one { c with input := inp2, calls := c.calls + 1 + 1 }
    inverseCount _ hinp2
  refine ⟨inp3, hinp3, ?_⟩
  rw [recvLoop]
  simp only [h1, List.headD_cons, ht, if_false]
  simp only [h2, List.headD_cons]
  simp only [h3, List.headD_cons, hrej, if_true]
  simp only [Conn.Write, hw]

theorem headerRejected_of_ne (packetCount inverseCount : Nat) (hp : packetCount < 256)
    (hi : inverseCount < 256) (h : inverseCount ≠ 255 - packetCount) :
    headerRejected packetCount inverseCount = true := by
  have : (inverseCount + packetCount) % 256 ≠ 255 := by omega
  simp [headerRejected, this]

/-! ## Checksum: the shift step, bit by bit -/

theorem and_bit15 (u : Nat) : u &&& 0x8000 = if u.testBit 15 then 0x8000 else 0 := by
  have h15 : ∀ i, Nat.testBit 32768 i = decide (15 = i) := by
    intro i
    rw [show (32768 : Nat) = 2 ^ 15 from rfl]
    exact Nat.testBit_two_pow
  apply Nat.eq_of_testBit_eq
  intro i
  rw [Nat.testBit_and, h15]
  by_cases h : 15 = i
  · subst h
    cases hb : u.testBit 15 <;> simp [h15]
  · cases hb : u.testBit 15 <;> simp [h, h15]

theorem and_bit15_pos (u : Nat) : u &&& 0x8000 > 0 ↔ u.testBit 15 = true := by
  rw [and_bit15]
  cases u.testBit 15 <;> simp

theorem testBit_eq_false_of_lt (u i n : Nat) (hu : u < 2 ^ n) (hi : n ≤ i) :
    u.testBit i = false :=
  Nat.testBit_lt_two_pow (Nat.lt_of_lt_of_le hu (Nat.pow_le_pow_right (by decide) hi))

theorem testBit_poly_low (i : Nat) (hi : i < 16) : (0x11021 : Nat).testBit i = (0x1021 : Nat).testBit i := by
  rw [show (0x11021 : Nat) = 2 ^ 16 + 0x1021 from rfl]
  exact Nat.testBit_two_pow_add_gt hi _

/-- On a 16-bit word the shift step is a shift by one, with the polynomial
`x^16 + x^12 + x^5 + 1` added when the bit shifted out is set. -/
theorem crcShift_eq (u : Nat) (hu : u < 65536) :
    crcShift u = (u <<< 1) ^^^ (if u.testBit 15 then 0x11021 else 0) := by
  unfold crcShift
  by_cases hb : u.testBit 15 = true
  · rw [if_pos ((and_bit15_pos u).2 hb), if_pos hb]
    apply Nat.eq_of_testBit_eq
    intro i
    rw [Nat.testBit_xor, Nat.testBit_xor, show (65536 : Nat) = 2 ^ 16 from rfl,
      Nat.testBit_mod_two_pow]
    rcases Nat.lt_trichotomy i 16 with h | h | h
    · simp [h, testBit_poly_low i h]
    · subst h
      have h1 : (0x1021 : Nat).testBit 16 = false := by decide
      have h2 : (0x11021 : Nat).testBit 16 = true := by decide
      simp [h1, h2, hb]
    · have h1 : (0x1021 : Nat).testBit i = false :=
        testBit_eq_false_of_lt _ i 16 (by decide) (by omega)
      have h2 : (0x11021 : Nat).testBit i = false :=
        testBit_eq_false_of_lt _ i 17 (by decide) (by omega)
      have h3 : u.testBit (i - 1) = false := testBit_eq_false_of_lt u (i - 1) 16 hu (by omega)
      have h4 : ¬ i < 16 := by omega
      simp [h1, h2, h3, h4]
  · have hb' : u.testBit 15 = false := by simpa using hb
    have hn : ¬ u &&& 0x8000 > 0 := fun h => hb ((and_bit15_pos u).1 h)
    rw [if_neg hn, if_neg hb, Nat.xor_zero]
    apply Nat.mod_eq_of_lt
    have : u < 32768 := by
      by_contra hge
      have h1 : u.testBit 15 = true := by
        have hdm : u / 2 ^ 15 % 2 = 1 := by
          have : u / 2 ^ 15 = 1 := by
            apply Nat.div_eq_of_lt_le <;> omega
          rw [this]
        rw [Nat.testBit_to_div_mod, hdm]; rfl
      exact hb h1
    rw [Nat.shiftLeft_eq]; omega

theorem crcShift_testBit_zero (u : Nat) (hu : u < 65536) :
    (crcShift u).testBit 0 = u.testBit 15 := by
  rw [crcShift_eq u hu, Nat.testBit_xor, Nat.testBit_shiftLeft]
  cases u.testBit 15 <;> simp

/-- The shift step never maps two 16-bit words to the same word. -/
theorem crcShift_inj (u w : Nat) (hu : u < 65536) (hw : w < 65536)
    (h : crcShift u = crcShift w) : u = w := by
  have hb : u.testBit 15 = w.testBit 15 := by
    rw [← crcShift_testBit_zero u hu, ← crcShift_testBit_zero w hw, h]
  rw [crcShift_eq u hu, crcShift_eq w hw, hb] at h
  have h2 : u <<< 1 = w <<< 1 := Nat.xor_left_injective h
  rw [Nat.shiftLeft_eq, Nat.shiftLeft_eq] at h2
  omega

theorem iterate_crcShift_lt (k : Nat) (u : Nat) (hu : u < 65536) : crcShift^[k] u < 65536 := by
  cases k with
  | zero => simpa using hu
  | succ k => rw [Function.iterate_succ_apply']; exact crcShift_lt _

theorem iterate_crcShift_inj (k : Nat) (u w : Nat) (hu : u < 65536) (hw : w < 65536)
    (h : crcShift^[k] u = crcShift^[k] w) : u = w := by
  induction k with
  | zero => simpa using h
  | succ k ih =>
    rw [Function.iterate_succ_apply', Function.iterate_succ_apply'] at h
    exact ih (crcShift_inj _ _ (iterate_crcShift_lt k u hu) (iterate_crcShift_lt k w hw) h)

theorem byte_shift_lt (b : Nat) : (b <<< 8) % 65536 < 65536 := Nat.mod_lt _ (by decide)

/-- Different running checksums stay different when the same byte is added. -/
theorem crcUpdate_inj_left (u w b : Nat) (hu : u < 65536) (hw : w < 65536)
    (h : crcUpdate u b = crcUpdate w b) : u = w := by
  unfold crcUpdate at h
  have h1 := iterate_crcShift_inj 8 _ _
    (Nat.xor_lt_two_pow (n := 16) hu (byte_shift_lt b))
    (Nat.xor_lt_two_pow (n := 16) hw (byte_shift_lt b)) h
  exact Nat.xor_left_injective h1

/-- Different bytes added to the same running checksum give different checksums. -/
theorem crcUpdate_inj_right (u b b' : Nat) (hu : u < 65536) (hb : b < 256) (hb' : b' < 256)
    (h : crcUpdate u b = crcUpdate u b') : b = b' := by
  unfold crcUpdate at h
  have h1 := iterate_crcShift_inj 8 _ _
    (Nat.xor_lt_two_pow (n := 16) hu (byte_shift_lt b))
    (Nat.xor_lt_two_pow (n := 16) hu (byte_shift_lt b')) h
  have h2 : (b <<< 8) % 65536 = (b' <<< 8) % 65536 := Nat.xor_right_injective h1
  rw [Nat.shiftLeft_eq, Nat.shiftLeft_eq] at h2
  omega

theorem foldl_crcUpdate_ne (post : List Nat) (u w : Nat) (hu : u < 65536) (hw : w < 65536)
    (h : u ≠ w) : post.foldl crcUpdate u ≠ post.foldl crcUpdate w := by
  induction post generalizing u w with
  | nil => simpa using h
  | cons b post ih =>
    exact ih _ _ (crcUpdate_lt u b) (crcUpdate_lt w b)
      (fun he => h (crcUpdate_inj_left u w b hu hw he))

/-- Changing one byte of a sequence of bytes changes its checksum. -/
theorem CRC16_set_ne (d : List Nat) (i v : Nat) (hi : i < d.length) (hd : ∀ x ∈ d, x < 256)
    (hv : v < 256) (hne : v ≠ d.get ⟨i, hi⟩) : CRC16 (d.set i v) ≠ CRC16 d := by
  have hsplit : d = d.take i ++ d.get ⟨i, hi⟩ :: d.drop (i + 1) := by
    rw [List.get_eq_getElem, List.getElem_cons_drop, List.take_append_drop]
  have hset : d.set i v = d.take i ++ v :: d.drop (i + 1) := by
    rw [List.set_eq_take_append_cons_drop, if_pos hi]
  rw [hset]
  conv_rhs => rw [hsplit]
  unfold CRC16
  rw [List.foldl_append, List.foldl_append, List.foldl_cons, List.foldl_cons]
  have hs := foldl_crcUpdate_lt (d.take i) 0 (by decide)
  apply foldl_crcUpdate_ne _ _ _ (crcUpdate_lt _ _) (crcUpdate_lt _ _)
  intro he
  exact hne (crcUpdate_inj_right _ _ _ hs hv (hd _ (List.get_mem d i hi)) he)

/-! ## Receiver: the checksum test -/

theorem Read_keeps (c : Conn) (n : Nat) :
    (c.Read n).2.writeBudget = c.writeBudget ∧ (c.Read n).2.output = c.output := by
  unfold Conn.Read
  split <;> exact ⟨rfl, rfl⟩

theorem readPayload_keeps (dLen packetSize : Nat) :
    ∀ (fuel : Nat) (c : Conn) (received : Nat) (pData : List Nat)
      (res : Except Error (List Nat)) (c' : Conn),
      readPayload dLen packetSize fuel c received pData = some (res, c') →
      c'.writeBudget = c.writeBudget ∧ c'.output = c.output := by
  intro fuel
  induction fuel with
  | zero =>
    intro c received pData res c' h
    rw [readPayload.eq_def] at h
    by_cases hlt : received < packetSize
    · simp [hlt] at h
    · simp only [hlt, if_false, Option.some.injEq, Prod.mk.injEq] at h
      rw [← h.2]; exact ⟨rfl, rfl⟩
  | succ fuel ih =>
    intro c received pData res c' h
    rw [readPayload] at h
    split at h
    · have hk := Read_keeps c dLen
      generalize c.Read dLen = r at h hk
      obtain ⟨e, c1⟩ := r
      cases e with
      | error err =>
        simp only [Option.some.injEq, Prod.mk.injEq] at h
        rw [← h.2]; exact hk
      | ok bs =>
        simp only at h
        have := ih c1 _ _ res c' h
        exact ⟨this.1.trans hk.1, this.2.trans hk.2⟩
    · simp only [Option.some.injEq, Prod.mk.injEq] at h
      rw [← h.2]; exact ⟨rfl, rfl⟩

/-- One pass of the receiver's loop over a frame whose header passes: after the
payload `pData` has been collected and the checksum bytes `hi`, `lo` read, the
answer is `ACK` with the payload appended when `CRC16(pData)` is the received
checksum, and `NAK` with nothing appended otherwise. -/
theorem recvLoop_checksum (fuel : Nat) (c : Conn) (data : List Nat)
    (ob dLen pType packetCount inverseCount : Nat) (bs pData : List Nat) (c4 : Conn)
    (hi lo : Nat) (bs' : List Nat)
    (ht : pType ≠ EOT) (hacc : headerRejected packetCount inverseCount = false)
    (hw : c.writeBudget = none)
    (hin : c.input.flatten = pType :: packetCount :: inverseCount :: bs)
    (hpay : readPayload (if pType = STX then XModem1KBlockLength else dLen)
        (if pType = SOH then XModemBlockLength
          else if pType = STX then XModem1KBlockLength else 0)
        (if pType = SOH then XModemBlockLength
          else if pType = STX then XModem1KBlockLength else 0)
        (((c.Read 1).2.Read 1).2.Read 1).2 0 [] = some (.ok pData, c4))
    (hin4 : c4.input.flatten = hi :: lo :: bs') :
    ∃ inp, inp.flatten = bs' ∧
      recvLoop (fuel + 1) c data ob dLen =
        recvLoop fuel
          { c4 with
            input := inp
            output := c4.output ++
              [[if CRC16 pData = ((hi <<< 8) % 65536) ||| lo then ACK else NAK]]
            calls := c4.calls + 3 }
          (if CRC16 pData = ((hi <<< 8) % 65536) ||| lo then data ++ pData else data)
          lo (if pType = STX then XModem1KBlockLength else dLen) := by
  obtain ⟨inp1, hinp1, h1⟩ := Read_one c pType _ hin
  obtain ⟨inp2, hinp2, h2⟩ := Read_one { c with input := inp1, calls := c.calls + 1 }
    packetCount _ hinp1
  obtain ⟨inp3, hinp3, h3⟩ := Read_one { c with input := inp2, calls := c.calls + 1 + 1 }
    inverseCount _ hinp2
  simp only [h1, h2, h3] at hpay
  have hk := readPayload_keeps _ _ _ _ _ _ _ _ hpay
  have hw4 : c4.writeBudget = none := hk.1.trans hw
  obtain ⟨inp5, hinp5, h5⟩ := Read_one c4 hi _ hin4
  obtain ⟨inp6, hinp6, h6⟩ := Read_one { c4 with input := inp5, calls := c4.calls + 1 } lo _ hinp5
  refine ⟨inp6, hinp6, ?_⟩
  rw [recvLoop]
  simp only [h1, List.headD_cons, ht, if_false]
  simp only [h2, List.headD_cons]
  simp only [h3, List.headD_cons, hacc]
  simp only [Bool.false_eq_true, if_false, hpay]
  simp only [h5, List.headD_cons]
  simp only [h6, List.headD_cons]
  split <;> simp only [Conn.Write, hw4]

/-- One pass of the receiver's loop over a frame written piece by piece as
`sendBlock` does, with any payload of the right length and any checksum
bytes. -/
theorem recvLoop_frame_any (fuel : Nat) (c : Conn) (data : List Nat) (ob dLen b : Nat)
    (payload : List Nat) (hi lo L : Nat) (rest : List (List Nat))
    (hL : L = 128 ∨ L = 1024) (hb : headerRejected b (255 - b) = false)
    (hlen : payload.length = L) (hd : 128 ≤ dLen)
    (hw : c.writeBudget = none)
    (hin : c.input = [[marker L], [b], [255 - b], payload, [hi], [lo]] ++ rest) :
    recvLoop (fuel + 1) c data ob dLen =
      recvLoop fuel
        { c with
          input := rest
          output := c.output ++
            [[if CRC16 payload = ((hi <<< 8) % 65536) ||| lo then ACK else NAK]]
          calls := c.calls + 7 }
        (if CRC16 payload = ((hi <<< 8) % 65536) ||| lo then data ++ payload else data) lo
        (if L = 1024 then 1024 else dLen) := by
  obtain ⟨inp, out, re, we, wb, calls⟩ := c
  simp only at hw hin
  subst hw hin
  rw [recvLoop]
  simp only [List.cons_append, List.nil_append]
  rw [Read_cons _ _ _ _ _ _ _ 1 (by simp) (by simp)]
  simp only [List.headD_cons]
  rcases hL with rfl | rfl
  · have hm : marker 128 = SOH := by decide
    rw [hm]
    simp only [show SOH ≠ EOT by decide, if_false, if_true, show SOH ≠ STX by decide]
    rw [Read_cons _ _ _ _ _ _ _ 1 (by simp) (by simp)]
    simp only [List.headD_cons]
    rw [Read_cons _ _ _ _ _ _ _ 1 (by simp) (by simp)]
    simp only [List.headD_cons, hb, Bool.false_eq_true, if_false]
    simp only [XModemBlockLength]
    rw [show (128 : Nat) = 127 + 1 from rfl]
    rw [readPayload_one dLen (127 + 1) _ _ _ _ _ _ _ _ (by omega) hlen hd]
    simp only []
    rw [Read_cons _ _ _ _ _ _ _ 1 (by simp) (by simp)]
    simp only [List.headD_cons]
    rw [Read_cons _ _ _ _ _ _ _ 1 (by simp) (by simp)]
    simp only [List.headD_cons, Write_mk]
    by_cases hc : CRC16 payload = ((hi <<< 8) % 65536) ||| lo <;> simp [hc]
  · have hm : marker 1024 = STX := by decide
    rw [hm]
    simp only [show STX ≠ EOT by decide, if_false, if_true, show STX ≠ SOH by decide]
    rw [Read_cons _ _ _ _ _ _ _ 1 (by simp) (by simp)]
    simp only [List.headD_cons]
    rw [Read_cons _ _ _ _ _ _ _ 1 (by simp) (by simp)]
    simp only [List.headD_cons, hb, Bool.false_eq_true, if_false]
    simp only [XModem1KBlockLength]
    rw [show (1024 : Nat) = 1023 + 1 from rfl]
    rw [readPayload_one (1023 + 1) (1023 + 1) _ _ _ _ _ _ _ _ (by omega) hlen (by omega)]
    simp only []
    rw [Read_cons _ _ _ _ _ _ _ 1 (by simp) (by simp)]
    simp only [List.headD_cons]
    rw [Read_cons _ _ _ _ _ _ _ 1 (by simp) (by simp)]
    simp only [List.headD_cons, Write_mk]
    by_cases hc : CRC16 payload = ((hi <<< 8) % 65536) ||| lo <;> simp [hc]

theorem padTo_bytes (L : Nat) (chunk : List Nat) (h : ∀ x ∈ chunk, x < 256) :
    ∀ x ∈ padTo L chunk, x < 256 := by
  intro x hx
  simp only [padTo, List.mem_append, List.mem_replicate] at hx
  rcases hx with hx | ⟨_, rfl⟩
  · exact h x hx
  · decide

/-! ## Receiver: block number 128 -/

theorem marker_ne_EOT (L : Nat) : marker L ≠ EOT := by
  unfold marker
  split <;> decide

/-- The receiver's loop over the frames of the first 128 blocks: 127 of them are
acknowledged; the header of the one numbered 128 is answered with `NAK`, and
its payload and checksum stay in the stream, to be read as headers. -/
theorem recvLoop_block128 (p : List Nat) (L : Nat) (hL : L = 128 ∨ L = 1024)
    (fuel : Nat) (c : Conn) (data : List Nat) (ob dLen : Nat) (rest : List (List Nat))
    (hd : 128 ≤ dLen) (hw : c.writeBudget = none)
    (hin : c.input = framesOf p L 128 ++ rest) :
    ∃ inp dLen',
      inp.flatten = padTo L (blockChunk p L 127) ++
        CRC16 (padTo L (blockChunk p L 127)) / 256 ::
        CRC16 (padTo L (blockChunk p L 127)) % 256 :: rest.flatten ∧
      recvLoop (fuel + 1 + 127) c data ob dLen =
        recvLoop fuel
          { c with
            input := inp
            output := c.output ++ (List.replicate 127 [ACK] ++ [[NAK]])
            calls := c.calls + 7 * 127 + 4 }
          (data ++ payloadsOf p L 127) 127 dLen' := by
  rw [framesOf_succ p L 127, framesOf_eq_framesFrom, List.append_assoc] at hin
  obtain ⟨ob', dLen', _, hrun⟩ := recvLoop_frames p L hL 127 0 (fuel + 1) c data ob dLen _
    (by omega) hd hw hin
  obtain ⟨inp, hinp, hstep⟩ := recvLoop_header_rejected fuel
    { c with
      input := frameWrites ((127 + 1) % 256) (blockChunk p L 127) L ++ rest
      output := c.output ++ List.replicate 127 [ACK]
      calls := c.calls + 7 * 127 }
    (data ++ payloadsFrom p L 0 127) ob' dLen' (marker L) 128 127
    (padTo L (blockChunk p L 127) ++
      CRC16 (padTo L (blockChunk p L 127)) / 256 ::
      CRC16 (padTo L (blockChunk p L 127)) % 256 :: rest.flatten)
    (marker_ne_EOT L) (by decide) hw (by simp [frameWrites])
  refine ⟨inp, if marker L = STX then XModem1KBlockLength else dLen', hinp, ?_⟩
  rw [hrun, hstep, payloadsOf_eq_payloadsFrom]
  simp only [List.append_assoc]

/-- A payload that needs at least 128 blocks: what the sender has written after
`POLL` and 127 `ACK`s, and what `ModemReceive` makes of it. -/
theorem block128_rejected (p : List Nat) (L : Nat) (hL : L = 128 ∨ L = 1024)
    (hp : 128 ≤ blockCount p L) :
    (∃ cs, modemSend (Conn.script ([POLL] :: List.replicate 127 [ACK])) p L
        = some (some 1, cs) ∧
      cs.output = framesOf p L 128) ∧
    framesOf p L 128 = framesOf p L 127 ++ frameWrites 128 (blockChunk p L 127) L ∧
    ∃ inp dLen,
      inp.flatten = padTo L (blockChunk p L 127) ++
        [CRC16 (padTo L (blockChunk p L 127)) / 256,
         CRC16 (padTo L (blockChunk p L 127)) % 256] ∧
      ModemReceive (Conn.script (framesOf p L 128)) =
        recvLoop (128 * (L + 4) + 1)
          { input := inp
            output := [POLL] :: (List.replicate 127 [ACK] ++ [[NAK]])
            readErr := 1, writeErr := 2, writeBudget := none, calls := 894 }
          (payloadsOf p L 127) 127 dLen := by
  refine ⟨?_, ?_, ?_⟩
  · refine ⟨_, modemSend_acks_eof (Conn.script ([POLL] :: List.replicate 127 [ACK]))
      p L 127 rfl (Nat.lt_of_lt_of_le (by decide) hp)
      (by simp only [Conn.script, flatten_poll_acks]), ?_⟩
    simp only [Conn.script, List.nil_append]
  · rw [framesOf_succ p L 127]
  · obtain ⟨inp, dLen', hinp, hrun⟩ := recvLoop_block128 p L hL (128 * (L + 4) + 1)
      ⟨framesOf p L 128, [[POLL]], 1, 2, none, 1⟩ [] 0 128 []
      (by decide) rfl (by simp only [List.append_nil])
    refine ⟨inp, dLen', by simpa using hinp, ?_⟩
    have hrem : (⟨framesOf p L 128, [[POLL]], 1, 2, none, 1⟩ :
        Conn).remaining + 1 = 128 * (L + 4) + 1 + 1 + 127 := by
      simp only [Conn.remaining, framesOf_eq_framesFrom, framesFrom_flatten_length]
      omega
    unfold ModemReceive
    simp only [Conn.script, Conn.Write, List.nil_append, XModemBlockLength]
    rw [hrem, hrun]
    simp only [List.nil_append, List.cons_append]

/-! ## Checksum: the polynomial view -/

section PolynomialView

open Polynomial

theorem bitsPoly_xor (w a b : Nat) : bitsPoly w (a ^^^ b) = bitsPoly w a + bitsPoly w b := by
  unfold bitsPoly
  rw [← Finset.sum_add_distrib]
  apply Finset.sum_congr rfl
  intro i _
  rw [Nat.testBit_xor]
  cases a.testBit i <;> cases b.testBit i <;> simp [CharTwo.add_self_eq_zero]

theorem bitsPoly_zero (w : Nat) : bitsPoly w 0 = 0 := by
  simp [bitsPoly]

theorem bitsPoly_shiftLeft_one (w a : Nat) : bitsPoly (w + 1) (a <<< 1) = X * bitsPoly w a := by
  unfold bitsPoly
  rw [Finset.sum_range_succ', Finset.mul_sum]
  have h0 : (a <<< 1).testBit 0 = false := by simp [Nat.testBit_shiftLeft]
  rw [h0]
  simp only [Bool.false_eq_true, if_false, add_zero]
  apply Finset.sum_congr rfl
  intro i _
  have h1 : (a <<< 1).testBit (i + 1) = a.testBit i := by simp [Nat.testBit_shiftLeft]
  rw [h1]
  cases a.testBit i <;> simp [pow_succ, mul_comm]

theorem bitsPoly_succ_of_lt (w a : Nat) (h : a < 2 ^ w) : bitsPoly (w + 1) a = bitsPoly w a := by
  unfold bitsPoly
  rw [Finset.sum_range_succ, Nat.testBit_lt_two_pow h]
  simp

theorem bitsPoly_generator : bitsPoly 17 0x11021 = crcPoly := by
  have ht : ∀ i, i < 17 → (0x11021 : Nat).testBit i = decide (i = 0 ∨ i = 5 ∨ i = 12 ∨ i = 16) := by
    decide
  unfold bitsPoly crcPoly
  rw [Finset.sum_congr rfl (fun i hi => by rw [ht i (Finset.mem_range.1 hi)])]
  simp [Finset.sum_range_succ]
  ring

theorem degree_bitsPoly_lt (w n : Nat) : (bitsPoly w n).degree < w := by
  unfold bitsPoly
  refine lt_of_le_of_lt (degree_sum_le _ _) ?_
  rw [Finset.sup_lt_iff (by exact_mod_cast WithBot.bot_lt_coe w)]
  intro i hi
  split
  · exact lt_of_le_of_lt (degree_X_pow_le i) (by exact_mod_cast Finset.mem_range.1 hi)
  · rw [degree_zero]; exact WithBot.bot_lt_coe _

theorem crcPoly_monic : crcPoly.Monic := by
  unfold crcPoly
  monicity!

theorem crcPoly_degree : crcPoly.degree = 16 := by
  unfold crcPoly
  compute_degree!

/-- The shift step multiplies by `x` and reduces modulo the generator. -/
theorem bitsPoly_crcShift (u : Nat) (hu : u < 65536) :
    bitsPoly 16 (crcShift u) =
      X * bitsPoly 16 u + (if u.testBit 15 then crcPoly else 0) := by
  rw [← bitsPoly_succ_of_lt 16 (crcShift u) (crcShift_lt u), crcShift_eq u hu, bitsPoly_xor,
    bitsPoly_shiftLeft_one]
  split
  · rw [bitsPoly_generator]
  · rw [bitsPoly_zero]

theorem bitsPoly_iterate_crcShift (k u : Nat) (hu : u < 65536) :
    ∃ q, bitsPoly 16 (crcShift^[k] u) = X ^ k * bitsPoly 16 u + q * crcPoly := by
  induction k with
  | zero => exact ⟨0, by simp⟩
  | succ k ih =>
    obtain ⟨q, hq⟩ := ih
    rw [Function.iterate_succ_apply', bitsPoly_crcShift _ (iterate_crcShift_lt k u hu), hq]
    split
    · exact ⟨X * q + 1, by ring⟩
    · exact ⟨X * q, by ring⟩

theorem bitsPoly_byte_shift (b : Nat) :
    bitsPoly 16 ((b <<< 8) % 65536) = X ^ 8 * bitsPoly 8 b := by
  unfold bitsPoly
  rw [show (16 : Nat) = 8 + 8 from rfl, Finset.sum_range_add, Finset.mul_sum]
  have h1 : ∀ i ∈ Finset.range 8,
      (if ((b <<< 8) % 65536).testBit i then (X : (ZMod 2)[X]) ^ i else 0) = 0 := by
    intro i hi
    have hi' := Finset.mem_range.1 hi
    have : ((b <<< 8) % 65536).testBit i = false := by
      rw [show (65536 : Nat) = 2 ^ 16 from rfl, Nat.testBit_mod_two_pow, Nat.testBit_shiftLeft]
      have : ¬ i ≥ 8 := by omega
      simp [this]
    simp [this]
  rw [Finset.sum_eq_zero h1, zero_add]
  apply Finset.sum_congr rfl
  intro i hi
  have hi' := Finset.mem_range.1 hi
  have : ((b <<< 8) % 65536).testBit (8 + i) = b.testBit i := by
    rw [show (65536 : Nat) = 2 ^ 16 from rfl, Nat.testBit_mod_two_pow, Nat.testBit_shiftLeft]
    have h2 : 8 + i < 16 := by omega
    simp [h2]
  rw [this]
  cases b.testBit i <;> simp [pow_add]

/-- Adding a byte: the running remainder is multiplied by `x^8`, the byte comes
in at `x^16`, and the result is reduced modulo the generator. -/
theorem bitsPoly_crcUpdate (u b : Nat) (hu : u < 65536) :
    ∃ q, bitsPoly 16 (crcUpdate u b) =
      X ^ 8 * bitsPoly 16 u + X ^ 16 * bitsPoly 8 b + q * crcPoly := by
  unfold crcUpdate
  obtain ⟨q, hq⟩ := bitsPoly_iterate_crcShift 8 (u ^^^ ((b <<< 8) % 65536))
    (Nat.xor_lt_two_pow (n := 16) hu (byte_shift_lt b))
  refine ⟨q, ?_⟩
  rw [hq, bitsPoly_xor, bitsPoly_byte_shift]
  ring

theorem bitsPoly_foldl_crcUpdate (d : List Nat) :
    ∀ (u : Nat) (m : (ZMod 2)[X]), u < 65536 →
      (∃ q, bitsPoly 16 u = m * X ^ 16 + q * crcPoly) →
      ∃ q, bitsPoly 16 (d.foldl crcUpdate u) =
        d.foldl (fun m b => m * X ^ 8 + bitsPoly 8 b) m * X ^ 16 + q * crcPoly := by
  induction d with
  | nil => intro u m _ h; simpa using h
  | cons b d ih =>
    intro u m hu ⟨q, hq⟩
    obtain ⟨q', hq'⟩ := bitsPoly_crcUpdate u b hu
    apply ih (crcUpdate u b) (m * X ^ 8 + bitsPoly 8 b) (crcUpdate_lt u b)
    refine ⟨X ^ 8 * q + q', ?_⟩
    rw [hq', hq]
    ring

/-- `CRC16(d)`, as a polynomial, is the remainder of `d(x) * x^16` on division by
the generator. -/
theorem bitsPoly_CRC16 (d : List Nat) :
    bitsPoly 16 (CRC16 d) = (msgPoly d * X ^ 16) %ₘ crcPoly := by
  obtain ⟨q, hq⟩ := bitsPoly_foldl_crcUpdate d 0 0 (by decide) ⟨0, by simp [bitsPoly_zero]⟩
  have hdeg : (bitsPoly 16 (CRC16 d)).degree < crcPoly.degree := by
    rw [crcPoly_degree]
    exact_mod_cast degree_bitsPoly_lt 16 (CRC16 d)
  have hsum : bitsPoly 16 (CRC16 d) + crcPoly * q = msgPoly d * X ^ 16 := by
    unfold CRC16 msgPoly at *
    rw [hq]
    have h2 : q * crcPoly + crcPoly * q = 0 := by
      rw [mul_comm]; exact CharTwo.add_self_eq_zero _
    rw [add_assoc, h2, add_zero]
  exact ((div_modByMonic_unique q _ crcPoly_monic ⟨hsum, hdeg⟩).2).symm

theorem coeff_bitsPoly (w n i : Nat) :
    (bitsPoly w n).coeff i = if i < w ∧ n.testBit i = true then 1 else 0 := by
  unfold bitsPoly
  rw [finset_sum_coeff]
  have : ∀ j ∈ Finset.range w,
      (if n.testBit j then (X : (ZMod 2)[X]) ^ j else 0).coeff i =
        if j = i then (if n.testBit i = true then 1 else 0) else 0 := by
    intro j _
    by_cases hji : j = i
    · subst hji
      cases n.testBit j <;> simp
    · cases n.testBit j <;> simp [coeff_X_pow, hji, Ne.symm hji]
  rw [Finset.sum_congr rfl this, Finset.sum_ite_eq']
  by_cases hi : i < w
  · simp [hi]
  · simp [hi]

/-- Two 16-bit words with the same polynomial are the same word. -/
theorem bitsPoly_inj (a b : Nat) (ha : a < 65536) (hb : b < 65536)
    (h : bitsPoly 16 a = bitsPoly 16 b) : a = b := by
  apply Nat.eq_of_testBit_eq
  intro i
  by_cases hi : i < 16
  · have hc := congrArg (fun p => p.coeff i) h
    simp only [coeff_bitsPoly, hi, true_and] at hc
    cases ha' : a.testBit i <;> cases hb' : b.testBit i <;> simp [ha', hb'] at hc ⊢
  · rw [testBit_eq_false_of_lt a i 16 ha (by omega), testBit_eq_false_of_lt b i 16 hb (by omega)]

end PolynomialView

/-! ## Enough fuel -/

/-- The sender's loop ends within `(blocks - currentBlock) + (10 - failed)` passes. -/
theorem sendLoop_isSome (data : List Nat) (L blocks : Nat) :
    ∀ (fuel : Nat) (c : Conn) (ob cb failed : Nat),
      (blocks - cb) + (10 - failed) ≤ fuel →
      (sendLoop data L blocks fuel c ob cb failed).isSome = true := by
  intro fuel
  induction fuel with
  | zero =>
    intro c ob cb failed h
    rw [sendLoop.eq_def]
    have : ¬ (cb < blocks ∧ failed < 10) := by omega
    simp [this]
  | succ fuel ih =>
    intro c ob cb failed h
    rw [sendLoop]
    by_cases hc : cb < blocks ∧ failed < 10
    · simp only [hc, and_self, if_true]
      generalize sendBlock c ((cb + 1) % 256) (chunkAt data L cb) L = r
      obtain ⟨e, c1⟩ := r
      cases e with
      | some err => rfl
      | none =>
        simp only
        generalize c1.Read 1 = r2
        obtain ⟨e2, c2⟩ := r2
        cases e2 with
        | error err => rfl
        | ok bs =>
          simp only
          split
          · exact ih _ _ _ _ (by omega)
          · exact ih _ _ _ _ (by omega)
    · simp [hc]

/-- `modemSend` always returns. -/
theorem modemSend_isSome (c : Conn) (data : List Nat) (L : Nat) :
    (modemSend c data L).isSome = true := by
  unfold modemSend
  generalize c.Read 1 = r
  obtain ⟨e, c1⟩ := r
  cases e with
  | error err => rfl
  | ok bs =>
    simp only
    split
    · have h := sendLoop_isSome data L (blockCount data L) (blockCount data L + 10) c1
        (bs.headD 0) 0 0 (by omega)
      generalize sendLoop data L (blockCount data L) (blockCount data L + 10) c1
        (bs.headD 0) 0 0 = r at h
      cases r with
      | none => simp at h
      | some x =>
        obtain ⟨ex, c2⟩ := x
        cases ex with
        | returned err => rfl
        | finished a b =>
          simp only
          generalize c2.Write [EOT] = w
          obtain ⟨ew, c3⟩ := w
          cases ew <;> rfl
    · rfl

theorem pending_head_ne_nil (inp : List (List Nat)) (seg : List Nat) (rest : List (List Nat))
    (h : pending inp = seg :: rest) : seg ≠ [] := by
  induction inp with
  | nil => simp [pending] at h
  | cons s r ih =>
    cases s with
    | nil => exact ih (by simpa [pending] using h)
    | cons a s =>
      simp only [pending, List.cons.injEq] at h
      rw [← h.1]
      simp

theorem advance_flatten (n : Nat) (seg : List Nat) (rest : List (List Nat)) :
    (advance n seg rest).flatten = seg.drop n ++ rest.flatten := by
  unfold advance
  split
  · rename_i h
    rw [List.drop_of_length_le h]; rfl
  · rfl

/-- A `Read` never adds to what is still to arrive, and a successful one into a
buffer that is not empty takes at least one byte away. -/
theorem Read_remaining (c : Conn) (n : Nat) :
    (c.Read n).2.remaining ≤ c.remaining ∧
      ∀ bs, (c.Read n).1 = .ok bs → 0 < n →
        (c.Read n).2.remaining < c.remaining ∧ 0 < bs.length := by
  unfold Conn.Read
  have hf := pending_flatten c.input
  cases hp : pending c.input with
  | nil =>
    simp only [Conn.remaining, List.flatten_nil, List.length_nil, Nat.zero_le, true_and]
    intro bs h
    simp at h
  | cons seg rest =>
    have hne := pending_head_ne_nil c.input seg rest hp
    rw [hp] at hf
    have hlen : c.remaining = seg.length + rest.flatten.length := by
      simp only [Conn.remaining, ← hf, List.flatten_cons, List.length_append]
    have hpos : 0 < seg.length := List.length_pos.2 hne
    simp only [Conn.remaining, advance_flatten, List.length_append, List.length_drop] at hlen ⊢
    constructor
    · omega
    · intro bs h hn
      simp only [Except.ok.injEq] at h
      subst h
      rw [List.length_take]
      omega

theorem Write_remaining (c : Conn) (p : List Nat) : (c.Write p).2.remaining = c.remaining := by
  unfold Conn.Write
  split <;> rfl

/-- The payload loop ends within `packetSize - received` passes. -/
theorem readPayload_isSome (dLen packetSize : Nat) (hd : 0 < dLen) :
    ∀ (fuel : Nat) (c : Conn) (received : Nat) (pData : List Nat),
      packetSize - received ≤ fuel →
      ∃ res c', readPayload dLen packetSize fuel c received pData = some (res, c') ∧
        c'.remaining ≤ c.remaining := by
  intro fuel
  induction fuel with
  | zero =>
    intro c received pData h
    rw [readPayload.eq_def]
    have : ¬ received < packetSize := by omega
    simp only [this, if_false]
    exact ⟨_, _, rfl, Nat.le_refl _⟩
  | succ fuel ih =>
    intro c received pData h
    rw [readPayload]
    by_cases hlt : received < packetSize
    · simp only [hlt, if_true]
      have hr := Read_remaining c dLen
      generalize c.Read dLen = r at hr
      obtain ⟨e, c1⟩ := r
      cases e with
      | error err => exact ⟨_, _, rfl, hr.1⟩
      | ok bs =>
        simp only
        have hb := hr.2 bs rfl hd
        obtain ⟨res, c', hrun, hle⟩ := ih c1 (received + bs.length) (pData ++ bs) (by omega)
        exact ⟨res, c', hrun, Nat.le_trans hle hr.1⟩
    · simp only [hlt, if_false]
      exact ⟨_, _, rfl, Nat.le_refl _⟩

/-- The receiver's loop ends within `c.remaining + 1` passes: every pass that does
not return reads at least one byte. -/
theorem recvLoop_isSome :
    ∀ (fuel : Nat) (c : Conn) (data : List Nat) (ob dLen : Nat),
      0 < dLen → c.remaining < fuel → (recvLoop fuel c data ob dLen).isSome = true := by
  intro fuel
  induction fuel with
  | zero => intro c data ob dLen _ h; omega
  | succ fuel ih =>
    intro c data ob dLen hd hrem
    rw [recvLoop]
    have h1 := Read_remaining c 1
    generalize c.Read 1 = r1 at h1
    obtain ⟨e1, c1⟩ := r1
    cases e1 with
    | error err => rfl
    | ok bs1 =>
    simp only
    have h1' := (h1.2 bs1 rfl (by decide)).1
    split
    · generalize c1.Write [ACK] = w
      obtain ⟨ew, cw⟩ := w
      cases ew <;> rfl
    · have h2 := Read_remaining c1 1
      generalize c1.Read 1 = r2 at h2
      obtain ⟨e2, c2⟩ := r2
      cases e2 with
      | error err => rfl
      | ok bs2 =>
      simp only
      have h3 := Read_remaining c2 1
      generalize c2.Read 1 = r3 at h3
      obtain ⟨e3, c3⟩ := r3
      cases e3 with
      | error err => rfl
      | ok bs3 =>
      simp only
      have hc3 : c3.remaining < fuel := by
        have := h2.1; have := h3.1
        simp only at *
        omega
      have hd' : 0 < (if bs1.headD ob = STX then XModem1KBlockLength else dLen) := by
        split
        · decide
        · exact hd
      split
      · have hw := Write_remaining c3 [NAK]
        generalize c3.Write [NAK] = w at hw
        obtain ⟨ew, cw⟩ := w
        cases ew with
        | some err => rfl
        | none => exact ih _ _ _ _ hd' (by simp only at hw; omega)
      · obtain ⟨res, c4, hpay, hle⟩ := readPayload_isSome _
          (if bs1.headD ob = SOH then XModemBlockLength
            else if bs1.headD ob = STX then XModem1KBlockLength else 0) hd'
          (if bs1.headD ob = SOH then XModemBlockLength
            else if bs1.headD ob = STX then XModem1KBlockLength else 0) c3 0 [] (by omega)
        rw [hpay]
        cases res with
        | error err => rfl
        | ok pData =>
        simp only
        have h5 := Read_remaining c4 1
        generalize c4.Read 1 = r5 at h5
        obtain ⟨e5, c5⟩ := r5
        cases e5 with
        | error err => rfl
        | ok bs5 =>
        simp only
        have h6 := Read_remaining c5 1
        generalize c5.Read 1 = r6 at h6
        obtain ⟨e6, c6⟩ := r6
        cases e6 with
        | error err => rfl
        | ok bs6 =>
        simp only
        have hc6 : c6.remaining < fuel := by
          have := h5.1; have := h6.1
          simp only at *
          omega
        split
        · have hw := Write_remaining c6 [ACK]
          generalize c6.Write [ACK] = w at hw
          obtain ⟨ew, cw⟩ := w
          cases ew with
          | some err => rfl
          | none => exact ih _ _ _ _ hd' (by simp only at hw; omega)
        · have hw := Write_remaining c6 [NAK]
          generalize c6.Write [NAK] = w at hw
          obtain ⟨ew, cw⟩ := w
          cases ew with
          | some err => rfl
          | none => exact ih _ _ _ _ hd' (by simp only at hw; omega)

/-- `ModemReceive` always returns on a stream with finitely much to deliver. -/
theorem ModemReceive_isSome (c : Conn) : (ModemReceive c).isSome = true := by
  unfold ModemReceive
  have hw := Write_remaining c [POLL]
  generalize c.Write [POLL] = w at hw
  obtain ⟨ew, cw⟩ := w
  cases ew with
  | some err => rfl
  | none => exact recvLoop_isSome _ cw [] 0 XModemBlockLength (by decide) (Nat.lt_succ_self _)

/-! ## Checksum: the residue of a message followed by its checksum -/

/-- The shift step on a word below `2^15` only doubles it. -/
theorem crcShift_small (u : Nat) (hu : u < 32768) : crcShift u = 2 * u := by
  rw [crcShift_eq u (by omega), testBit_eq_false_of_lt u 15 15 (by simpa using hu) (Nat.le_refl _)]
  simp [Nat.shiftLeft_eq, Nat.mul_comm]

theorem iterate_crcShift_small (k : Nat) (u : Nat) (hu : u * 2 ^ k < 65536) :
    crcShift^[k] u = u * 2 ^ k := by
  induction k generalizing u with
  | zero => simp
  | succ k ih =>
    rw [Function.iterate_succ_apply]
    have h2 : 0 < 2 ^ k := Nat.two_pow_pos k
    rw [Nat.pow_succ] at hu
    have hlt : u < 32768 := by
      have : u * 1 ≤ u * 2 ^ k := Nat.mul_le_mul_left u h2
      have : u * 2 ^ k * 2 = u * (2 ^ k * 2) := Nat.mul_assoc _ _ _
      omega
    rw [crcShift_small u hlt, ih (2 * u) (by
      have : 2 * u * 2 ^ k = u * (2 ^ k * 2) := by ring
      omega)]
    ring

/-- Adding the high byte of a word to the word leaves its low byte. -/
theorem xor_high_byte (v : Nat) (hv : v < 65536) :
    v ^^^ (((v / 256) <<< 8) % 65536) = v % 256 := by
  have h1 : (v / 256) <<< 8 < 65536 := by
    rw [Nat.shiftLeft_eq]
    omega
  rw [Nat.mod_eq_of_lt h1]
  apply Nat.eq_of_testBit_eq
  intro i
  rw [Nat.testBit_xor, Nat.testBit_shiftLeft, show (256 : Nat) = 2 ^ 8 by rfl,
    Nat.testBit_mod_two_pow, ← Nat.shiftRight_eq_div_pow, Nat.testBit_shiftRight]
  by_cases h : 8 ≤ i
  · have : ¬ i < 8 := by omega
    simp [h, this, Nat.add_sub_cancel' h]
  · have : i < 8 := by omega
    simp [h, this]

/-- The checksum of a message followed by its own checksum, high byte first, is
zero. -/
theorem CRC16_residue (d : List Nat) : CRC16 (d ++ [CRC16 d / 256, CRC16 d % 256]) = 0 := by
  have hc := CRC16_lt d
  unfold CRC16 at hc ⊢
  rw [List.foldl_append]
  generalize List.foldl crcUpdate 0 d = v at hc ⊢
  simp only [List.foldl_cons, List.foldl_nil]
  have hlo : v % 256 < 256 := Nat.mod_lt _ (by decide)
  have h1 : crcUpdate v (v / 256) = (v % 256) * 2 ^ 8 := by
    unfold crcUpdate
    rw [xor_high_byte v hc, iterate_crcShift_small 8 _ (by omega)]
  rw [h1]
  unfold crcUpdate
  have h2 : ((v % 256) <<< 8) % 65536 = (v % 256) * 2 ^ 8 := by
    rw [Nat.shiftLeft_eq]
    exact Nat.mod_eq_of_lt (by omega)
  rw [h2, Nat.xor_self]
  exact iterate_crcShift_small 8 0 (by omega)

/-- The two-byte word the receiver assembles from a high and a low byte. -/
theorem word_of_bytes (hi lo : Nat) (hh : hi < 256) (hl : lo < 256) :
    ((hi <<< 8) % 65536) ||| lo = hi * 256 + lo := by
  have h1 : hi <<< 8 < 65536 := by
    rw [Nat.shiftLeft_eq]
    omega
  rw [Nat.mod_eq_of_lt h1, Nat.shiftLeft_eq, show (2 : Nat) ^ 8 = 256 by rfl, Nat.add_comm,
    Nat.mul_comm]
  have := Nat.mul_add_lt_is_or (show lo < 2 ^ 8 from hl) hi
  rw [show (2 : Nat) ^ 8 = 256 by rfl] at this
  rw [Nat.add_comm]
  exact this.symm

/-- A message followed by two bytes has checksum zero exactly when the two
bytes are the checksum of the message, high byte first. -/
theorem CRC16_residue_iff (d : List Nat) (w : Nat) (hw : w < 65536) :
    CRC16 (d ++ [w / 256, w % 256]) = 0 ↔ CRC16 d = w := by
  constructor
  · intro h
    have hc := CRC16_lt d
    unfold CRC16 at hc h ⊢
    rw [List.foldl_append] at h
    generalize List.foldl crcUpdate 0 d = v at hc h ⊢
    simp only [List.foldl_cons, List.foldl_nil] at h
    have hlo : w % 256 < 256 := Nat.mod_lt _ (by decide)
    have hs : ((w % 256) <<< 8) % 65536 = (w % 256) * 2 ^ 8 := by
      rw [Nat.shiftLeft_eq]
      exact Nat.mod_eq_of_lt (by omega)
    have hz : crcShift^[8] 0 = 0 := iterate_crcShift_small 8 0 (by omega)
    have h1 : crcUpdate v (w / 256) ^^^ ((w % 256) <<< 8) % 65536 = 0 := by
      apply iterate_crcShift_inj 8 _ _ _ (by decide)
      · rw [hz]
        exact h
      · exact Nat.xor_lt_two_pow (n := 16) (crcUpdate_lt _ _) (byte_shift_lt _)
    have h2 : crcUpdate v (w / 256) = crcShift^[8] (w % 256) := by
      rw [iterate_crcShift_small 8 _ (by omega), ← hs]
      exact Nat.xor_eq_zero.1 h1
    have h3 : v ^^^ ((w / 256) <<< 8) % 65536 = w % 256 := by
      apply iterate_crcShift_inj 8 _ _ _ (by omega) h2
      exact Nat.xor_lt_two_pow (n := 16) hc (byte_shift_lt _)
    have h4 := xor_high_byte w hw
    rw [← h4] at h3
    exact Nat.xor_left_injective h3
  · intro h
    rw [← h]
    exact CRC16_residue d

/-! ## Receiver: the header test -/

theorem headerRejected_iff (packetCount inverseCount : Nat) :
    headerRejected packetCount inverseCount = true ↔
      (packetCount > inverseCount ∨ (inverseCount + packetCount) % 256 ≠ 255) := by
  simp [headerRejected]

/-- Among bytes the header test lets through exactly the pairs `(b, 255 - b)`
with `b ≤ 127`. -/
theorem headerRejected_false_iff (packetCount inverseCount : Nat) (hp : packetCount < 256)
    (hi : inverseCount < 256) :
    headerRejected packetCount inverseCount = false ↔
      (packetCount ≤ 127 ∧ inverseCount = 255 - packetCount) := by
  rw [← Bool.not_eq_true, headerRejected_iff]
  omega

/-- The payload loop on a stream that has nothing left: the first `Read` fails. -/
theorem readPayload_eof (dLen packetSize fuel : Nat) (c : Conn) (pData : List Nat)
    (hp : 0 < packetSize) (hin : c.input.flatten = []) :
    readPayload dLen packetSize (fuel + 1) c 0 pData =
      some (.error c.readErr, { c with input := [], calls := c.calls + 1 }) := by
  rw [readPayload, if_pos hp, Read_eof c dLen hin]

/-- Three header bytes that pass the header test, with a known marker, and then
the end of the stream: the fourth call is the failing `Read` of the payload
loop, and nothing is written. -/
theorem recvLoop_accepted_eof (fuel : Nat) (c : Conn) (data : List Nat)
    (ob dLen pType packetCount inverseCount : Nat)
    (ht : pType = SOH ∨ pType = STX) (hacc : headerRejected packetCount inverseCount = false)
    (hin : c.input.flatten = [pType, packetCount, inverseCount]) :
    recvLoop (fuel + 1) c data ob dLen =
      some (([], some c.readErr), { c with input := [], calls := c.calls + 4 }) := by
  obtain ⟨inp1, hinp1, h1⟩ := Read_one c pType _ hin
  obtain ⟨inp2, hinp2, h2⟩ := Read_one { c with input := inp1, calls := c.calls + 1 }
    packetCount _ hinp1
  obtain ⟨inp3, hinp3, h3⟩ := Read_one { c with input := inp2, calls := c.calls + 1 + 1 }
    inverseCount _ hinp2
  have hne : pType ≠ EOT := by rcases ht with rfl | rfl <;> decide
  rw [recvLoop]
  simp only [h1, List.headD_cons, hne, if_false]
  simp only [h2, List.headD_cons]
  simp only [h3, List.headD_cons, hacc, Bool.false_eq_true, if_false]
  rcases ht with rfl | rfl
  · simp only [if_true, XModemBlockLength]
    rw [readPayload_eof _ 128 127 _ _ (by decide) hinp3]
  · simp only [show STX ≠ SOH by decide, if_false, if_true, XModem1KBlockLength]
    rw [readPayload_eof _ 1024 1023 _ _ (by decide) hinp3]

/-- The payload loop after the three header bytes writes nothing. -/
theorem readPayload_header_output (dLen packetSize fuel : Nat) (c : Conn)
    (res : Except Error (List Nat)) (c4 : Conn)
    (hpay : readPayload dLen packetSize fuel (((c.Read 1).2.Read 1).2.Read 1).2 0 [] =
      some (res, c4)) :
    c4.output = c.output ∧ c4.writeBudget = c.writeBudget := by
  have hk := readPayload_keeps _ _ _ _ _ _ _ _ hpay
  have k1 := Read_keeps c 1
  have k2 := Read_keeps (c.Read 1).2 1
  have k3 := Read_keeps ((c.Read 1).2.Read 1).2 1
  exact ⟨hk.2.trans (k3.2.trans (k2.2.trans k1.2)), hk.1.trans (k3.1.trans (k2.1.trans k1.1))⟩

/-! ## Receiver: a first byte that is no marker -/

/-- With `packetSize = 0` the payload loop does not run. -/
theorem readPayload_zero (dLen fuel : Nat) (c : Conn) (received : Nat) (pData : List Nat) :
    readPayload dLen 0 fuel c received pData = some (.ok pData, c) := by
  rw [readPayload.eq_def]
  simp

theorem word_eq_zero (hi lo : Nat) (hh : hi < 256) (hl : lo < 256) :
    0 = ((hi <<< 8) % 65536) ||| lo ↔ (hi = 0 ∧ lo = 0) := by
  rw [word_of_bytes hi lo hh hl]
  omega

/-- One pass of the receiver's loop over a header that passes the header test
and whose first byte is none of `SOH`, `STX`, `EOT`: the two bytes after the
header are read as the checksum of an empty payload. -/
theorem recvLoop_unknown_marker (fuel : Nat) (c : Conn) (data : List Nat)
    (ob dLen pType packetCount inverseCount hi lo : Nat) (bs : List Nat)
    (hs : pType ≠ SOH) (hx : pType ≠ STX) (ht : pType ≠ EOT)
    (hacc : headerRejected packetCount inverseCount = false) (hw : c.writeBudget = none)
    (hin : c.input.flatten = pType :: packetCount :: inverseCount :: hi :: lo :: bs) :
    ∃ inp, inp.flatten = bs ∧
      recvLoop (fuel + 1) c data ob dLen =
        recvLoop fuel
          { c with
            input := inp
            output := c.output ++ [[if 0 = ((hi <<< 8) % 65536) ||| lo then ACK else NAK]]
            calls := c.calls + 6 }
          data lo dLen := by
  obtain ⟨inp1, hinp1, h1⟩ := Read_one c pType _ hin
  obtain ⟨inp2, hinp2, h2⟩ := Read_one { c with input := inp1, calls := c.calls + 1 }
    packetCount _ hinp1
  obtain ⟨inp3, hinp3, h3⟩ := Read_one { c with input := inp2, calls := c.calls + 1 + 1 }
    inverseCount _ hinp2
  obtain ⟨inp4, hinp4, h4⟩ := Read_one { c with input := inp3, calls := c.calls + 1 + 1 + 1 }
    hi _ hinp3
  obtain ⟨inp5, hinp5, h5⟩ := Read_one
    { c with input := inp4, calls := c.calls + 1 + 1 + 1 + 1 } lo _ hinp4
  refine ⟨inp5, hinp5, ?_⟩
  rw [recvLoop]
  simp only [h1, List.headD_cons, ht, hs, hx, if_false]
  simp only [h2, List.headD_cons]
  simp only [h3, List.headD_cons, hacc, Bool.false_eq_true, if_false, readPayload_zero]
  simp only [h4, List.headD_cons]
  simp only [h5, List.headD_cons]
  have h0 : CRC16 [] = 0 := rfl
  rw [h0]
  split <;> simp only [Conn.Write, hw, List.append_nil]

/-! ## Receiver: which segments the payload loop consumes -/

/-- The payload loop reads whole segments, each fitting `dBuffer`, for as long as
the bytes received so far are fewer than `packetSize`; the payload it collects
is everything those segments hold. -/
theorem readPayload_segments (dLen packetSize : Nat) :
    ∀ (segs rest out : List (List Nat)) (re we : Error) (wb : Option Nat)
      (calls fuel received : Nat) (pData : List Nat),
      (∀ s ∈ segs, s ≠ [] ∧ s.length ≤ dLen) →
      (∀ i, i < segs.length → received + (segs.take i).flatten.length < packetSize) →
      packetSize ≤ received + segs.flatten.length →
      segs.length ≤ fuel →
      readPayload dLen packetSize fuel ⟨segs ++ rest, out, re, we, wb, calls⟩ received pData =
        some (.ok (pData ++ segs.flatten), ⟨rest, out, re, we, wb, calls + segs.length⟩) := by
  intro segs
  induction segs with
  | nil =>
    intro rest out re we wb calls fuel received pData _ _ hge _
    rw [readPayload.eq_def]
    simp only [List.flatten_nil, List.length_nil, Nat.add_zero] at hge
    simp [Nat.not_lt.2 hge]
  | cons s segs ih =>
    intro rest out re we wb calls fuel received pData hs hlt hge hfuel
    have h0 : received < packetSize := by
      have := hlt 0 (by simp)
      simpa using this
    obtain ⟨hne, hsl⟩ := hs s (List.mem_cons_self _ _)
    cases fuel with
    | zero => simp at hfuel
    | succ fuel =>
      rw [readPayload, if_pos h0]
      simp only [List.cons_append]
      rw [Read_cons s (segs ++ rest) out re we wb calls dLen hne hsl]
      simp only
      rw [ih rest out re we wb (calls + 1) fuel (received + s.length) (pData ++ s)
        (fun t ht => hs t (List.mem_cons_of_mem _ ht))
        (fun i hi => by
          have := hlt (i + 1) (by simpa using hi)
          simp only [List.take_succ_cons, List.flatten_cons, List.length_append] at this
          omega)
        (by
          simp only [List.flatten_cons, List.length_append] at hge
          omega)
        (by simpa using hfuel)]
      simp only [List.flatten_cons, List.append_assoc, List.length_cons]
      congr 3
      omega

/-! ## Receiver: a read that takes the front of a segment -/

/-- A `Read` into a buffer shorter than the pending segment takes the front of
the segment and leaves the rest of it pending. -/
theorem Read_take (seg : List Nat) (rest out : List (List Nat)) (re we : Error)
    (wb : Option Nat) (calls n : Nat) (hn : n < seg.length) :
    Conn.Read ⟨seg :: rest, out, re, we, wb, calls⟩ n =
      (.ok (seg.take n), ⟨seg.drop n :: rest, out, re, we, wb, calls + 1⟩) := by
  cases seg with
  | nil => simp at hn
  | cons b seg =>
    simp only [Conn.Read, pending, advance]
    rw [if_neg (by omega)]

/-- The payload loop on a segment that holds more than the payload, read into a
`dBuffer` as long as the payload: one `Read` takes exactly the payload. -/
theorem readPayload_take (L : Nat) (seg : List Nat) (rest out : List (List Nat))
    (re we : Error) (wb : Option Nat) (calls fuel : Nat) (hL : 0 < L) (hseg : L < seg.length) :
    readPayload L L (fuel + 1) ⟨seg :: rest, out, re, we, wb, calls⟩ 0 [] =
      some (.ok (seg.take L), ⟨seg.drop L :: rest, out, re, we, wb, calls + 1⟩) := by
  rw [readPayload, if_pos hL, Read_take seg rest out re we wb calls L hseg]
  simp only [Nat.zero_add, List.nil_append]
  rw [readPayload.eq_def]
  simp [List.length_take, Nat.min_eq_left (Nat.le_of_lt hseg)]

/-! ## Sender: any sequence of responses -/

/-- The loop of `modemSend` over the responses `rs`, as long as before each of
them a block is still to send and the failures are fewer than 10: one frame
per response; the block index goes up by the `ACK`s, the failure counter by
the other responses. -/
theorem sendLoop_responses (data : List Nat) (L blocks : Nat) :
    ∀ (rs : List Nat) (fuel : Nat) (c : Conn) (ob cb failed : Nat) (rest : List Nat),
      c.writeBudget = none → c.input.flatten = rs ++ rest →
      (∀ i, i < rs.length →
        cb + (rs.take i).count ACK < blocks ∧
        failed + (rs.take i).countP (fun r => decide (r ≠ ACK)) < 10) →
      ∃ inp ob', inp.flatten = rest ∧
        sendLoop data L blocks (fuel + rs.length) c ob cb failed =
          sendLoop data L blocks fuel
            { c with
              input := inp
              output := c.output ++ framesFor data L cb rs
              calls := c.calls + 7 * rs.length }
            ob' (cb + rs.count ACK) (failed + rs.countP (fun r => decide (r ≠ ACK))) := by
  intro rs
  induction rs with
  | nil =>
    intro fuel c ob cb failed rest _ hin _
    exact ⟨c.input, ob, by simpa using hin, by simp [framesFor]⟩
  | cons r rs ih =>
    intro fuel c ob cb failed rest hw hin hcond
    obtain ⟨hcb, hf⟩ := hcond 0 (by simp)
    simp only [List.take_zero, List.count_nil, List.countP_nil, Nat.add_zero] at hcb hf
    obtain ⟨inp1, hinp1, h1⟩ := sendLoop_step data L blocks (fuel + rs.length) c ob cb failed r
      (rs ++ rest) hcb hf hw (by simpa using hin)
    obtain ⟨inp, ob', hinp, h2⟩ := ih fuel
      { c with
        input := inp1
        output := c.output ++ frameWrites ((cb + 1) % 256) (blockChunk data L cb) L
        calls := c.calls + 7 }
      r (if r = ACK then cb + 1 else cb) (if r = ACK then failed else failed + 1) rest hw hinp1
      (by
        intro i hi
        have := hcond (i + 1) (by simpa using hi)
        simp only [List.take_succ_cons, List.count_cons, List.countP_cons, beq_iff_eq] at this
        by_cases hr : r = ACK
        · simp only [hr, if_true, ne_eq, not_true_eq_false, decide_False,
            Bool.false_eq_true, if_false, Nat.add_zero] at this ⊢
          omega
        · have hr' : ¬ (ACK = r) := fun e => hr e.symm
          simp only [hr, hr', if_false, ne_eq, not_false_eq_true, decide_True, if_true,
            Nat.add_zero] at this ⊢
          omega)
    refine ⟨inp, ob', hinp, ?_⟩
    rw [List.length_cons, ← Nat.add_assoc, h1, h2]
    have e1 : c.calls + 7 + 7 * rs.length = c.calls + 7 * (rs.length + 1) := by omega
    by_cases hr : r = ACK
    · subst hr
      simp only [framesFor, List.append_assoc, List.count_cons_self, List.countP_cons, if_true,
        ne_eq, not_true_eq_false, decide_False, Bool.false_eq_true, if_false, Nat.add_zero, e1]
      rw [Nat.add_assoc cb 1, Nat.add_comm 1]
    · have hr' : ¬ (ACK = r) := fun e => hr e.symm
      simp only [framesFor, List.append_assoc, List.count_cons, List.countP_cons, beq_iff_eq,
        hr, hr', if_false, ne_eq, not_false_eq_true, decide_True, if_true, Nat.add_zero, e1]
      rw [Nat.add_assoc failed 1, Nat.add_comm 1]

/-- The loop of `modemSend` ends without another pass once the failure counter
is at 10, whatever the block index. -/
theorem sendLoop_budget_spent (data : List Nat) (L blocks fuel : Nat) (c : Conn)
    (ob cb failed : Nat) (hf : 10 ≤ failed) :
    sendLoop data L blocks fuel c ob cb failed = some (.finished cb failed, c) := by
  rw [sendLoop.eq_def]
  simp only
  rw [if_neg (by omega)]

/-- Responses of which the last is the tenth that is not `ACK`, with fewer `ACK`s
among them than there are blocks: `modemSend` writes one frame per response,
then `EOT`, and returns nil. -/
theorem modemSend_ten_failures (c : Conn) (data : List Nat) (L : Nat) (pre : List Nat) (r : Nat)
    (rest : List Nat) (hw : c.writeBudget = none) (hr : r ≠ ACK)
    (hfail : pre.countP (fun x => decide (x ≠ ACK)) = 9)
    (hacks : pre.count ACK < blockCount data L)
    (hin : c.input.flatten = POLL :: (pre ++ r :: rest)) :
    ∃ inp, inp.flatten = rest ∧
      modemSend c data L =
        some (none,
          { c with
            input := inp
            output := c.output ++ framesFor data L 0 (pre ++ [r]) ++ [[EOT]]
            calls := c.calls + 7 * (pre.length + 1) + 2 }) := by
  obtain ⟨inp1, hinp1, h1⟩ := Read_one c POLL _ hin
  have hlen : pre.length = pre.count ACK + 9 := by
    have h := List.length_eq_countP_add_countP (fun x => decide (x = ACK)) pre
    have e1 : List.countP (fun x => decide (x = ACK)) pre = pre.count ACK := by
      rw [List.count]
      congr 1
    have e2 : List.countP (fun a => decide ¬(decide (a = ACK)) = true) pre =
        pre.countP (fun x => decide (x ≠ ACK)) := by
      congr 1
      funext x
      simp
    rw [e1, e2, hfail] at h
    exact h
  have hfuel : blockCount data L + 10 =
      (blockCount data L + 10 - (pre ++ [r]).length) + (pre ++ [r]).length := by
    simp only [List.length_append, List.length_cons, List.length_nil]
    omega
  obtain ⟨inp, ob', hinp, h2⟩ := sendLoop_responses data L (blockCount data L) (pre ++ [r])
    (blockCount data L + 10 - (pre ++ [r]).length)
    { c with input := inp1, calls := c.calls + 1 } POLL 0 0 rest hw
    (by simpa using hinp1)
    (by
      intro i hi
      simp only [List.length_append, List.length_cons, List.length_nil] at hi
      rw [List.take_append_of_le_length (by omega)]
      have s1 := (List.take_sublist i pre).count_le ACK
      have s2 := (List.take_sublist i pre).countP_le (fun x => decide (x ≠ ACK))
      omega)
  refine ⟨inp, hinp, ?_⟩
  unfold modemSend
  rw [h1]
  simp only [List.headD_cons, if_true]
  rw [hfuel, h2, sendLoop_budget_spent _ _ _ _ _ _ _ _ (by
    simp only [List.countP_append, List.countP_cons, List.countP_nil, hfail, hr, ne_eq,
      not_false_eq_true, decide_True, if_true]
    omega)]
  simp only [Conn.Write, hw, List.length_append, List.length_cons, List.length_nil]
  congr 3
  omega

/-! ## Stream errors end the run -/

theorem Steps.trans {a b c : Conn} (h₁ : Steps a b) (h₂ : Steps b c) : Steps a c := by
  induction h₂ with
  | refl => exact h₁
  | read n bs _ hn hr ih => exact Steps.read n bs ih hn hr
  | write p _ hw ih => exact Steps.write p ih hw

theorem Outcome.of_steps {a b c : Conn} {err : Option Error} (h₁ : Steps a b)
    (h₂ : Outcome b err c) : Outcome a err c := by
  cases err with
  | none => exact Steps.trans h₁ h₂
  | some e =>
    obtain ⟨c₁, hs, hf⟩ := h₂
    exact ⟨c₁, Steps.trans h₁ hs, hf⟩

/-- The six writes of `sendBlock` stop at the first that fails. -/
theorem sendBlock_outcome (c : Conn) (block : Nat) (data : List Nat) (L : Nat) :
    Outcome c (sendBlock c block data L).1 (sendBlock c block data L).2 := by
  unfold sendBlock
  simp only
  generalize h1 : c.Write [if L = XModem1KBlockLength then STX else SOH] = w1
  obtain ⟨e1, c1⟩ := w1
  cases e1 with
  | some e => exact ⟨c, Steps.refl c, Or.inr ⟨_, h1⟩⟩
  | none =>
  have s1 := Steps.write _ (Steps.refl c) h1
  simp only
  generalize h2 : c1.Write [block] = w2
  obtain ⟨e2, c2⟩ := w2
  cases e2 with
  | some e => exact ⟨c1, s1, Or.inr ⟨_, h2⟩⟩
  | none =>
  have s2 := Steps.write _ s1 h2
  simp only
  generalize h3 : c2.Write [255 - block] = w3
  obtain ⟨e3, c3⟩ := w3
  cases e3 with
  | some e => exact ⟨c2, s2, Or.inr ⟨_, h3⟩⟩
  | none =>
  have s3 := Steps.write _ s2 h3
  simp only
  generalize h4 : c3.Write (data ++ List.replicate (L - data.length) SUB) = w4
  obtain ⟨e4, c4⟩ := w4
  cases e4 with
  | some e => exact ⟨c3, s3, Or.inr ⟨_, h4⟩⟩
  | none =>
  have s4 := Steps.write _ s3 h4
  simp only
  generalize h5 : c4.Write [(CRC16Constant data L >>> 8) % 256] = w5
  obtain ⟨e5, c5⟩ := w5
  cases e5 with
  | some e => exact ⟨c4, s4, Or.inr ⟨_, h5⟩⟩
  | none =>
  have s5 := Steps.write _ s4 h5
  simp only
  generalize h6 : c5.Write [(CRC16Constant data L &&& 0xFF) % 256] = w6
  obtain ⟨e6, c6⟩ := w6
  cases e6 with
  | some e => exact ⟨c5, s5, Or.inr ⟨_, h6⟩⟩
  | none => exact Steps.write _ s5 h6

/-- The loop of `modemSend` stops at the first call that fails. -/
theorem sendLoop_outcome (data : List Nat) (L blocks : Nat) :
    ∀ (fuel : Nat) (c : Conn) (ob cb failed : Nat) (exit : SendExit) (c' : Conn),
      sendLoop data L blocks fuel c ob cb failed = some (exit, c') →
      Outcome c exit.err c' := by
  intro fuel
  induction fuel with
  | zero =>
    intro c ob cb failed exit c' h
    rw [sendLoop.eq_def] at h
    simp only at h
    by_cases hc : cb < blocks ∧ failed < 10
    · rw [if_pos hc] at h
      exact absurd h (by simp)
    · rw [if_neg hc] at h
      simp only [Option.some.injEq, Prod.mk.injEq] at h
      obtain ⟨rfl, rfl⟩ := h
      exact Steps.refl c
  | succ fuel ih =>
    intro c ob cb failed exit c' h
    rw [sendLoop.eq_def] at h
    simp only at h
    by_cases hc : cb < blocks ∧ failed < 10
    · rw [if_pos hc] at h
      have hb := sendBlock_outcome c ((cb + 1) % 256) (chunkAt data L cb) L
      generalize sendBlock c ((cb + 1) % 256) (chunkAt data L cb) L = sb at h hb
      obtain ⟨eb, c1⟩ := sb
      cases eb with
      | some e =>
        simp only [Option.some.injEq, Prod.mk.injEq] at h
        obtain ⟨rfl, rfl⟩ := h
        exact hb
      | none =>
        simp only at h hb
        generalize hr : c1.Read 1 = r at h
        obtain ⟨er, c2⟩ := r
        cases er with
        | error e =>
          simp only [Option.some.injEq, Prod.mk.injEq] at h
          obtain ⟨rfl, rfl⟩ := h
          exact ⟨c1, hb, Or.inl ⟨1, by decide, hr⟩⟩
        | ok bs =>
          have s2 : Steps c c2 := Steps.read 1 bs hb (by decide) hr
          simp only at h
          split at h
          · exact Outcome.of_steps s2 (ih _ _ _ _ _ _ h)
          · exact Outcome.of_steps s2 (ih _ _ _ _ _ _ h)
    · rw [if_neg hc] at h
      simp only [Option.some.injEq, Prod.mk.injEq] at h
      obtain ⟨rfl, rfl⟩ := h
      exact Steps.refl c

/-- The function `modemSend` stops at the first call that fails and returns its
error. -/
theorem modemSend_outcome (c : Conn) (data : List Nat) (L : Nat) (res : Option Error)
    (c' : Conn) (h : modemSend c data L = some (res, c')) : Outcome c res c' := by
  unfold modemSend at h
  generalize hr : c.Read 1 = r at h
  obtain ⟨er, c1⟩ := r
  cases er with
  | error e =>
    simp only [Option.some.injEq, Prod.mk.injEq] at h
    obtain ⟨rfl, rfl⟩ := h
    exact ⟨c, Steps.refl c, Or.inl ⟨1, by decide, hr⟩⟩
  | ok bs =>
    have s1 : Steps c c1 := Steps.read 1 bs (Steps.refl c) (by decide) hr
    simp only at h
    split at h
    · have hl := sendLoop_outcome data L (blockCount data L) (blockCount data L + 10) c1
        (bs.headD 0) 0 0
      generalize sendLoop data L (blockCount data L) (blockCount data L + 10) c1
        (bs.headD 0) 0 0 = sl at h hl
      cases sl with
      | none => simp at h
      | some q =>
        obtain ⟨exit, c2⟩ := q
        have ho := hl exit c2 rfl
        cases exit with
        | returned e =>
          simp only [Option.some.injEq, Prod.mk.injEq] at h
          obtain ⟨rfl, rfl⟩ := h
          exact Outcome.of_steps s1 ho
        | finished cb failed =>
          simp only at h
          generalize hw : c2.Write [EOT] = w at h
          obtain ⟨ew, c3⟩ := w
          have s2 : Steps c c2 := Steps.trans s1 ho
          cases ew with
          | some e =>
            simp only [Option.some.injEq, Prod.mk.injEq] at h
            obtain ⟨rfl, rfl⟩ := h
            exact ⟨c2, s2, Or.inr ⟨_, hw⟩⟩
          | none =>
            simp only [Option.some.injEq, Prod.mk.injEq] at h
            obtain ⟨rfl, rfl⟩ := h
            exact Steps.write _ s2 hw
    · simp only [Option.some.injEq, Prod.mk.injEq] at h
      obtain ⟨rfl, rfl⟩ := h
      exact s1

theorem Write_output (c : Conn) (p : List Nat) :
    (∀ c₁, c.Write p = (none, c₁) → c₁.output = c.output ++ [p]) ∧
      ∀ e c₁, c.Write p = (some e, c₁) → c₁.output = c.output := by
  unfold Conn.Write
  constructor
  · intro c₁ h
    split at h
    · simp at h
    · simp only [Prod.mk.injEq, true_and] at h
      rw [← h]
    · simp only [Prod.mk.injEq, true_and] at h
      rw [← h]
  · intro e c₁ h
    split at h
    · simp only [Prod.mk.injEq, Option.some.injEq] at h
      rw [← h.2]
    · simp at h
    · simp at h

theorem Read_output (c : Conn) (n : Nat) (r : Except Error (List Nat)) (c₁ : Conn)
    (h : c.Read n = (r, c₁)) : c₁.output = c.output := by
  have hk := (Read_keeps c n).2
  rw [h] at hk
  exact hk

/-- The payload loop stops at the first `Read` that fails. -/
theorem readPayload_outcome (dLen packetSize : Nat) (hd : 0 < dLen) :
    ∀ (fuel : Nat) (c : Conn) (received : Nat) (pData : List Nat)
      (res : Except Error (List Nat)) (c' : Conn),
      readPayload dLen packetSize fuel c received pData = some (res, c') →
      Outcome c (match res with | .error e => some e | .ok _ => none) c' := by
  intro fuel
  induction fuel with
  | zero =>
    intro c received pData res c' h
    rw [readPayload.eq_def] at h
    simp only at h
    by_cases hlt : received < packetSize
    · rw [if_pos hlt] at h
      exact absurd h (by simp)
    · rw [if_neg hlt] at h
      simp only [Option.some.injEq, Prod.mk.injEq] at h
      obtain ⟨rfl, rfl⟩ := h
      exact Steps.refl c
  | succ fuel ih =>
    intro c received pData res c' h
    rw [readPayload.eq_def] at h
    simp only at h
    by_cases hlt : received < packetSize
    · rw [if_pos hlt] at h
      generalize hr : c.Read dLen = r at h
      obtain ⟨er, c1⟩ := r
      cases er with
      | error e =>
        simp only [Option.some.injEq, Prod.mk.injEq] at h
        obtain ⟨rfl, rfl⟩ := h
        exact ⟨c, Steps.refl c, Or.inl ⟨dLen, hd, hr⟩⟩
      | ok bs =>
        simp only at h
        exact Outcome.of_steps (Steps.read dLen bs (Steps.refl c) hd hr) (ih _ _ _ _ _ h)
    · rw [if_neg hlt] at h
      simp only [Option.some.injEq, Prod.mk.injEq] at h
      obtain ⟨rfl, rfl⟩ := h
      exact Steps.refl c

/-- A pass of the receiver's loop that returns the error of a failing call. -/
theorem recv_failed {a b c' : Conn} {e : Error} (pre : List (List Nat)) (hs : Steps a b)
    (ho : b.output = a.output ++ pre) (hpre : ∀ w ∈ pre, w = [ACK] ∨ w = [NAK])
    (hf : Fails b e c') (ho' : c'.output = b.output) :
    Outcome a (some e) c' ∧ ((some e ≠ none → ([] : List Nat) = [])) ∧
      ∃ ws, c'.output = a.output ++ ws ∧ ∀ w ∈ ws, w = [ACK] ∨ w = [NAK] :=
  ⟨⟨b, hs, hf⟩, fun _ => rfl, pre, ho'.trans ho, hpre⟩

/-- A pass of the receiver's loop that goes on with the next pass. -/
theorem recv_continued {a b c' : Conn} {err : Option Error} {data' : List Nat}
    (pre : List (List Nat)) (hs : Steps a b)
    (ho : b.output = a.output ++ pre) (hpre : ∀ w ∈ pre, w = [ACK] ∨ w = [NAK])
    (h : Outcome b err c' ∧ (err ≠ none → data' = []) ∧
      ∃ ws, c'.output = b.output ++ ws ∧ ∀ w ∈ ws, w = [ACK] ∨ w = [NAK]) :
    Outcome a err c' ∧ (err ≠ none → data' = []) ∧
      ∃ ws, c'.output = a.output ++ ws ∧ ∀ w ∈ ws, w = [ACK] ∨ w = [NAK] := by
  obtain ⟨h1, h2, ws, h3, h4⟩ := h
  refine ⟨Outcome.of_steps hs h1, h2, pre ++ ws, ?_, ?_⟩
  · rw [h3, ho, List.append_assoc]
  · intro w hw
    rcases List.mem_append.1 hw with hw | hw
    · exact hpre w hw
    · exact h4 w hw

/-- The loop of `ModemReceive` stops at the first call that fails and returns its
error and no data; all it ever writes is `ACK` and `NAK`, one byte at a time. -/
theorem recvLoop_run :
    ∀ (fuel : Nat) (c : Conn) (data : List Nat) (ob dLen : Nat) (data' : List Nat)
      (err : Option Error) (c' : Conn),
      0 < dLen → recvLoop fuel c data ob dLen = some ((data', err), c') →
      Outcome c err c' ∧ (err ≠ none → data' = []) ∧
        ∃ ws, c'.output = c.output ++ ws ∧ ∀ w ∈ ws, w = [ACK] ∨ w = [NAK] := by
  intro fuel
  induction fuel with
  | zero =>
    intro c data ob dLen data' err c' _ h
    simp [recvLoop] at h
  | succ fuel ih =>
    intro c data ob dLen data' err c' hd h
    rw [recvLoop] at h
    generalize hr1 : c.Read 1 = r1 at h
    obtain ⟨e1, c1⟩ := r1
    cases e1 with
    | error e =>
      simp only [Option.some.injEq, Prod.mk.injEq] at h
      obtain ⟨⟨rfl, rfl⟩, rfl⟩ := h
      exact recv_failed [] (Steps.refl c) (by simp) (by simp) (Or.inl ⟨1, by decide, hr1⟩)
        (Read_output _ _ _ _ hr1)
    | ok bs1 =>
    have s1 : Steps c c1 := Steps.read 1 bs1 (Steps.refl c) (by decide) hr1
    have o1 : c1.output = c.output ++ [] := by rw [Read_output _ _ _ _ hr1]; simp
    simp only at h
    split at h
    · generalize hw : c1.Write [ACK] = w at h
      obtain ⟨ew, cw⟩ := w
      cases ew with
      | some e =>
        simp only [Option.some.injEq, Prod.mk.injEq] at h
        obtain ⟨⟨rfl, rfl⟩, rfl⟩ := h
        exact recv_failed [] s1 o1 (by simp) (Or.inr ⟨_, hw⟩) ((Write_output c1 [ACK]).2 e _ hw)
      | none =>
        simp only [Option.some.injEq, Prod.mk.injEq] at h
        obtain ⟨⟨rfl, rfl⟩, rfl⟩ := h
        refine ⟨Steps.write _ s1 hw, fun hne => absurd rfl hne, [[ACK]], ?_, ?_⟩
        · rw [(Write_output c1 [ACK]).1 _ hw, o1, List.append_nil]
        · simp
    · generalize hr2 : c1.Read 1 = r2 at h
      obtain ⟨e2, c2⟩ := r2
      cases e2 with
      | error e =>
        simp only [Option.some.injEq, Prod.mk.injEq] at h
        obtain ⟨⟨rfl, rfl⟩, rfl⟩ := h
        exact recv_failed [] s1 o1 (by simp) (Or.inl ⟨1, by decide, hr2⟩)
          (Read_output _ _ _ _ hr2)
      | ok bs2 =>
      have s2 : Steps c c2 := Steps.read 1 bs2 s1 (by decide) hr2
      have o2 : c2.output = c.output ++ [] := (Read_output _ _ _ _ hr2).trans o1
      simp only at h
      generalize hr3 : c2.Read 1 = r3 at h
      obtain ⟨e3, c3⟩ := r3
      cases e3 with
      | error e =>
        simp only [Option.some.injEq, Prod.mk.injEq] at h
        obtain ⟨⟨rfl, rfl⟩, rfl⟩ := h
        exact recv_failed [] s2 o2 (by simp) (Or.inl ⟨1, by decide, hr3⟩)
          (Read_output _ _ _ _ hr3)
      | ok bs3 =>
      have s3 : Steps c c3 := Steps.read 1 bs3 s2 (by decide) hr3
      have o3 : c3.output = c.output ++ [] := (Read_output _ _ _ _ hr3).trans o2
      simp only at h
      have hd' : 0 < (if bs1.headD ob = STX then XModem1KBlockLength else dLen) := by
        split
        · decide
        · exact hd
      split at h
      · generalize hw : c3.Write [NAK] = w at h
        obtain ⟨ew, cw⟩ := w
        cases ew with
        | some e =>
          simp only [Option.some.injEq, Prod.mk.injEq] at h
          obtain ⟨⟨rfl, rfl⟩, rfl⟩ := h
          exact recv_failed [] s3 o3 (by simp) (Or.inr ⟨_, hw⟩)
            ((Write_output c3 [NAK]).2 e _ hw)
        | none =>
          simp only at h
          exact recv_continued [[NAK]] (Steps.write _ s3 hw)
            (by rw [(Write_output c3 [NAK]).1 _ hw, o3, List.append_nil]) (by simp)
            (ih _ _ _ _ _ _ _ hd' h)
      · generalize hpay : readPayload (if bs1.headD ob = STX then XModem1KBlockLength else dLen)
          (if bs1.headD ob = SOH then XModemBlockLength
            else if bs1.headD ob = STX then XModem1KBlockLength else 0)
          (if bs1.headD ob = SOH then XModemBlockLength
            else if bs1.headD ob = STX then XModem1KBlockLength else 0) c3 0 [] = rp at h
        cases rp with
        | none => simp at h
        | some q =>
        obtain ⟨res, c4⟩ := q
        have ho4 := (readPayload_keeps _ _ _ _ _ _ _ _ hpay).2
        have hp := readPayload_outcome _ _ hd' _ _ _ _ _ _ hpay
        cases res with
        | error e =>
          simp only [Option.some.injEq, Prod.mk.injEq] at h
          obtain ⟨⟨rfl, rfl⟩, rfl⟩ := h
          obtain ⟨cm, hsm, hfm⟩ := hp
          exact ⟨⟨cm, Steps.trans s3 hsm, hfm⟩, fun _ => rfl, [], by rw [ho4, o3], by simp⟩
        | ok pData =>
        have s4 : Steps c c4 := Steps.trans s3 hp
        have o4 : c4.output = c.output ++ [] := ho4.trans o3
        simp only at h
        generalize hr5 : c4.Read 1 = r5 at h
        obtain ⟨e5, c5⟩ := r5
        cases e5 with
        | error e =>
          simp only [Option.some.injEq, Prod.mk.injEq] at h
          obtain ⟨⟨rfl, rfl⟩, rfl⟩ := h
          exact recv_failed [] s4 o4 (by simp) (Or.inl ⟨1, by decide, hr5⟩)
            (Read_output _ _ _ _ hr5)
        | ok bs5 =>
        have s5 : Steps c c5 := Steps.read 1 bs5 s4 (by decide) hr5
        have o5 : c5.output = c.output ++ [] := (Read_output _ _ _ _ hr5).trans o4
        simp only at h
        generalize hr6 : c5.Read 1 = r6 at h
        obtain ⟨e6, c6⟩ := r6
        cases e6 with
        | error e =>
          simp only [Option.some.injEq, Prod.mk.injEq] at h
          obtain ⟨⟨rfl, rfl⟩, rfl⟩ := h
          exact recv_failed [] s5 o5 (by simp) (Or.inl ⟨1, by decide, hr6⟩)
            (Read_output _ _ _ _ hr6)
        | ok bs6 =>
        have s6 : Steps c c6 := Steps.read 1 bs6 s5 (by decide) hr6
        have o6 : c6.output = c.output ++ [] := (Read_output _ _ _ _ hr6).trans o5
        simp only at h
        split at h
        · generalize hw : c6.Write [ACK] = w at h
          obtain ⟨ew, cw⟩ := w
          cases ew with
          | some e =>
            simp only [Option.some.injEq, Prod.mk.injEq] at h
            obtain ⟨⟨rfl, rfl⟩, rfl⟩ := h
            exact recv_failed [] s6 o6 (by simp) (Or.inr ⟨_, hw⟩)
              ((Write_output c6 [ACK]).2 e _ hw)
          | none =>
            simp only at h
            exact recv_continued [[ACK]] (Steps.write _ s6 hw)
              (by rw [(Write_output c6 [ACK]).1 _ hw, o6, List.append_nil]) (by simp)
              (ih _ _ _ _ _ _ _ hd' h)
        · generalize hw : c6.Write [NAK] = w at h
          obtain ⟨ew, cw⟩ := w
          cases ew with
          | some e =>
            simp only [Option.some.injEq, Prod.mk.injEq] at h
            obtain ⟨⟨rfl, rfl⟩, rfl⟩ := h
            exact recv_failed [] s6 o6 (by simp) (Or.inr ⟨_, hw⟩)
              ((Write_output c6 [NAK]).2 e _ hw)
          | none =>
            simp only at h
            exact recv_continued [[NAK]] (Steps.write _ s6 hw)
              (by rw [(Write_output c6 [NAK]).1 _ hw, o6, List.append_nil]) (by simp)
              (ih _ _ _ _ _ _ _ hd' h)

/-- The function `ModemReceive` stops at the first call that fails and returns
its error and no data. What it writes is `POLL`, once and first, and after it
only `ACK` and `NAK`. -/
theorem ModemReceive_run (c : Conn) (data' : List Nat) (err : Option Error) (c' : Conn)
    (h : ModemReceive c = some ((data', err), c')) :
    Outcome c err c' ∧ (err ≠ none → data' = []) ∧
      ((∃ e, c.Write [POLL] = (some e, c') ∧ err = some e) ∨
        ∃ ws, c'.output = c.output ++ [POLL] :: ws ∧ ∀ w ∈ ws, w = [ACK] ∨ w = [NAK]) := by
  unfold ModemReceive at h
  generalize hw : c.Write [POLL] = w at h
  obtain ⟨ew, c1⟩ := w
  cases ew with
  | some e =>
    simp only [Option.some.injEq, Prod.mk.injEq] at h
    obtain ⟨⟨rfl, rfl⟩, rfl⟩ := h
    exact ⟨⟨c, Steps.refl c, Or.inr ⟨_, hw⟩⟩, fun _ => rfl, Or.inl ⟨e, rfl, rfl⟩⟩
  | none =>
    simp only at h
    obtain ⟨h1, h2, ws, h3, h4⟩ := recvLoop_run _ _ _ _ _ _ _ _ (by decide) h
    refine ⟨Outcome.of_steps (Steps.write _ (Steps.refl c) hw) h1, h2, Or.inr ⟨ws, ?_, h4⟩⟩
    rw [h3, (Write_output c [POLL]).1 _ hw, List.append_assoc]
    rfl

/-- The byte `EOT` in the header position: `ACK` is written and the output buffer
is returned. -/
theorem recvLoop_eot_any (fuel : Nat) (c : Conn) (data : List Nat) (ob dLen : Nat)
    (bs : List Nat) (hw : c.writeBudget = none) (hin : c.input.flatten = EOT :: bs) :
    ∃ inp, inp.flatten = bs ∧
      recvLoop (fuel + 1) c data ob dLen =
        some ((data, none),
          { c with input := inp, output := c.output ++ [[ACK]], calls := c.calls + 2 }) := by
  obtain ⟨inp, hinp, h1⟩ := Read_one c EOT bs hin
  refine ⟨inp, hinp, ?_⟩
  rw [recvLoop]
  simp only [h1, List.headD_cons, if_true]
  simp only [Conn.Write, hw]

theorem Write_fails_iff (c : Conn) (p : List Nat) (e : Error) (c₁ : Conn)
    (h : c.Write p = (some e, c₁)) : c.writeBudget = some 0 := by
  unfold Conn.Write at h
  split at h
  · assumption
  · simp at h
  · simp at h

/-! ## Passes of the receiver's loop, followed to the return -/

/-- With more fuel than bytes still to arrive the receiver's loop returns; what
it has written by then is `ACK` and `NAK` bytes, and it returns no data with
an error. -/
theorem recvLoop_returns (fuel : Nat) (c : Conn) (data : List Nat) (ob dLen : Nat)
    (hd : 0 < dLen) (hf : c.remaining < fuel) :
    ∃ res c' ws, recvLoop fuel c data ob dLen = some (res, c') ∧
      c'.output = c.output ++ ws ∧ (∀ w ∈ ws, w = [ACK] ∨ w = [NAK]) ∧
      (res.2 ≠ none → res.1 = []) := by
  have h := recvLoop_isSome fuel c data ob dLen hd hf
  cases hr : recvLoop fuel c data ob dLen with
  | none => rw [hr] at h; simp at h
  | some q =>
    obtain ⟨⟨bytes, err⟩, c'⟩ := q
    obtain ⟨_, h2, ws, h3, h4⟩ := recvLoop_run fuel c data ob dLen bytes err c' hd hr
    exact ⟨(bytes, err), c', ws, rfl, h3, h4, h2⟩

/-- After its first write `ModemReceive` is its loop. -/
theorem ModemReceive_eq (c : Conn) (hw : c.writeBudget = none) :
    ModemReceive c =
      recvLoop (c.input.flatten.length + 1)
        { c with output := c.output ++ [[POLL]], calls := c.calls + 1 } [] 0
        XModemBlockLength := by
  unfold ModemReceive
  rw [Write_ok c [POLL] hw]
  rfl

/-- Two passes of the receiver's loop over two frames as `sendBlock` writes them,
whatever their block numbers up to 127. -/
theorem recvLoop_two_frames (fuel : Nat) (c : Conn) (data : List Nat) (ob dLen b₁ b₂ : Nat)
    (chunk₁ chunk₂ : List Nat) (L₁ L₂ : Nat) (rest : List (List Nat))
    (hL₁ : L₁ = 128 ∨ L₁ = 1024) (hL₂ : L₂ = 128 ∨ L₂ = 1024)
    (hb₁ : b₁ ≤ 127) (hb₂ : b₂ ≤ 127)
    (hlen₁ : chunk₁.length ≤ L₁) (hlen₂ : chunk₂.length ≤ L₂) (hd : 128 ≤ dLen)
    (hw : c.writeBudget = none)
    (hin : c.input = frameWrites b₁ chunk₁ L₁ ++ (frameWrites b₂ chunk₂ L₂ ++ rest)) :
    recvLoop (fuel + 2) c data ob dLen =
      recvLoop fuel
        { c with input := rest, output := c.output ++ [[ACK], [ACK]], calls := c.calls + 14 }
        (data ++ padTo L₁ chunk₁ ++ padTo L₂ chunk₂) (CRC16 (padTo L₂ chunk₂) % 256)
        (if L₂ = 1024 then 1024 else if L₁ = 1024 then 1024 else dLen) := by
  rw [recvLoop_frame (fuel + 1) c data ob dLen b₁ chunk₁ L₁ _ hL₁ hb₁ hlen₁ hd hw hin]
  rw [recvLoop_frame fuel
    { c with
      input := frameWrites b₂ chunk₂ L₂ ++ rest
      output := c.output ++ [[ACK]]
      calls := c.calls + 7 }
    _ _ _ b₂ chunk₂ L₂ rest hL₂ hb₂ hlen₂ (by split <;> omega) hw rfl]
  simp only [List.append_assoc, List.cons_append, List.nil_append, Nat.add_assoc]

theorem frameWrites_flatten_length (b : Nat) (chunk : List Nat) (L : Nat)
    (h : chunk.length ≤ L) : (frameWrites b chunk L).flatten.length = L + 5 := by
  simp [frameWrites, padTo_length L chunk h]

/-- One pass of the receiver's loop over a frame as `sendBlock` writes it in which
one payload byte was changed: `NAK`, and the output buffer stays. -/
theorem recvLoop_corrupted_frame
    (fuel : Nat) (c : Conn) (data : List Nat) (ob dLen b : Nat) (chunk : List Nat) (L : Nat)
    (rest : List (List Nat)) (i v x : Nat)
    (hL : L = 128 ∨ L = 1024) (hh : headerRejected b (255 - b) = false)
    (hlen : chunk.length ≤ L) (hbytes : ∀ y ∈ chunk, y < 256) (hd : 128 ≤ dLen)
    (hw : c.writeBudget = none)
    (hx : (padTo L chunk)[i]? = some x) (hv : v < 256) (hne : v ≠ x)
    (hin : c.input = (frameWrites b chunk L).set 3 ((padTo L chunk).set i v) ++ rest) :
    recvLoop (fuel + 1) c data ob dLen =
      recvLoop fuel
        { c with input := rest, output := c.output ++ [[NAK]], calls := c.calls + 7 }
        data (CRC16 (padTo L chunk) % 256) (if L = 1024 then 1024 else dLen) := by
  have hpl := padTo_length L chunk hlen
  obtain ⟨hi', hxi⟩ := List.getElem?_eq_some_iff.1 hx
  have hne' : CRC16 ((padTo L chunk).set i v) ≠ CRC16 (padTo L chunk) := by
    apply CRC16_set_ne (padTo L chunk) i v hi' (padTo_bytes L chunk hbytes) hv
    rw [List.get_eq_getElem, hxi]
    exact hne
  have hrec := crc_recombine _ (CRC16_lt (padTo L chunk))
  have h := recvLoop_frame_any fuel c data ob dLen b ((padTo L chunk).set i v)
    (CRC16 (padTo L chunk) / 256) (CRC16 (padTo L chunk) % 256) L rest hL hh
    (by rw [List.length_set, hpl]) hd hw (by simpa [frameWrites] using hin)
  rw [hrec, if_neg hne', if_neg hne'] at h
  exact h

/-- One pass of the receiver's loop, on any stream, in which the two checksum
bytes read do not make up the checksum of the payload read: `NAK`, and the
output buffer stays. -/
theorem recvLoop_checksum_mismatch (fuel : Nat) (c : Conn) (data : List Nat)
    (ob dLen pType packetCount inverseCount : Nat) (bs pData : List Nat) (c4 : Conn)
    (hi lo : Nat) (bs' : List Nat)
    (ht : pType ≠ EOT) (hacc : headerRejected packetCount inverseCount = false)
    (hw : c.writeBudget = none)
    (hin : c.input.flatten = pType :: packetCount :: inverseCount :: bs)
    (hpay : readPayload (if pType = STX then XModem1KBlockLength else dLen)
        (if pType = SOH then XModemBlockLength
          else if pType = STX then XModem1KBlockLength else 0)
        (if pType = SOH then XModemBlockLength
          else if pType = STX then XModem1KBlockLength else 0)
        (((c.Read 1).2.Read 1).2.Read 1).2 0 [] = some (.ok pData, c4))
    (hin4 : c4.input.flatten = hi :: lo :: bs')
    (hcrc : CRC16 pData ≠ ((hi <<< 8) % 65536) ||| lo) :
    c4.output = c.output ∧ c4.writeBudget = none ∧
    ∃ inp, inp.flatten = bs' ∧
      recvLoop (fuel + 1) c data ob dLen =
        recvLoop fuel
          { c4 with input := inp, output := c.output ++ [[NAK]], calls := c4.calls + 3 }
          data lo (if pType = STX then XModem1KBlockLength else dLen) := by
  obtain ⟨inp, hinp, h⟩ := recvLoop_checksum fuel c data ob dLen pType packetCount
    inverseCount bs pData c4 hi lo bs' ht hacc hw hin hpay hin4
  have ho := readPayload_header_output _ _ _ _ _ _ hpay
  rw [if_neg hcrc, if_neg hcrc, ho.1] at h
  exact ⟨ho.1, ho.2.trans hw, inp, hinp, h⟩

/-! ## Passes of the sender's loop, followed to the return -/

/-- A pass of the loop of `modemSend` on a stream that has nothing left: the
frame is written and the `Read` of the response fails. -/
theorem sendLoop_step_eof (data : List Nat) (L blocks fuel : Nat) (c : Conn) (ob cb failed : Nat)
    (hcb : cb < blocks) (hf : failed < 10) (hw : c.writeBudget = none)
    (hin : c.input.flatten = []) :
    sendLoop data L blocks (fuel + 1) c ob cb failed =
      some (.returned c.readErr,
        { c with
          input := []
          output := c.output ++ frameWrites ((cb + 1) % 256) (blockChunk data L cb) L
          calls := c.calls + 7 }) := by
  rw [sendLoop]
  simp only [hcb, hf, and_self, if_true]
  rw [sendBlock_ok c _ _ _ hw, chunkAt_eq_blockChunk]
  simp only []
  rw [Read_eof _ 1 (by exact hin)]

/-- The loop of `modemSend` ends when all blocks are acknowledged. -/
theorem sendLoop_done (data : List Nat) (L blocks fuel : Nat) (c : Conn)
    (ob cb failed : Nat) (hcb : blocks ≤ cb) :
    sendLoop data L blocks fuel c ob cb failed = some (.finished cb failed, c) := by
  rw [sendLoop.eq_def]
  simp only
  rw [if_neg (by omega)]

/-! # The properties of the specification -/

/-- C1 (round trip): for every payload `p` whose length is one of 0, 1, 127, 128,
129, 1023, 1024, 2500, `ModemSend(p)` (`modemSend` with 128-byte blocks) run
against a connected `ModemReceive` over the loopback makes both ends return
without error, and `ModemReceive` returns `p` followed by `SUB` bytes up to the
next multiple of 128. -/
theorem C1_round_trip (p : List Nat)
    (hlen : p.length ∈ [0, 1, 127, 128, 129, 1023, 1024, 2500]) :
    (∀ c, ModemSend c p = modemSend c p XModemBlockLength) ∧
    ∃ rounds, transfer p XModemBlockLength rounds =
      some (none, (p ++ List.replicate ((p.length + 127) / 128 * 128 - p.length) SUB, none)) := by
  refine ⟨fun _ => rfl, ?_⟩
  have hle : p.length ≤ 2500 := by
    simp only [List.mem_cons, List.mem_singleton, List.not_mem_nil, or_false] at hlen
    omega
  have hbc : blockCount p 128 = (p.length + 127) / 128 := by
    rw [blockCount_eq p 128 (by decide)]
    omega
  have hB : blockCount p 128 ≤ 127 := by rw [hbc]; omega
  refine ⟨blockCount p 128 + 2, ?_⟩
  show transfer p 128 (blockCount p 128 + 2) = _
  rw [transfer_ok p 128 (Or.inl rfl) hB, payloadsOf_blockCount p 128 (by decide), hbc]

theorem C1_round_trip_witness :
    [0x41].length ∈ [0, 1, 127, 128, 129, 1023, 1024, 2500] ∧
      (∀ c, ModemSend c [0x41] = modemSend c [0x41] XModemBlockLength) ∧
      ∃ rounds, transfer [0x41] XModemBlockLength rounds =
        some (none,
          ([0x41] ++ List.replicate (([0x41].length + 127) / 128 * 128 - [0x41].length) SUB, none)) :=
  ⟨by decide, C1_round_trip [0x41] (by decide)⟩

section ChecksumCorrectness

open Polynomial

/-- C2 (checksum correctness): for every byte sequence `d`, `CRC16(d)` is the
CRC-16/CCITT-XMODEM value of `d`: it is a 16-bit value, and its bits, bit `i`
being the coefficient of `x^i`, are the remainder of `d(x) * x^16` on division
by `x^16 + x^12 + x^5 + 1` over GF(2), where `d(x)` takes the bits of `d` most
significant first; no other 16-bit value has that remainder as its bits. So
there is no initial value, reflection or final XOR to account for, `CRC16` of
the ASCII bytes of "123456789" is `0x31C3`, and `CRC16` of the empty sequence
is 0. -/
theorem C2_checksum_correctness (d : List Nat) :
    CRC16 d < 2 ^ 16 ∧
    bitsPoly 16 (CRC16 d) = (msgPoly d * X ^ 16) %ₘ (X ^ 16 + X ^ 12 + X ^ 5 + 1) ∧
    (∀ r, r < 2 ^ 16 →
      bitsPoly 16 r = (msgPoly d * X ^ 16) %ₘ (X ^ 16 + X ^ 12 + X ^ 5 + 1) → r = CRC16 d) ∧
    CRC16 [0x31, 0x32, 0x33, 0x34, 0x35, 0x36, 0x37, 0x38, 0x39] = 0x31C3 ∧
    CRC16 [] = 0 := by
  have h := bitsPoly_CRC16 d
  rw [crcPoly] at h
  refine ⟨CRC16_lt d, h, ?_, by decide!, rfl⟩
  intro r hr hrem
  exact bitsPoly_inj r (CRC16 d) hr (CRC16_lt d) (hrem.trans h.symm)

end ChecksumCorrectness

/-- C3 (padding equivalence): for every byte sequence `d` and every `n ≥ len(d)`,
`CRC16Constant(d, n)` equals `CRC16` of `d` followed by `n - len(d)` bytes `SUB`. -/
theorem C3_padding_equivalence (d : List Nat) (n : Nat) (h : d.length ≤ n) :
    CRC16Constant d n = CRC16 (d ++ List.replicate (n - d.length) SUB) := by
  have _ := h
  exact CRC16Constant_eq d n

theorem C3_padding_equivalence_witness :
    [0x31, 0x32, 0x33].length ≤ 5 ∧
      CRC16Constant [0x31, 0x32, 0x33] 5 =
        CRC16 ([0x31, 0x32, 0x33] ++ List.replicate (5 - [0x31, 0x32, 0x33].length) SUB) :=
  ⟨by decide, C3_padding_equivalence [0x31, 0x32, 0x33] 5 (by decide)⟩

/-- C4 (frame layout): for every block number `b ≤ 255`, block length `L` of 128 or
1024 and chunk of at most `L` bytes, `sendBlock` on a stream whose writes all
succeed returns no error and writes, in order, the marker (`SOH` for 128, `STX`
for 1024), `b`, `255 - b`, the chunk followed by `L - len(chunk)` bytes `SUB`,
and the high and the low byte of `CRC16` of that padded payload; the frame is
`L + 5` bytes long, and its second and third byte sum to 255. -/
theorem C4_frame_layout (c : Conn) (b L : Nat) (chunk : List Nat)
    (hb : b ≤ 255) (hL : L = 128 ∨ L = 1024) (hlen : chunk.length ≤ L)
    (hw : c.writeBudget = none) :
    ∃ frame : List Nat,
      frame = [if L = 128 then SOH else STX, b, 255 - b]
        ++ (chunk ++ List.replicate (L - chunk.length) SUB)
        ++ [CRC16 (chunk ++ List.replicate (L - chunk.length) SUB) / 256,
            CRC16 (chunk ++ List.replicate (L - chunk.length) SUB) % 256] ∧
      (sendBlock c b chunk L).1 = none ∧
      (sendBlock c b chunk L).2.written = c.written ++ frame ∧
      frame.length = L + 5 ∧
      (∀ x ∈ frame.get? 1, ∀ y ∈ frame.get? 2, x + y = 255) ∧
      frame.get? 1 = some b ∧ frame.get? 2 = some (255 - b) := by
  refine ⟨_, rfl, ?_, ?_, ?_, ?_, ?_, ?_⟩
  · rw [sendBlock_ok c b chunk L hw]
  · rw [sendBlock_ok c b chunk L hw]
    rcases hL with rfl | rfl <;>
      simp [Conn.written, frameWrites, marker, padTo, XModem1KBlockLength]
  · simp only [List.length_append, List.length_cons, List.length_nil, List.length_replicate]
    omega
  · intro x hx y hy
    simp only [List.cons_append, List.nil_append, List.get?_cons_succ, List.get?_cons_zero,
      Option.mem_def, Option.some.injEq] at hx hy
    omega
  · simp
  · simp

set_option maxRecDepth 100000 in
theorem C4_frame_layout_witness :
    ∃ frame : List Nat,
      frame = [if 128 = 128 then SOH else STX, 7, 255 - 7]
        ++ ([1, 2, 3] ++ List.replicate (128 - [1, 2, 3].length) SUB)
        ++ [CRC16 ([1, 2, 3] ++ List.replicate (128 - [1, 2, 3].length) SUB) / 256,
            CRC16 ([1, 2, 3] ++ List.replicate (128 - [1, 2, 3].length) SUB) % 256] ∧
      (sendBlock (Conn.script []) 7 [1, 2, 3] 128).1 = none ∧
      (sendBlock (Conn.script []) 7 [1, 2, 3] 128).2.written = (Conn.script []).written ++ frame ∧
      frame.length = 128 + 5 ∧
      (∀ x ∈ frame.get? 1, ∀ y ∈ frame.get? 2, x + y = 255) ∧
      frame.get? 1 = some 7 ∧ frame.get? 2 = some (255 - 7) :=
  C4_frame_layout (Conn.script []) 7 128 [1, 2, 3] (by decide) (by decide) (by decide) rfl

/-- C5 at a payload of 32768 zero bytes, which needs 256 blocks of 128 bytes. The
sender, after `POLL` and 127 `ACK`s, has written the frames of blocks 1 to 128,
the last one numbered 128, a number the receiver's header test rejects.
`ModemReceive`, given these frames, acknowledges the first 127, answers the
header of block 128 with `NAK` without reading its payload, and carries on
with 127 blocks in its output buffer and the payload and checksum of block 128
still in the stream, where it expects a header. -/
theorem C5_block_128_rejected :
    blockCount (List.replicate 32768 0) 128 = 256 ∧
    headerRejected 128 (255 - 128) = true ∧
    (∃ cs, modemSend (Conn.script ([POLL] :: List.replicate 127 [ACK]))
        (List.replicate 32768 0) 128 = some (some 1, cs) ∧
      cs.output = framesOf (List.replicate 32768 0) 128 128) ∧
    framesOf (List.replicate 32768 0) 128 128 =
      framesOf (List.replicate 32768 0) 128 127 ++
        frameWrites 128 (blockChunk (List.replicate 32768 0) 128 127) 128 ∧
    ∃ inp dLen,
      inp.flatten = padTo 128 (blockChunk (List.replicate 32768 0) 128 127) ++
        [CRC16 (padTo 128 (blockChunk (List.replicate 32768 0) 128 127)) / 256,
         CRC16 (padTo 128 (blockChunk (List.replicate 32768 0) 128 127)) % 256] ∧
      ModemReceive (Conn.script (framesOf (List.replicate 32768 0) 128 128)) =
        recvLoop (128 * (128 + 4) + 1)
          { input := inp
            output := [POLL] :: (List.replicate 127 [ACK] ++ [[NAK]])
            readErr := 1, writeErr := 2, writeBudget := none, calls := 894 }
          (payloadsOf (List.replicate 32768 0) 128 127) 127 dLen := by
  have hbc : blockCount (List.replicate 32768 0) 128 = 256 := by
    rw [blockCount_eq _ 128 (by decide), List.length_replicate]
  exact ⟨hbc, by decide,
    block128_rejected (List.replicate 32768 0) 128 (Or.inl rfl) (by rw [hbc]; decide)⟩

/-- C6 as stated fails on the empty payload: `ModemSend`, after `POLL`, writes
the single byte `EOT` and no frame, and the connected `ModemReceive` returns no
bytes at all rather than 128 bytes `SUB`. -/
theorem C6_zero_byte_payload_counterexample :
    (ModemSend (Conn.script [[POLL], [ACK]]) []).map (fun r => (r.1, r.2.output))
        = some (none, [[EOT]]) ∧
      [[EOT]] ≠ frameWrites 1 [] 128 ++ [[EOT]] ∧
      transfer [] XModemBlockLength 2 = some (none, ([], none)) ∧
      ([] : List Nat) ≠ List.replicate 128 SUB := by
  refine ⟨by decide, by decide, ?_, by decide⟩
  have h := transfer_ok [] 128 (Or.inl rfl) (by decide)
  rw [show blockCount [] 128 = 0 from rfl] at h
  exact h

/-- C6, amended: with an empty payload and block length 128 or 1024, `modemSend`,
after reading `POLL`, writes no frame, only `EOT`, and returns without error;
the connected `ModemReceive` returns the empty sequence, and both ends return
without error after the `EOT`/`ACK` exchange. -/
theorem C6_zero_byte_payload (c : Conn) (L : Nat) (rest : List Nat)
    (hL : L = 128 ∨ L = 1024) (hw : c.writeBudget = none)
    (hin : c.input.flatten = POLL :: rest) :
    (∃ inp, inp.flatten = rest ∧
      modemSend c [] L =
        some (none, { c with input := inp, output := c.output ++ [[EOT]], calls := c.calls + 2 })) ∧
    transfer [] L 2 = some (none, ([], none)) := by
  have hpos : 0 < L := by rcases hL with rfl | rfl <;> decide
  have hbc : blockCount [] L = 0 := by
    rw [blockCount_eq [] L hpos]
    simp only [List.length_nil, Nat.zero_add]
    exact Nat.div_eq_of_lt (by omega)
  constructor
  · obtain ⟨inp, hinp, hs⟩ := modemSend_acks c [] L rest hw (by rw [hbc]; simpa using hin)
    refine ⟨inp, hinp, ?_⟩
    rw [hs, hbc]
    simp [framesOf]
  · have h := transfer_ok [] L hL (by rw [hbc]; decide)
    rw [hbc] at h
    simpa [payloadsOf] using h

theorem C6_zero_byte_payload_witness :
    (∃ inp, inp.flatten = [ACK] ∧
      modemSend (Conn.script [[POLL, ACK]]) [] 1024 =
        some (none,
          { Conn.script [[POLL, ACK]] with
            input := inp, output := (Conn.script [[POLL, ACK]]).output ++ [[EOT]],
            calls := (Conn.script [[POLL, ACK]]).calls + 2 })) ∧
    transfer [] 1024 2 = some (none, ([], none)) :=
  C6_zero_byte_payload (Conn.script [[POLL, ACK]]) 1024 [ACK] (Or.inr rfl) rfl (by decide)

/-- C7 (complement validation): for every header the loop of `ModemReceive` reads
(a first byte other than `EOT`, then block number and complement, all bytes)
with `blockComplement ≠ 255 - blockNumber`, and whatever bytes `bs` follow it
on the stream: the pass writes `NAK` after these three reads, leaves the output
buffer as it was, and starts over with `bs`, none of which it has read. With
enough fuel the loop returns, and what it has written by then starts with that
`NAK`. Followed to the return in the two shortest cases: when `EOT` comes
next, the loop (and `ModemReceive`, with its empty buffer) returns the
unchanged buffer with no error, having written `NAK` and then `ACK`; when the
stream ends after the header, the fifth call is the failing `Read` of a header
byte and `NAK` is all that was written. -/
theorem C7_complement_validation (fuel : Nat) (c : Conn) (data : List Nat)
    (ob dLen pType blockNumber blockComplement : Nat) (bs : List Nat)
    (ht : pType ≠ EOT) (hn : blockNumber < 256) (hc : blockComplement < 256)
    (hne : blockComplement ≠ 255 - blockNumber) (hw : c.writeBudget = none)
    (hin : c.input.flatten = pType :: blockNumber :: blockComplement :: bs) :
    (∃ inp, inp.flatten = bs ∧
      recvLoop (fuel + 1) c data ob dLen =
        recvLoop fuel
          { c with input := inp, output := c.output ++ [[NAK]], calls := c.calls + 4 }
          data blockComplement (if pType = STX then XModem1KBlockLength else dLen)) ∧
    (bs.length < fuel → 0 < dLen →
      ∃ res c' ws, recvLoop (fuel + 1) c data ob dLen = some (res, c') ∧
        c'.output = c.output ++ [NAK] :: ws ∧ (∀ w ∈ ws, w = [ACK] ∨ w = [NAK]) ∧
        (res.2 ≠ none → res.1 = [])) ∧
    (∀ bs' : List Nat, bs = EOT :: bs' →
      (∃ inp, inp.flatten = bs' ∧
        recvLoop (fuel + 2) c data ob dLen =
          some ((data, none),
            { c with
              input := inp, output := c.output ++ [[NAK], [ACK]], calls := c.calls + 6 })) ∧
      ∃ inp, inp.flatten = bs' ∧
        ModemReceive c =
          some (([], none),
            { c with
              input := inp
              output := c.output ++ [[POLL], [NAK], [ACK]]
              calls := c.calls + 7 })) ∧
    (bs = [] →
      recvLoop (fuel + 2) c data ob dLen =
        some (([], some c.readErr),
          { c with input := [], output := c.output ++ [[NAK]], calls := c.calls + 5 })) := by
  have hrej := headerRejected_of_ne blockNumber blockComplement hn hc hne
  refine ⟨recvLoop_header_rejected fuel c data ob dLen pType blockNumber blockComplement bs ht
    hrej hw hin, ?_, ?_, ?_⟩
  · intro hf hd
    obtain ⟨inp, hinp, h⟩ := recvLoop_header_rejected fuel c data ob dLen pType blockNumber
      blockComplement bs ht hrej hw hin
    obtain ⟨res, c', ws, h1, h2, h3, h4⟩ := recvLoop_returns fuel
      { c with input := inp, output := c.output ++ [[NAK]], calls := c.calls + 4 }
      data blockComplement (if pType = STX then XModem1KBlockLength else dLen)
      (by split
          · decide
          · exact hd)
      (by simp only [Conn.remaining, hinp]; exact hf)
    refine ⟨res, c', ws, h.trans h1, ?_, h3, h4⟩
    rw [h2]
    simp only [List.append_assoc, List.cons_append, List.nil_append]
  · intro bs' hbs
    subst hbs
    obtain ⟨inp, hinp, h⟩ := recvLoop_header_rejected (fuel + 1) c data ob dLen pType blockNumber
      blockComplement (EOT :: bs') ht hrej hw hin
    obtain ⟨inp', hinp', h'⟩ := recvLoop_eot_any fuel
      { c with input := inp, output := c.output ++ [[NAK]], calls := c.calls + 4 }
      data blockComplement (if pType = STX then XModem1KBlockLength else dLen) bs' hw hinp
    refine ⟨⟨inp', hinp', ?_⟩, ?_⟩
    · rw [h, h']
      simp only [List.append_assoc, List.cons_append, List.nil_append]
    · obtain ⟨inp₁, hinp₁, h₁⟩ := recvLoop_header_rejected (bs'.length + 1 + 1 + 1 + 1)
        { c with output := c.output ++ [[POLL]], calls := c.calls + 1 } [] 0 XModemBlockLength
        pType blockNumber blockComplement (EOT :: bs') ht hrej hw hin
      obtain ⟨inp₂, hinp₂, h₂⟩ := recvLoop_eot_any (bs'.length + 1 + 1 + 1)
        { c with
          input := inp₁
          output := c.output ++ [[POLL]] ++ [[NAK]]
          calls := c.calls + 1 + 4 }
        [] blockComplement (if pType = STX then XModem1KBlockLength else XModemBlockLength) bs'
        hw hinp₁
      refine ⟨inp₂, hinp₂, ?_⟩
      rw [ModemReceive_eq c hw, hin]
      simp only [List.length_cons]
      rw [h₁, h₂]
      simp only [List.append_assoc, List.cons_append, List.nil_append]
  · intro hbs
    subst hbs
    obtain ⟨inp, hinp, h⟩ := recvLoop_header_rejected (fuel + 1) c data ob dLen pType blockNumber
      blockComplement [] ht hrej hw hin
    rw [h, recvLoop_eof fuel _ _ _ _ hinp]

theorem C7_complement_validation_witness :
    ((∃ inp, inp.flatten = [0x58] ∧
      recvLoop (0 + 2) (Conn.script [[SOH, 1, 0xFD, EOT, 0x58]]) [7] 0 128 =
        some (([7], none),
          { Conn.script [[SOH, 1, 0xFD, EOT, 0x58]] with
            input := inp
            output := (Conn.script [[SOH, 1, 0xFD, EOT, 0x58]]).output ++ [[NAK], [ACK]]
            calls := (Conn.script [[SOH, 1, 0xFD, EOT, 0x58]]).calls + 6 })) ∧
      ∃ inp, inp.flatten = [0x58] ∧
        ModemReceive (Conn.script [[SOH, 1, 0xFD, EOT, 0x58]]) =
          some (([], none),
            { Conn.script [[SOH, 1, 0xFD, EOT, 0x58]] with
              input := inp
              output := (Conn.script [[SOH, 1, 0xFD, EOT, 0x58]]).output ++
                [[POLL], [NAK], [ACK]]
              calls := (Conn.script [[SOH, 1, 0xFD, EOT, 0x58]]).calls + 7 })) ∧
    recvLoop (0 + 2) (Conn.script [[SOH, 1, 0xFD, EOT, 0x58]]) [7] 0 128 =
      some (([7], none), ⟨[[0x58]], [[NAK], [ACK]], 1, 2, none, 6⟩) ∧
    ModemReceive (Conn.script [[SOH, 1, 0xFD, EOT, 0x58]]) =
      some (([], none), ⟨[[0x58]], [[POLL], [NAK], [ACK]], 1, 2, none, 7⟩) ∧
    ModemReceive (Conn.script [[SOH, 1, 0xFD]]) =
      some (([], some 1), ⟨[], [[POLL], [NAK]], 1, 2, none, 6⟩) :=
  ⟨(C7_complement_validation 0 (Conn.script [[SOH, 1, 0xFD, EOT, 0x58]]) [7] 0 128 SOH 1 0xFD
      [EOT, 0x58] (by decide) (by decide) (by decide) (by decide) rfl (by decide)).2.2.1
      [0x58] rfl,
    by decide, by decide, by decide⟩

/-- C8 (checksum validation). First part: take a frame as `sendBlock` writes it
(block length 128 or 1024, a chunk of bytes) whose header passes the receiver's
header test, and change one payload byte to a different byte value, leaving
marker, header and checksum bytes alone. The pass of the loop of
`ModemReceive` over it writes `NAK` and leaves the output buffer unchanged.
Followed to the return: with `EOT` after the frame the loop returns the
unchanged buffer, and `ModemReceive` the empty sequence, with no error, having
written `NAK` for the frame and `ACK` for the `EOT`; with the stream ending
after the frame, `NAK` is all that was written before the failing `Read`.
Second part, for any stream: whenever the header passes, the payload read is
`pData` and the two checksum bytes read after it do not make up
`CRC16(pData)`, the pass has written nothing before its `NAK` and leaves the
output buffer unchanged; followed to the return in the same two cases, and
with enough fuel the loop returns with that `NAK` as the first thing
written. -/
theorem C8_checksum_validation
    (fuel : Nat) (c : Conn) (data : List Nat) (ob dLen b : Nat) (chunk : List Nat) (L : Nat)
    (rest : List (List Nat)) (i v x : Nat)
    (hL : L = 128 ∨ L = 1024) (hh : headerRejected b (255 - b) = false)
    (hlen : chunk.length ≤ L) (hbytes : ∀ y ∈ chunk, y < 256) (hd : 128 ≤ dLen)
    (hw : c.writeBudget = none)
    (hx : (padTo L chunk)[i]? = some x) (hv : v < 256) (hne : v ≠ x)
    (hin : c.input = (frameWrites b chunk L).set 3 ((padTo L chunk).set i v) ++ rest)
    (fuel' : Nat) (c' : Conn) (data' : List Nat) (ob' dLen' pType packetCount inverseCount : Nat)
    (bs pData : List Nat) (c4 : Conn) (hi lo : Nat) (bs' : List Nat)
    (ht : pType ≠ EOT) (hacc : headerRejected packetCount inverseCount = false)
    (hw' : c'.writeBudget = none)
    (hin' : c'.input.flatten = pType :: packetCount :: inverseCount :: bs)
    (hpay : readPayload (if pType = STX then XModem1KBlockLength else dLen')
        (if pType = SOH then XModemBlockLength
          else if pType = STX then XModem1KBlockLength else 0)
        (if pType = SOH then XModemBlockLength
          else if pType = STX then XModem1KBlockLength else 0)
        (((c'.Read 1).2.Read 1).2.Read 1).2 0 [] = some (.ok pData, c4))
    (hin4 : c4.input.flatten = hi :: lo :: bs')
    (hcrc : CRC16 pData ≠ ((hi <<< 8) % 65536) ||| lo) :
    (recvLoop (fuel + 1) c data ob dLen =
        recvLoop fuel
          { c with input := rest, output := c.output ++ [[NAK]], calls := c.calls + 7 }
          data (CRC16 (padTo L chunk) % 256) (if L = 1024 then 1024 else dLen)) ∧
    (∀ rest' : List (List Nat), rest = [EOT] :: rest' →
      recvLoop (fuel + 2) c data ob dLen =
        some ((data, none),
          { c with
            input := rest', output := c.output ++ [[NAK], [ACK]], calls := c.calls + 9 }) ∧
      ModemReceive c =
        some (([], none),
          { c with
            input := rest'
            output := c.output ++ [[POLL], [NAK], [ACK]]
            calls := c.calls + 10 })) ∧
    (rest = [] →
      recvLoop (fuel + 2) c data ob dLen =
        some (([], some c.readErr),
          { c with input := [], output := c.output ++ [[NAK]], calls := c.calls + 8 })) ∧
    (c4.output = c'.output ∧
      ∃ inp, inp.flatten = bs' ∧
        recvLoop (fuel' + 1) c' data' ob' dLen' =
          recvLoop fuel'
            { c4 with input := inp, output := c'.output ++ [[NAK]], calls := c4.calls + 3 }
            data' lo (if pType = STX then XModem1KBlockLength else dLen')) ∧
    (∀ bs'' : List Nat, bs' = EOT :: bs'' →
      ∃ inp, inp.flatten = bs'' ∧
        recvLoop (fuel' + 2) c' data' ob' dLen' =
          some ((data', none),
            { c4 with
              input := inp, output := c'.output ++ [[NAK], [ACK]], calls := c4.calls + 5 })) ∧
    (bs' = [] →
      recvLoop (fuel' + 2) c' data' ob' dLen' =
        some (([], some c4.readErr),
          { c4 with input := [], output := c'.output ++ [[NAK]], calls := c4.calls + 4 })) ∧
    (bs'.length < fuel' → 0 < dLen' →
      ∃ res cEnd ws, recvLoop (fuel' + 1) c' data' ob' dLen' = some (res, cEnd) ∧
        cEnd.output = c'.output ++ [NAK] :: ws ∧ (∀ w ∈ ws, w = [ACK] ∨ w = [NAK]) ∧
        (res.2 ≠ none → res.1 = [])) := by
  refine ⟨?_, ?_, ?_, ?_, ?_, ?_, ?_⟩
  · exact recvLoop_corrupted_frame fuel c data ob dLen b chunk L rest i v x hL hh hlen hbytes hd
      hw hx hv hne hin
  · intro rest' hr
    subst hr
    constructor
    · rw [recvLoop_corrupted_frame (fuel + 1) c data ob dLen b chunk L _ i v x hL hh hlen hbytes
        hd hw hx hv hne hin]
      rw [recvLoop_eot fuel
        { c with input := [EOT] :: rest', output := c.output ++ [[NAK]], calls := c.calls + 7 }
        _ _ _ rest' hw rfl]
      simp only [List.append_assoc, List.cons_append, List.nil_append]
    · have hlen1 : 1 ≤ c.input.flatten.length := by
        rw [hin]
        simp [frameWrites]
      rw [ModemReceive_eq c hw,
        show c.input.flatten.length + 1 = (c.input.flatten.length - 1) + 1 + 1 by omega]
      rw [recvLoop_corrupted_frame (c.input.flatten.length - 1 + 1)
        { c with output := c.output ++ [[POLL]], calls := c.calls + 1 } [] 0 XModemBlockLength
        b chunk L _ i v x hL hh hlen hbytes (by decide) hw hx hv hne hin]
      rw [recvLoop_eot (c.input.flatten.length - 1)
        { c with
          input := [EOT] :: rest'
          output := c.output ++ [[POLL]] ++ [[NAK]]
          calls := c.calls + 1 + 7 }
        _ _ _ rest' hw rfl]
      simp only [List.append_assoc, List.cons_append, List.nil_append]
  · intro hr
    subst hr
    rw [recvLoop_corrupted_frame (fuel + 1) c data ob dLen b chunk L _ i v x hL hh hlen hbytes
      hd hw hx hv hne hin]
    rw [recvLoop_eof fuel
      { c with input := [], output := c.output ++ [[NAK]], calls := c.calls + 7 } _ _ _ rfl]
  · obtain ⟨ho, _, inp, hinp, h⟩ := recvLoop_checksum_mismatch fuel' c' data' ob' dLen' pType
      packetCount inverseCount bs pData c4 hi lo bs' ht hacc hw' hin' hpay hin4 hcrc
    exact ⟨ho, inp, hinp, h⟩
  · intro bs'' hb
    subst hb
    obtain ⟨_, hw4, inp, hinp, h⟩ := recvLoop_checksum_mismatch (fuel' + 1) c' data' ob' dLen'
      pType packetCount inverseCount bs pData c4 hi lo (EOT :: bs'') ht hacc hw' hin' hpay hin4
      hcrc
    obtain ⟨inp', hinp', h'⟩ := recvLoop_eot_any fuel'
      { c4 with input := inp, output := c'.output ++ [[NAK]], calls := c4.calls + 3 }
      data' lo (if pType = STX then XModem1KBlockLength else dLen') bs'' hw4 hinp
    refine ⟨inp', hinp', ?_⟩
    rw [h, h']
    simp only [List.append_assoc, List.cons_append, List.nil_append]
  · intro hb
    subst hb
    obtain ⟨_, hw4, inp, hinp, h⟩ := recvLoop_checksum_mismatch (fuel' + 1) c' data' ob' dLen'
      pType packetCount inverseCount bs pData c4 hi lo [] ht hacc hw' hin' hpay hin4 hcrc
    rw [h, recvLoop_eof fuel'
      { c4 with input := inp, output := c'.output ++ [[NAK]], calls := c4.calls + 3 }
      _ _ _ hinp]
  · intro hf hd0
    obtain ⟨_, hw4, inp, hinp, h⟩ := recvLoop_checksum_mismatch fuel' c' data' ob' dLen'
      pType packetCount inverseCount bs pData c4 hi lo bs' ht hacc hw' hin' hpay hin4 hcrc
    obtain ⟨res, cEnd, ws, h1, h2, h3, h4⟩ := recvLoop_returns fuel'
      { c4 with input := inp, output := c'.output ++ [[NAK]], calls := c4.calls + 3 }
      data' lo (if pType = STX then XModem1KBlockLength else dLen')
      (by split
          · decide
          · exact hd0)
      (by simp only [Conn.remaining, hinp]; exact hf)
    refine ⟨res, cEnd, ws, h.trans h1, ?_, h3, h4⟩
    rw [h2]
    simp only [List.append_assoc, List.cons_append, List.nil_append]

set_option maxRecDepth 100000 in
theorem C8_checksum_validation_witness :
    ModemReceive
        (Conn.script ((frameWrites 1 [0x58] 128).set 3 ((padTo 128 [0x58]).set 0 0x59) ++
          [[EOT]])) =
      some (([], none), ⟨[], [[POLL], [NAK], [ACK]], 1, 2, none, 10⟩) ∧
    (∃ inp, inp.flatten = [] ∧
      recvLoop (0 + 2) (Conn.script [[0x55, 0, 255, 1, 2, EOT]]) [7] 0 128 =
        some (([7], none),
          { (⟨[[1, 2, EOT]], [], 1, 2, none, 3⟩ : Conn) with
            input := inp
            output := (Conn.script [[0x55, 0, 255, 1, 2, EOT]]).output ++ [[NAK], [ACK]]
            calls := (⟨[[1, 2, EOT]], [], 1, 2, none, 3⟩ : Conn).calls + 5 })) ∧
    recvLoop (0 + 2) (Conn.script [[0x55, 0, 255, 1, 2, EOT]]) [7] 0 128 =
      some (([7], none), ⟨[], [[NAK], [ACK]], 1, 2, none, 8⟩) := by
  have T := C8_checksum_validation 0
    (Conn.script ((frameWrites 1 [0x58] 128).set 3 ((padTo 128 [0x58]).set 0 0x59) ++ [[EOT]]))
    [] 0 128 1 [0x58] 128 [[EOT]] 0 0x59 0x58 (Or.inl rfl) (by decide) (by decide) (by decide)
    (by decide) rfl (by decide) (by decide) (by decide) rfl
    0 (Conn.script [[0x55, 0, 255, 1, 2, EOT]]) [7] 0 128 0x55 0 255 [1, 2, EOT] []
    ⟨[[1, 2, EOT]], [], 1, 2, none, 3⟩ 1 2 [EOT] (by decide) (by decide) rfl (by decide) rfl
    (by decide) (by decide)
  exact ⟨(T.2.1 [] rfl).2, T.2.2.2.2.1 [] rfl, by decide⟩

/-- C9 (retransmission), the claim as stated fails at the tenth failure: one
block to send, nine failures counted so far (fewer than 10), and the response
read after the frame is `NAK`, with another `NAK` waiting on the stream. The
loop of `modemSend` counts the tenth failure and ends: the frame was written
once, nothing is written again and the second `NAK` is never read. Seen from
`modemSend`: after `POLL` and ten `NAK`s it has written the frame ten times,
not eleven, and then `EOT`, and returns nil. -/
theorem C9_retransmission_counterexample :
    (∃ inp, inp.flatten = [NAK] ∧
      sendLoop [0x58] 128 1 (0 + 1) (Conn.script [[NAK, NAK]]) 0 0 9 =
        some (.finished 0 10,
          { Conn.script [[NAK, NAK]] with
            input := inp, output := frameWrites 1 [0x58] 128, calls := 7 })) ∧
    ∃ inp, inp.flatten = [NAK] ∧
      modemSend (Conn.script [POLL :: (List.replicate 9 NAK ++ NAK :: [NAK])]) [0x58] 128 =
        some (none,
          { Conn.script [POLL :: (List.replicate 9 NAK ++ NAK :: [NAK])] with
            input := inp
            output := (List.replicate 10 (frameWrites 1 [0x58] 128)).flatten ++ [[EOT]]
            calls := 72 }) := by
  have hc : blockChunk [0x58] 128 0 = [0x58] := by decide
  constructor
  · obtain ⟨inp, hinp, h⟩ := sendLoop_step [0x58] 128 1 0 (Conn.script [[NAK, NAK]]) 0 0 9 NAK
      [NAK] (by decide) (by decide) rfl (by decide)
    refine ⟨inp, hinp, ?_⟩
    rw [h, sendLoop_budget_spent _ _ _ _ _ _ _ _ (by decide), hc]
    simp only [Conn.script, List.nil_append, Nat.zero_add, Nat.reduceAdd, Nat.reduceMod,
      show NAK ≠ ACK by decide, if_false]
  · obtain ⟨inp, hinp, h⟩ := modemSend_ten_failures
      (Conn.script [POLL :: (List.replicate 9 NAK ++ NAK :: [NAK])]) [0x58] 128
      (List.replicate 9 NAK) NAK [NAK] rfl (by decide) (by decide)
      (by rw [blockCount_eq _ 128 (by decide)]; decide) (by decide)
    refine ⟨inp, hinp, ?_⟩
    have hfr : framesFor [0x58] 128 0 (List.replicate 9 NAK ++ [NAK]) =
        (List.replicate 10 (frameWrites 1 [0x58] 128)).flatten := by
      simp only [List.replicate, List.cons_append, List.nil_append, framesFor,
        show NAK ≠ ACK by decide, if_false, hc, Nat.zero_add, Nat.reduceMod, List.flatten_cons,
        List.flatten_nil, List.append_nil, List.append_assoc]
    rw [h, hfr]
    simp only [Conn.script, List.nil_append, List.length_replicate, Nat.zero_add, Nat.reduceAdd,
      Nat.reduceMul]

/-- C9 (retransmission), amended: in the loop of `modemSend`, with a block
still to send, fewer than 10 failures so far and no write failing, let the
response byte `r` read after the frame be anything other than `ACK`. The
failure counter goes up by one and the block index stays. If the counter is
then still below 10, the next pass writes the very same frame again: followed
to the return, when the stream ends there, the frame has been written twice
before the failing `Read`; when an `ACK` for the last block comes next, the
loop ends with the frame written twice, the block index one higher and the
counter at `failed + 1`; and whatever response `r'` comes next, the two frames
written are the same. If this was the tenth failure, the loop ends with the
frame written once, the counter at 10 and the block index as it was: nothing
is sent again. -/
theorem C9_retransmission (data : List Nat) (L blocks fuel : Nat) (c : Conn)
    (ob cb failed r : Nat) (bs : List Nat)
    (hcb : cb < blocks) (hf : failed < 10) (hr : r ≠ ACK) (hw : c.writeBudget = none)
    (hin : c.input.flatten = r :: bs) :
    (∃ inp, inp.flatten = bs ∧
      sendLoop data L blocks (fuel + 1) c ob cb failed =
        sendLoop data L blocks fuel
          { c with
            input := inp
            output := c.output ++ frameWrites ((cb + 1) % 256) (chunkAt data L cb) L
            calls := c.calls + 7 }
          r cb (failed + 1)) ∧
    (failed + 1 < 10 →
      (bs = [] →
        sendLoop data L blocks (fuel + 2) c ob cb failed =
          some (.returned c.readErr,
            { c with
              input := []
              output := c.output ++ frameWrites ((cb + 1) % 256) (chunkAt data L cb) L ++
                frameWrites ((cb + 1) % 256) (chunkAt data L cb) L
              calls := c.calls + 14 })) ∧
      (∀ bs' : List Nat, bs = ACK :: bs' → cb + 1 = blocks →
        ∃ inp, inp.flatten = bs' ∧
          sendLoop data L blocks (fuel + 2) c ob cb failed =
            some (.finished (cb + 1) (failed + 1),
              { c with
                input := inp
                output := c.output ++ frameWrites ((cb + 1) % 256) (chunkAt data L cb) L ++
                  frameWrites ((cb + 1) % 256) (chunkAt data L cb) L
                calls := c.calls + 14 })) ∧
      (∀ (r' : Nat) (bs' : List Nat), bs = r' :: bs' →
        ∃ inp, inp.flatten = bs' ∧
          sendLoop data L blocks (fuel + 2) c ob cb failed =
            sendLoop data L blocks fuel
              { c with
                input := inp
                output := c.output ++ frameWrites ((cb + 1) % 256) (chunkAt data L cb) L ++
                  frameWrites ((cb + 1) % 256) (chunkAt data L cb) L
                calls := c.calls + 14 }
              r' (if r' = ACK then cb + 1 else cb)
              (if r' = ACK then failed + 1 else failed + 2))) ∧
    (failed = 9 →
      ∃ inp, inp.flatten = bs ∧
        sendLoop data L blocks (fuel + 1) c ob cb failed =
          some (.finished cb 10,
            { c with
              input := inp
              output := c.output ++ frameWrites ((cb + 1) % 256) (chunkAt data L cb) L
              calls := c.calls + 7 })) := by
  have hstep : ∀ fuel, ∃ inp, inp.flatten = bs ∧
      sendLoop data L blocks (fuel + 1) c ob cb failed =
        sendLoop data L blocks fuel
          { c with
            input := inp
            output := c.output ++ frameWrites ((cb + 1) % 256) (chunkAt data L cb) L
            calls := c.calls + 7 }
          r cb (failed + 1) := by
    intro fuel
    obtain ⟨inp, hinp, h⟩ := sendLoop_step data L blocks fuel c ob cb failed r bs hcb hf hw hin
    refine ⟨inp, hinp, ?_⟩
    rw [h, chunkAt_eq_blockChunk, if_neg hr, if_neg hr]
  refine ⟨hstep fuel, ?_, ?_⟩
  · intro hf'
    obtain ⟨inp, hinp, h⟩ := hstep (fuel + 1)
    refine ⟨?_, ?_, ?_⟩
    · intro hbs
      subst hbs
      rw [h, sendLoop_step_eof data L blocks fuel
        { c with
          input := inp
          output := c.output ++ frameWrites ((cb + 1) % 256) (chunkAt data L cb) L
          calls := c.calls + 7 }
        r cb (failed + 1) hcb hf' hw hinp]
      simp only [chunkAt_eq_blockChunk, List.append_assoc]
    · intro bs' hbs hlast
      subst hbs
      obtain ⟨inp', hinp', h'⟩ := sendLoop_step data L blocks fuel
        { c with
          input := inp
          output := c.output ++ frameWrites ((cb + 1) % 256) (chunkAt data L cb) L
          calls := c.calls + 7 }
        r cb (failed + 1) ACK bs' hcb hf' hw hinp
      refine ⟨inp', hinp', ?_⟩
      rw [h, h', if_pos rfl, if_pos rfl, sendLoop_done _ _ _ _ _ _ _ _ (by omega)]
      simp only [chunkAt_eq_blockChunk, List.append_assoc]
    · intro r' bs' hbs
      subst hbs
      obtain ⟨inp', hinp', h'⟩ := sendLoop_step data L blocks fuel
        { c with
          input := inp
          output := c.output ++ frameWrites ((cb + 1) % 256) (chunkAt data L cb) L
          calls := c.calls + 7 }
        r cb (failed + 1) r' bs' hcb hf' hw hinp
      refine ⟨inp', hinp', ?_⟩
      rw [h, h']
      simp only [chunkAt_eq_blockChunk, List.append_assoc]
  · intro h9
    subst h9
    obtain ⟨inp, hinp, h⟩ := hstep fuel
    refine ⟨inp, hinp, ?_⟩
    rw [h, sendLoop_budget_spent _ _ _ _ _ _ _ _ (by decide)]

theorem C9_retransmission_witness :
    ∃ inp, inp.flatten = [] ∧
      sendLoop [0x58, 0x4d] 128 1 (0 + 2) (Conn.script [[NAK, ACK]]) 0 0 3 =
        some (.finished (0 + 1) (3 + 1),
          { Conn.script [[NAK, ACK]] with
            input := inp
            output := (Conn.script [[NAK, ACK]]).output ++
              frameWrites ((0 + 1) % 256) (chunkAt [0x58, 0x4d] 128 0) 128 ++
              frameWrites ((0 + 1) % 256) (chunkAt [0x58, 0x4d] 128 0) 128
            calls := (Conn.script [[NAK, ACK]]).calls + 14 }) :=
  (C9_retransmission [0x58, 0x4d] 128 1 0 (Conn.script [[NAK, ACK]]) 0 0 3 NAK [ACK]
    (by decide) (by decide) (by decide) rfl (by decide)).2.1 (by decide) |>.2.1 [] rfl rfl

/-- C10 (block splitting): for every payload `p` and block length `L` of 128 or
1024, when the first byte read is `POLL` and every response is `ACK` (and no
write fails), `modemSend` returns without error having written exactly
`ceil(len(p) / L)` frames and then one `EOT` byte; the frame with 0-based index
`i` has block number `(i + 1) mod 256` and payload
`p[i*L : min((i+1)*L, len(p))]` padded with `SUB` to `L` bytes, and the frame
payloads together are `p` padded with `SUB` to a multiple of `L`. The sender
reads the `POLL` and one response per frame, and nothing more. -/
theorem C10_block_splitting (c : Conn) (p : List Nat) (L : Nat) (rest : List Nat)
    (hL : L = 128 ∨ L = 1024) (hw : c.writeBudget = none)
    (hin : c.input.flatten = POLL :: (List.replicate ((p.length + L - 1) / L) ACK ++ rest)) :
    ∃ c', modemSend c p L = some (none, c') ∧
      c'.output = c.output ++
        (List.range ((p.length + L - 1) / L)).flatMap
          (fun i => frameWrites ((i + 1) % 256)
            ((p.take (min ((i + 1) * L) p.length)).drop (i * L)) L) ++ [[EOT]] ∧
      (List.range ((p.length + L - 1) / L)).flatMap
          (fun i => (p.take (min ((i + 1) * L) p.length)).drop (i * L) ++
            List.replicate (L - ((p.take (min ((i + 1) * L) p.length)).drop (i * L)).length) SUB) =
        p ++ List.replicate ((p.length + L - 1) / L * L - p.length) SUB ∧
      c'.input.flatten = rest := by
  have hpos : 0 < L := by rcases hL with rfl | rfl <;> decide
  have hbc := blockCount_eq p L hpos
  rw [← hbc] at hin ⊢
  obtain ⟨inp, hinp, hs⟩ := modemSend_acks c p L rest hw hin
  refine ⟨_, hs, rfl, ?_, hinp⟩
  exact payloadsOf_blockCount p L hpos

theorem C10_block_splitting_witness :
    ∃ c', modemSend (Conn.script [[POLL], [ACK], [NAK]]) [0x58, 0x4d] 128 =
        some (none, c') ∧
      c'.output = (Conn.script [[POLL], [ACK], [NAK]]).output ++
        (List.range (([0x58, 0x4d].length + 128 - 1) / 128)).flatMap
          (fun i => frameWrites ((i + 1) % 256)
            (([0x58, 0x4d].take
              (min ((i + 1) * 128) [0x58, 0x4d].length)).drop (i * 128)) 128)
          ++ [[EOT]] ∧
      (List.range (([0x58, 0x4d].length + 128 - 1) / 128)).flatMap
          (fun i => ([0x58, 0x4d].take
              (min ((i + 1) * 128) [0x58, 0x4d].length)).drop (i * 128) ++
            List.replicate (128 - (([0x58, 0x4d].take
              (min ((i + 1) * 128) [0x58, 0x4d].length)).drop (i * 128)).length) SUB) =
        [0x58, 0x4d] ++
          List.replicate (([0x58, 0x4d].length + 128 - 1) / 128 * 128
            - [0x58, 0x4d].length) SUB ∧
      c'.input.flatten = [NAK] :=
  C10_block_splitting (Conn.script [[POLL], [ACK], [NAK]]) [0x58, 0x4d] 128
    [NAK] (Or.inl rfl) rfl (by decide)

/-- C11 (per-frame block size), the divergence: `dBuffer` grows to 1024 bytes
at the first `STX` frame and is never cut back to 128, and the payload loop
reads into the whole of it. Take a valid `SOH` frame (block 2, any 128-byte
payload, the right checksum) followed by `EOT`, delivered so that the payload
arrives together with the checksum bytes and the `EOT`. On its own,
`ModemReceive` accepts it and returns the payload. After a valid `STX` frame
(block 1, any 1024-byte payload), delivered write by write, the same frame
delivered the same way is lost: the one `Read` of the payload loop returns the
payload, the checksum and the `EOT` at once, and `ModemReceive` returns the
error of the next `Read` and no data, with one `ACK` written instead of
three. -/
theorem C11_stale_buffer (payload₁ payload₂ : List Nat)
    (h₁ : payload₁.length = 1024) (h₂ : payload₂.length = 128) :
    ModemReceive (Conn.script
        [[SOH], [2], [253], payload₂ ++ [CRC16 payload₂ / 256, CRC16 payload₂ % 256, EOT]]) =
      some ((payload₂, none), ⟨[], [[POLL], [ACK], [ACK]], 1, 2, none, 10⟩) ∧
    ModemReceive (Conn.script
        (frameWrites 1 payload₁ 1024 ++
          [[SOH], [2], [253],
            payload₂ ++ [CRC16 payload₂ / 256, CRC16 payload₂ % 256, EOT]])) =
      some (([], some 1), ⟨[], [[POLL], [ACK]], 1, 2, none, 13⟩) := by
  have hlen : (payload₂ ++ [CRC16 payload₂ / 256, CRC16 payload₂ % 256, EOT]).length = 131 := by
    simp [h₂]
  have htake : (payload₂ ++ [CRC16 payload₂ / 256, CRC16 payload₂ % 256, EOT]).take 128 =
      payload₂ := by
    rw [← h₂, List.take_left]
  have hdrop : (payload₂ ++ [CRC16 payload₂ / 256, CRC16 payload₂ % 256, EOT]).drop 128 =
      [CRC16 payload₂ / 256, CRC16 payload₂ % 256, EOT] := by
    rw [← h₂, List.drop_left]
  have hne : payload₂ ++ [CRC16 payload₂ / 256, CRC16 payload₂ % 256, EOT] ≠ [] := by simp
  constructor
  · unfold ModemReceive
    simp only [Conn.script, Write_mk, List.nil_append]
    have hrem : Conn.remaining
        ⟨[[SOH], [2], [253], payload₂ ++ [CRC16 payload₂ / 256, CRC16 payload₂ % 256, EOT]],
          [[POLL]], 1, 2, none, 1⟩ = 133 + 1 := by
      simp [Conn.remaining, h₂]
    rw [hrem, recvLoop]
    rw [Read_cons _ _ _ _ _ _ _ 1 (by simp) (by simp)]
    simp only [List.headD_cons, show SOH ≠ EOT by decide, if_false, if_true]
    rw [Read_cons _ _ _ _ _ _ _ 1 (by simp) (by simp)]
    simp only [List.headD_cons]
    rw [Read_cons _ _ _ _ _ _ _ 1 (by simp) (by simp)]
    simp only [List.headD_cons, show headerRejected 2 253 = false by decide, Bool.false_eq_true,
      if_false, show SOH ≠ STX by decide, XModemBlockLength]
    rw [readPayload_take 128 _ _ _ _ _ _ _ 127 (by decide) (by rw [hlen]; decide)]
    simp only [htake, hdrop]
    rw [Read_take _ _ _ _ _ _ _ 1 (by simp)]
    simp only [List.take_succ_cons, List.take_zero, List.drop_succ_cons, List.drop_zero,
      List.headD_cons]
    rw [Read_take _ _ _ _ _ _ _ 1 (by simp)]
    simp only [List.take_succ_cons, List.take_zero, List.drop_succ_cons, List.drop_zero,
      List.headD_cons, crc_recombine _ (CRC16_lt payload₂), if_true, Write_mk, List.nil_append]
    rw [recvLoop_eot 133 _ _ _ _ [] (by rfl) (by rfl)]
    rfl
  · unfold ModemReceive
    simp only [Conn.script, Write_mk, List.nil_append]
    have hrem : Conn.remaining
        ⟨frameWrites 1 payload₁ 1024 ++
          [[SOH], [2], [253], payload₂ ++ [CRC16 payload₂ / 256, CRC16 payload₂ % 256, EOT]],
          [[POLL]], 1, 2, none, 1⟩ = 1161 + 1 + 1 := by
      simp [Conn.remaining, frameWrites, padTo, h₁, h₂]
    rw [hrem]
    rw [recvLoop_frame (1161 + 1 + 1) _ [] 0 XModemBlockLength 1 payload₁ 1024 _ (Or.inr rfl)
      (by decide) (by omega) (by decide) rfl rfl]
    rw [recvLoop]
    simp only []
    rw [Read_cons _ _ _ _ _ _ _ 1 (by simp) (by simp)]
    simp only [List.headD_cons, show SOH ≠ EOT by decide, if_false, if_true]
    rw [Read_cons _ _ _ _ _ _ _ 1 (by simp) (by simp)]
    simp only [List.headD_cons]
    rw [Read_cons _ _ _ _ _ _ _ 1 (by simp) (by simp)]
    simp only [List.headD_cons, show headerRejected 2 253 = false by decide, Bool.false_eq_true,
      if_false, show SOH ≠ STX by decide, XModemBlockLength]
    have hpay := readPayload_segments 1024 128
      [payload₂ ++ [CRC16 payload₂ / 256, CRC16 payload₂ % 256, EOT]] [] [[POLL], [ACK]] 1 2 none
      11 128 0 []
      (by
        intro s hs
        rw [List.mem_singleton] at hs
        subst hs
        exact ⟨hne, by rw [hlen]; decide⟩)
      (by
        intro i hi
        simp only [List.length_cons, List.length_nil] at hi
        have : i = 0 := by omega
        subst this
        simp)
      (by simp [h₂])
      (by simp)
    simp only [List.nil_append, List.flatten_cons, List.flatten_nil, List.append_nil,
      List.length_cons, List.length_nil, List.cons_append] at hpay
    simp only [List.nil_append, List.cons_append, hpay]
    rw [Read_eof _ 1 (by rfl)]

theorem C11_stale_buffer_witness :
    ModemReceive (Conn.script
        [[SOH], [2], [253], List.replicate 128 0x42 ++
          [CRC16 (List.replicate 128 0x42) / 256, CRC16 (List.replicate 128 0x42) % 256, EOT]]) =
      some ((List.replicate 128 0x42, none), ⟨[], [[POLL], [ACK], [ACK]], 1, 2, none, 10⟩) ∧
    ModemReceive (Conn.script
        (frameWrites 1 (List.replicate 1024 0x41) 1024 ++
          [[SOH], [2], [253], List.replicate 128 0x42 ++
            [CRC16 (List.replicate 128 0x42) / 256, CRC16 (List.replicate 128 0x42) % 256,
              EOT]])) =
      some (([], some 1), ⟨[], [[POLL], [ACK]], 1, 2, none, 13⟩) :=
  C11_stale_buffer (List.replicate 1024 0x41) (List.replicate 128 0x42)
    (List.length_replicate _ _) (List.length_replicate _ _)

/-- C12 (failure budget): let `modemSend` read `POLL` and then, after each frame
it writes, the responses `pre` and finally `r`, where `r` is not `ACK`, exactly
nine responses in `pre` are not `ACK` (anywhere among the `ACK`s of `pre`: an
`ACK` does not reset the count), and the `ACK`s in `pre` are fewer than the
blocks, however many. No write fails. Then `modemSend` has written one frame
per response (the frame of the same block again after a failure, of the next
block after an `ACK`), writes `EOT` and nothing else after the tenth failure,
reads nothing more (`rest` is still to be read), and returns nil. -/
theorem C12_failure_budget (c : Conn) (data : List Nat) (L : Nat) (pre : List Nat) (r : Nat)
    (rest : List Nat) (hw : c.writeBudget = none) (hr : r ≠ ACK)
    (hfail : pre.countP (fun x => decide (x ≠ ACK)) = 9)
    (hacks : pre.count ACK < blockCount data L)
    (hin : c.input.flatten = POLL :: (pre ++ r :: rest)) :
    ∃ inp, inp.flatten = rest ∧
      modemSend c data L =
        some (none,
          { c with
            input := inp
            output := c.output ++ framesFor data L 0 (pre ++ [r]) ++ [[EOT]]
            calls := c.calls + 7 * (pre.length + 1) + 2 }) :=
  modemSend_ten_failures c data L pre r rest hw hr hfail hacks hin

theorem C12_failure_budget_witness :
    ∃ inp, inp.flatten = [ACK] ∧
      modemSend
          (Conn.script [POLL :: ([NAK, NAK, NAK, NAK, ACK, NAK, NAK, NAK, ACK, NAK, NAK] ++
            NAK :: [ACK])])
          (List.replicate 300 0x41) 128 =
        some (none,
          { Conn.script [POLL :: ([NAK, NAK, NAK, NAK, ACK, NAK, NAK, NAK, ACK, NAK, NAK] ++
              NAK :: [ACK])] with
            input := inp
            output := (Conn.script [POLL :: ([NAK, NAK, NAK, NAK, ACK, NAK, NAK, NAK, ACK, NAK,
                NAK] ++ NAK :: [ACK])]).output ++
              framesFor (List.replicate 300 0x41) 128 0
                ([NAK, NAK, NAK, NAK, ACK, NAK, NAK, NAK, ACK, NAK, NAK] ++ [NAK]) ++ [[EOT]]
            calls := (Conn.script [POLL :: ([NAK, NAK, NAK, NAK, ACK, NAK, NAK, NAK, ACK, NAK,
                NAK] ++ NAK :: [ACK])]).calls +
              7 * ([NAK, NAK, NAK, NAK, ACK, NAK, NAK, NAK, ACK, NAK, NAK].length + 1) + 2 }) :=
  C12_failure_budget
    (Conn.script [POLL :: ([NAK, NAK, NAK, NAK, ACK, NAK, NAK, NAK, ACK, NAK, NAK] ++
      NAK :: [ACK])])
    (List.replicate 300 0x41) 128 [NAK, NAK, NAK, NAK, ACK, NAK, NAK, NAK, ACK, NAK, NAK] NAK
    [ACK] rfl (by decide) (by decide)
    (by rw [blockCount_eq _ 128 (by decide), List.length_replicate]; decide) (by decide)

/-- C13 (receiver start and end). Start: the first call `ModemReceive` makes on
its stream `c` is the `Write` of `POLL`: if that write fails, `ModemReceive`
returns its error after this one call, with nothing read; if it succeeds and
leaves the stream `c₁`, with `POLL` appended to the writes and the input
untouched, all the rest is the loop run on `c₁`. Whatever `ModemReceive` then
returns, what it has written is `POLL` followed by single `ACK` and `NAK`
bytes only, so `POLL` is written once, and first. End: whenever the byte the
loop reads in the header position is `EOT`, it writes `ACK` and returns, with
no error, exactly the output buffer `data` collected so far, having read
nothing after the `EOT`; when the `EOT` is the first byte to arrive,
`ModemReceive` returns the empty sequence. -/
theorem C13_receiver_start_and_end (c : Conn) :
    (c.writeBudget = some 0 →
      ModemReceive c = some (([], some c.writeErr), { c with calls := c.calls + 1 })) ∧
    (∀ c₁, c.Write [POLL] = (none, c₁) →
      c₁.input = c.input ∧ c₁.output = c.output ++ [[POLL]] ∧ c₁.calls = c.calls + 1 ∧
      ModemReceive c = recvLoop (c₁.remaining + 1) c₁ [] 0 XModemBlockLength) ∧
    (∀ (data' : List Nat) (err : Option Error) (c' : Conn),
      ModemReceive c = some ((data', err), c') → c.writeBudget ≠ some 0 →
      ∃ ws, c'.output = c.output ++ [POLL] :: ws ∧
        ∀ w ∈ ws, (w = [ACK] ∨ w = [NAK]) ∧ w ≠ [POLL]) ∧
    (∀ (fuel : Nat) (data : List Nat) (ob dLen : Nat) (bs : List Nat),
      c.writeBudget = none → c.input.flatten = EOT :: bs →
      ∃ inp, inp.flatten = bs ∧
        recvLoop (fuel + 1) c data ob dLen =
          some ((data, none),
            { c with input := inp, output := c.output ++ [[ACK]], calls := c.calls + 2 })) ∧
    (∀ bs : List Nat, c.writeBudget = none → c.input.flatten = EOT :: bs →
      ∃ inp, inp.flatten = bs ∧
        ModemReceive c =
          some (([], none),
            { c with
              input := inp, output := c.output ++ [[POLL], [ACK]], calls := c.calls + 3 })) := by
  refine ⟨?_, ?_, ?_, ?_, ?_⟩
  · intro h
    unfold ModemReceive
    simp only [Conn.Write, h]
  · intro c₁ h
    have ho := (Write_output c [POLL]).1 c₁ h
    have hi : c₁.input = c.input ∧ c₁.calls = c.calls + 1 := by
      unfold Conn.Write at h
      split at h
      · simp at h
      · simp only [Prod.mk.injEq, true_and] at h
        rw [← h]
        exact ⟨rfl, rfl⟩
      · simp only [Prod.mk.injEq, true_and] at h
        rw [← h]
        exact ⟨rfl, rfl⟩
    refine ⟨hi.1, ho, hi.2, ?_⟩
    unfold ModemReceive
    rw [h]
  · intro data' err c' h hb
    obtain ⟨_, _, h3⟩ := ModemReceive_run c data' err c' h
    rcases h3 with ⟨e, hw, _⟩ | ⟨ws, h3, h4⟩
    · exact absurd (Write_fails_iff c [POLL] e c' hw) hb
    · refine ⟨ws, h3, fun w hw => ⟨h4 w hw, ?_⟩⟩
      rcases h4 w hw with rfl | rfl <;> decide
  · intro fuel data ob dLen bs hw hin
    exact recvLoop_eot_any fuel c data ob dLen bs hw hin
  · intro bs hw hin
    obtain ⟨inp, hinp, h⟩ := recvLoop_eot_any
      ({ c with output := c.output ++ [[POLL]], calls := c.calls + 1 } : Conn).remaining
      { c with output := c.output ++ [[POLL]], calls := c.calls + 1 } [] 0 XModemBlockLength bs
      hw hin
    refine ⟨inp, hinp, ?_⟩
    unfold ModemReceive
    rw [Write_ok c [POLL] hw]
    simp only
    rw [h]
    simp only [List.append_assoc, List.cons_append, List.nil_append]

theorem C13_receiver_start_and_end_witness :
    (∃ inp, inp.flatten = [SOH, 1] ∧
      recvLoop (0 + 1) (Conn.script [[EOT, SOH], [1]]) [0x58, 0x4d] 0 128 =
        some (([0x58, 0x4d], none),
          { Conn.script [[EOT, SOH], [1]] with
            input := inp
            output := (Conn.script [[EOT, SOH], [1]]).output ++ [[ACK]]
            calls := (Conn.script [[EOT, SOH], [1]]).calls + 2 })) ∧
    ModemReceive (Conn.script [[EOT, SOH], [1]]) =
      some (([], none), ⟨[[SOH], [1]], [[POLL], [ACK]], 1, 2, none, 3⟩) ∧
    ModemReceive ⟨[[EOT]], [], 1, 2, some 0, 0⟩ =
      some (([], some 2), ⟨[[EOT]], [], 1, 2, some 0, 1⟩) :=
  ⟨(C13_receiver_start_and_end (Conn.script [[EOT, SOH], [1]])).2.2.2.1 0 [0x58, 0x4d] 0 128
      [SOH, 1] rfl (by decide),
    by decide,
    (C13_receiver_start_and_end ⟨[[EOT]], [], 1, 2, some 0, 0⟩).1 rfl⟩

/-- C14 (transport errors are fatal): on every stream `c`, `modemSend` and
`ModemReceive` return, and what they have done to the stream by then is a run
of calls that all succeeded, followed, when an error `e` is returned, by one
call, a `Read` or a `Write`, that failed with that same `e`: the stream the
function leaves is the stream as that failing call left it, so no call was
made after it, and no call before it failed. `ModemReceive` returns the empty
byte sequence whenever it returns an error. -/
theorem C14_transport_errors (c : Conn) (data : List Nat) (packetPayloadLen : Nat) :
    (∃ res c', modemSend c data packetPayloadLen = some (res, c') ∧ Outcome c res c') ∧
    (∃ bytes err c', ModemReceive c = some ((bytes, err), c') ∧ Outcome c err c' ∧
      (err ≠ none → bytes = [])) := by
  constructor
  · have h := modemSend_isSome c data packetPayloadLen
    cases hm : modemSend c data packetPayloadLen with
    | none => rw [hm] at h; simp at h
    | some q =>
      obtain ⟨res, c'⟩ := q
      exact ⟨res, c', rfl, modemSend_outcome c data packetPayloadLen res c' hm⟩
  · have h := ModemReceive_isSome c
    cases hm : ModemReceive c with
    | none => rw [hm] at h; simp at h
    | some q =>
      obtain ⟨⟨bytes, err⟩, c'⟩ := q
      obtain ⟨h1, h2, _⟩ := ModemReceive_run c bytes err c' hm
      exact ⟨bytes, err, c', rfl, h1, h2⟩

theorem C14_transport_errors_witness :
    modemSend ⟨[[POLL]], [], 1, 2, some 2, 0⟩ [0x58] 128 =
      some (some 2, ⟨[], [[SOH], [1]], 1, 2, some 0, 4⟩) ∧
    ModemReceive (Conn.script [[SOH], [1]]) =
      some (([], some 1), ⟨[], [[POLL]], 1, 2, none, 4⟩) ∧
    (∃ res c', modemSend ⟨[[POLL]], [], 1, 2, some 2, 0⟩ [0x58] 128 = some (res, c') ∧
      Outcome ⟨[[POLL]], [], 1, 2, some 2, 0⟩ res c') ∧
    (∃ bytes err c', ModemReceive ⟨[[POLL]], [], 1, 2, some 2, 0⟩ = some ((bytes, err), c') ∧
      Outcome ⟨[[POLL]], [], 1, 2, some 2, 0⟩ err c' ∧ (err ≠ none → bytes = [])) :=
  ⟨by decide, by decide, C14_transport_errors ⟨[[POLL]], [], 1, 2, some 2, 0⟩ [0x58] 128⟩

/-- C15 (non-poll start): when the first byte `modemSend` reads is `b` and `b` is
not `POLL`, `modemSend` returns nil; the stream afterwards differs from the one
before only in that this one byte is consumed and one call (the `Read`) was
made: nothing was written and no further byte was read, whatever the payload,
the block length and the stream's readiness to accept writes. -/
theorem C15_non_poll_start (c : Conn) (data : List Nat) (L b : Nat) (bs : List Nat)
    (hb : b ≠ POLL) (hin : c.input.flatten = b :: bs) :
    ∃ inp, inp.flatten = bs ∧
      modemSend c data L = some (none, { c with input := inp, calls := c.calls + 1 }) ∧
      ({ c with input := inp, calls := c.calls + 1 } : Conn).output = c.output := by
  obtain ⟨inp, hinp, hr⟩ := Read_one c b bs hin
  refine ⟨inp, hinp, ?_, rfl⟩
  unfold modemSend
  rw [hr]
  simp [hb]

theorem C15_non_poll_start_witness :
    ∃ inp, inp.flatten = [ACK, ACK] ∧
      modemSend (Conn.script [[NAK], [ACK, ACK]]) [0x58, 0x4d] 128 =
        some (none, { Conn.script [[NAK], [ACK, ACK]] with
          input := inp, calls := (Conn.script [[NAK], [ACK, ACK]]).calls + 1 }) ∧
      ({ Conn.script [[NAK], [ACK, ACK]] with
          input := inp, calls := (Conn.script [[NAK], [ACK, ACK]]).calls + 1 } : Conn).output =
        (Conn.script [[NAK], [ACK, ACK]]).output :=
  C15_non_poll_start (Conn.script [[NAK], [ACK, ACK]]) [0x58, 0x4d] 128 NAK [ACK, ACK]
    (by decide) (by decide)

/-- C16 (exact payload read), the divergence: take any 128-byte payload, cut
it anywhere inside (`2 ≤ k < 128`), and let the stream deliver the header
bytes one by one, the first `k` payload bytes, then the other `128 - k` payload
bytes together with the two checksum bytes `hi`, `lo`, then `EOT`. The payload
loop of `ModemReceive` reads twice into the whole of its 128-byte `dBuffer` and
collects 130 bytes, the payload and both checksum bytes. The byte read next as
the high checksum byte is the `EOT`, the `Read` for the low one finds the
stream at its end, and `ModemReceive` returns that error and no data, having
written `POLL` and nothing else, however right `hi` and `lo` are. -/
theorem C16_payload_over_read (payload : List Nat) (k hi lo : Nat)
    (hp : payload.length = 128) (hk : 2 ≤ k) (hk' : k < 128) :
    readPayload 128 128 128
        (Conn.script [payload.take k, payload.drop k ++ [hi, lo], [EOT]]) 0 [] =
      some (.ok (payload ++ [hi, lo]), ⟨[[EOT]], [], 1, 2, none, 2⟩) ∧
    ModemReceive
        (Conn.script [[SOH], [1], [254], payload.take k, payload.drop k ++ [hi, lo], [EOT]]) =
      some (([], some 1), ⟨[], [[POLL]], 1, 2, none, 8⟩) := by
  have hseg : ∀ (out : List (List Nat)) (calls : Nat),
      readPayload 128 128 128
        ⟨[payload.take k, payload.drop k ++ [hi, lo]] ++ [[EOT]], out, 1, 2, none, calls⟩ 0 [] =
      some (.ok ([] ++ [payload.take k, payload.drop k ++ [hi, lo]].flatten),
        ⟨[[EOT]], out, 1, 2, none, calls + [payload.take k, payload.drop k ++ [hi, lo]].length⟩) := by
    intro out calls
    apply readPayload_segments
    · intro s hs
      simp only [List.mem_cons, List.mem_singleton, List.not_mem_nil, or_false] at hs
      rcases hs with rfl | rfl
      · constructor
        · intro h
          have := congrArg List.length h
          simp only [List.length_take, List.length_nil, hp] at this
          omega
        · simp only [List.length_take, hp]
          omega
      · constructor
        · simp
        · simp only [List.length_append, List.length_drop, hp, List.length_cons, List.length_nil]
          omega
    · intro i hi
      simp only [List.length_cons, List.length_nil] at hi
      have : i = 0 ∨ i = 1 := by omega
      rcases this with rfl | rfl
      · simp
      · simp only [List.take_succ_cons, List.take_zero, List.flatten_cons, List.flatten_nil,
          List.append_nil, List.length_take, hp]
        omega
    · simp only [List.flatten_cons, List.flatten_nil, List.append_nil, List.length_append,
        List.length_take, List.length_drop, hp, List.length_cons, List.length_nil]
      omega
    · simp
  have hfl : [payload.take k, payload.drop k ++ [hi, lo]].flatten = payload ++ [hi, lo] := by
    simp only [List.flatten_cons, List.flatten_nil, List.append_nil, ← List.append_assoc,
      List.take_append_drop]
  simp only [hfl, List.nil_append, List.cons_append, List.length_cons, List.length_nil] at hseg
  refine ⟨hseg [] 0, ?_⟩
  unfold ModemReceive
  simp only [Conn.script, Write_mk, List.nil_append]
  rw [recvLoop]
  rw [Read_cons _ _ _ _ _ _ _ 1 (by simp) (by simp)]
  simp only [List.headD_cons, show SOH ≠ EOT by decide, if_false, if_true]
  rw [Read_cons _ _ _ _ _ _ _ 1 (by simp) (by simp)]
  simp only [List.headD_cons]
  rw [Read_cons _ _ _ _ _ _ _ 1 (by simp) (by simp)]
  simp only [List.headD_cons, show headerRejected 1 254 = false by decide, Bool.false_eq_true,
    if_false, show SOH ≠ STX by decide, XModemBlockLength, hseg]
  rw [Read_cons _ _ _ _ _ _ _ 1 (by simp) (by simp)]
  simp only [List.headD_cons]
  rw [Read_eof _ 1 (by rfl)]

theorem C16_payload_over_read_witness :
    readPayload 128 128 128
        (Conn.script [(List.replicate 128 0x41).take 100,
          (List.replicate 128 0x41).drop 100 ++ [0x1C, 0xCE], [EOT]]) 0 [] =
      some (.ok (List.replicate 128 0x41 ++ [0x1C, 0xCE]), ⟨[[EOT]], [], 1, 2, none, 2⟩) ∧
    ModemReceive
        (Conn.script [[SOH], [1], [254], (List.replicate 128 0x41).take 100,
          (List.replicate 128 0x41).drop 100 ++ [0x1C, 0xCE], [EOT]]) =
      some (([], some 1), ⟨[], [[POLL]], 1, 2, none, 8⟩) :=
  C16_payload_over_read (List.replicate 128 0x41) 100 0x1C 0xCE (by simp) (by decide)
    (by decide)

/-- C17 (header test): for a header the loop of `ModemReceive` reads (a first
byte other than `EOT`, then the bytes `blockNumber` and `blockComplement`):
the header is rejected exactly when `blockNumber > blockComplement` or the sum
of the two, reduced modulo 256, is not 255; among bytes it is accepted exactly
when `blockNumber ≤ 127` and `blockComplement = 255 - blockNumber`. A rejected
header makes the pass write `NAK` and start over with the byte after the
header, the output buffer unchanged. An accepted header makes the pass go on
to the payload: whatever payload `pData` the payload loop collects, it has
written nothing before the verdict on the checksum bytes that follow, and when
the stream ends right after the header of an `SOH` or `STX` frame, the fourth
call is a failing `Read` and nothing was written. -/
theorem C17_header_test (fuel : Nat) (c : Conn) (data : List Nat)
    (ob dLen pType blockNumber blockComplement : Nat) (bs : List Nat)
    (ht : pType ≠ EOT) (hn : blockNumber < 256) (hc : blockComplement < 256)
    (hw : c.writeBudget = none)
    (hin : c.input.flatten = pType :: blockNumber :: blockComplement :: bs) :
    (headerRejected blockNumber blockComplement = true ↔
      (blockNumber > blockComplement ∨ (blockNumber + blockComplement) % 256 ≠ 255)) ∧
    (headerRejected blockNumber blockComplement = false ↔
      (blockNumber ≤ 127 ∧ blockComplement = 255 - blockNumber)) ∧
    (headerRejected blockNumber blockComplement = true →
      ∃ inp, inp.flatten = bs ∧
        recvLoop (fuel + 1) c data ob dLen =
          recvLoop fuel
            { c with input := inp, output := c.output ++ [[NAK]], calls := c.calls + 4 }
            data blockComplement (if pType = STX then XModem1KBlockLength else dLen)) ∧
    (headerRejected blockNumber blockComplement = false →
      ∀ (pData : List Nat) (c4 : Conn) (hi lo : Nat) (bs' : List Nat),
        readPayload (if pType = STX then XModem1KBlockLength else dLen)
          (if pType = SOH then XModemBlockLength
            else if pType = STX then XModem1KBlockLength else 0)
          (if pType = SOH then XModemBlockLength
            else if pType = STX then XModem1KBlockLength else 0)
          (((c.Read 1).2.Read 1).2.Read 1).2 0 [] = some (.ok pData, c4) →
        c4.input.flatten = hi :: lo :: bs' →
        ∃ inp, inp.flatten = bs' ∧ c4.output = c.output ∧
          recvLoop (fuel + 1) c data ob dLen =
            recvLoop fuel
              { c4 with
                input := inp
                output := c.output ++
                  [[if CRC16 pData = ((hi <<< 8) % 65536) ||| lo then ACK else NAK]]
                calls := c4.calls + 3 }
              (if CRC16 pData = ((hi <<< 8) % 65536) ||| lo then data ++ pData else data)
              lo (if pType = STX then XModem1KBlockLength else dLen)) ∧
    (headerRejected blockNumber blockComplement = false →
      (pType = SOH ∨ pType = STX) → bs = [] →
      recvLoop (fuel + 1) c data ob dLen =
        some (([], some c.readErr), { c with input := [], calls := c.calls + 4 })) := by
  refine ⟨?_, headerRejected_false_iff _ _ hn hc, ?_, ?_, ?_⟩
  · rw [headerRejected_iff, Nat.add_comm]
  · intro hrej
    exact recvLoop_header_rejected fuel c data ob dLen pType blockNumber blockComplement bs ht
      hrej hw hin
  · intro hacc pData c4 hi lo bs' hpay hin4
    obtain ⟨inp, hinp, h⟩ := recvLoop_checksum fuel c data ob dLen pType blockNumber
      blockComplement bs pData c4 hi lo bs' ht hacc hw hin hpay hin4
    have ho := (readPayload_header_output _ _ _ _ _ _ hpay).1
    rw [ho] at h
    exact ⟨inp, hinp, ho, h⟩
  · intro hacc hp hbs
    subst hbs
    exact recvLoop_accepted_eof fuel c data ob dLen pType blockNumber blockComplement hp hacc hin

theorem C17_header_test_witness :
    (headerRejected 0x80 0x7F = true ↔
      ((0x80 : Nat) > 0x7F ∨ (0x80 + 0x7F) % 256 ≠ 255)) ∧
    (headerRejected 0x80 0x7F = false ↔ ((0x80 : Nat) ≤ 127 ∧ 0x7F = 255 - 0x80)) ∧
    ∃ inp, inp.flatten = [0x58] ∧
      recvLoop (1 + 1) (Conn.script [[SOH, 0x80, 0x7F, 0x58]]) [] 0 128 =
        recvLoop 1
          { Conn.script [[SOH, 0x80, 0x7F, 0x58]] with
            input := inp
            output := (Conn.script [[SOH, 0x80, 0x7F, 0x58]]).output ++ [[NAK]]
            calls := (Conn.script [[SOH, 0x80, 0x7F, 0x58]]).calls + 4 }
          [] 0x7F (if SOH = STX then XModem1KBlockLength else 128) :=
  ⟨(C17_header_test 1 (Conn.script [[SOH, 0x80, 0x7F, 0x58]]) [] 0 128 SOH 0x80 0x7F [0x58]
      (by decide) (by decide) (by decide) rfl (by decide)).1,
    (C17_header_test 1 (Conn.script [[SOH, 0x80, 0x7F, 0x58]]) [] 0 128 SOH 0x80 0x7F [0x58]
      (by decide) (by decide) (by decide) rfl (by decide)).2.1,
    (C17_header_test 1 (Conn.script [[SOH, 0x80, 0x7F, 0x58]]) [] 0 128 SOH 0x80 0x7F [0x58]
      (by decide) (by decide) (by decide) rfl (by decide)).2.2.1 (by decide)⟩

/-- C18 (no sequence check): two frames one after the other, each as `sendBlock`
writes it, with any block numbers `b₁`, `b₂` up to 127 (equal, in order, out of
order), any block lengths and any chunks: the loop of `ModemReceive` answers
both with `ACK` and appends both payloads to its output buffer in the order of
arrival; nothing in the state the loop carries from one pass to the next
depends on `b₁`. With enough fuel the loop returns, and what it has written
by then starts with the two `ACK`s. Followed to the return: when `EOT` comes
after the two frames, the loop returns the buffer with both payloads appended,
and `ModemReceive` returns the two payloads one after the other, with no
error and three `ACK`s written (the third for the `EOT`); a frame sent twice is
returned twice. When the stream ends after the two frames, two `ACK`s were
written before the `Read` that fails. -/
theorem C18_no_sequence_check (fuel : Nat) (c : Conn) (data : List Nat) (ob dLen b₁ b₂ : Nat)
    (chunk₁ chunk₂ : List Nat) (L₁ L₂ : Nat) (rest : List (List Nat))
    (hL₁ : L₁ = 128 ∨ L₁ = 1024) (hL₂ : L₂ = 128 ∨ L₂ = 1024)
    (hb₁ : b₁ ≤ 127) (hb₂ : b₂ ≤ 127)
    (hlen₁ : chunk₁.length ≤ L₁) (hlen₂ : chunk₂.length ≤ L₂) (hd : 128 ≤ dLen)
    (hw : c.writeBudget = none)
    (hin : c.input = frameWrites b₁ chunk₁ L₁ ++ (frameWrites b₂ chunk₂ L₂ ++ rest)) :
    recvLoop (fuel + 2) c data ob dLen =
      recvLoop fuel
        { c with input := rest, output := c.output ++ [[ACK], [ACK]], calls := c.calls + 14 }
        (data ++ padTo L₁ chunk₁ ++ padTo L₂ chunk₂) (CRC16 (padTo L₂ chunk₂) % 256)
        (if L₂ = 1024 then 1024 else if L₁ = 1024 then 1024 else dLen) ∧
    (rest.flatten.length < fuel →
      ∃ res c' ws, recvLoop (fuel + 2) c data ob dLen = some (res, c') ∧
        c'.output = c.output ++ [ACK] :: [ACK] :: ws ∧ (∀ w ∈ ws, w = [ACK] ∨ w = [NAK]) ∧
        (res.2 ≠ none → res.1 = [])) ∧
    (∀ rest' : List (List Nat), rest = [EOT] :: rest' →
      recvLoop (fuel + 3) c data ob dLen =
        some ((data ++ padTo L₁ chunk₁ ++ padTo L₂ chunk₂, none),
          { c with
            input := rest'
            output := c.output ++ [[ACK], [ACK], [ACK]]
            calls := c.calls + 16 }) ∧
      ModemReceive c =
        some ((padTo L₁ chunk₁ ++ padTo L₂ chunk₂, none),
          { c with
            input := rest'
            output := c.output ++ [[POLL], [ACK], [ACK], [ACK]]
            calls := c.calls + 17 })) ∧
    (rest = [] →
      recvLoop (fuel + 3) c data ob dLen =
        some (([], some c.readErr),
          { c with input := [], output := c.output ++ [[ACK], [ACK]], calls := c.calls + 15 })) := by
  have heq := recvLoop_two_frames fuel c data ob dLen b₁ b₂ chunk₁ chunk₂ L₁ L₂ rest hL₁ hL₂
    hb₁ hb₂ hlen₁ hlen₂ hd hw hin
  have hd' : 0 < (if L₂ = 1024 then 1024 else if L₁ = 1024 then 1024 else dLen) := by
    split
    · decide
    · split
      · decide
      · omega
  refine ⟨heq, ?_, ?_, ?_⟩
  · intro hf
    obtain ⟨res, c', ws, h1, h2, h3, h4⟩ := recvLoop_returns fuel
      { c with input := rest, output := c.output ++ [[ACK], [ACK]], calls := c.calls + 14 }
      (data ++ padTo L₁ chunk₁ ++ padTo L₂ chunk₂) (CRC16 (padTo L₂ chunk₂) % 256)
      (if L₂ = 1024 then 1024 else if L₁ = 1024 then 1024 else dLen) hd' hf
    refine ⟨res, c', ws, heq.trans h1, ?_, h3, h4⟩
    rw [h2]
    simp only [List.append_assoc, List.cons_append, List.nil_append]
  · intro rest' hr
    subst hr
    constructor
    · rw [recvLoop_two_frames (fuel + 1) c data ob dLen b₁ b₂ chunk₁ chunk₂ L₁ L₂ _ hL₁ hL₂
        hb₁ hb₂ hlen₁ hlen₂ hd hw hin]
      rw [recvLoop_eot fuel
        { c with
          input := [EOT] :: rest', output := c.output ++ [[ACK], [ACK]], calls := c.calls + 14 }
        _ _ _ rest' hw rfl]
      simp only [List.append_assoc, List.cons_append, List.nil_append]
    · have hlen : c.input.flatten.length =
          (L₁ + 5) + ((L₂ + 5) + (1 + rest'.flatten.length)) := by
        rw [hin]
        simp only [List.flatten_append, List.length_append, List.flatten_cons,
          frameWrites_flatten_length _ _ _ hlen₁, frameWrites_flatten_length _ _ _ hlen₂,
          List.length_cons, List.length_nil]
      rw [ModemReceive_eq c hw,
        show c.input.flatten.length + 1 = (c.input.flatten.length - 2) + 1 + 2 by omega]
      rw [recvLoop_two_frames (c.input.flatten.length - 2 + 1)
        { c with output := c.output ++ [[POLL]], calls := c.calls + 1 } [] 0 XModemBlockLength
        b₁ b₂ chunk₁ chunk₂ L₁ L₂ _ hL₁ hL₂ hb₁ hb₂ hlen₁ hlen₂ (by decide) hw hin]
      rw [recvLoop_eot (c.input.flatten.length - 2)
        { c with
          input := [EOT] :: rest'
          output := c.output ++ [[POLL]] ++ [[ACK], [ACK]]
          calls := c.calls + 1 + 14 }
        _ _ _ rest' hw rfl]
      simp only [List.append_assoc, List.cons_append, List.nil_append]
  · intro hr
    subst hr
    rw [recvLoop_two_frames (fuel + 1) c data ob dLen b₁ b₂ chunk₁ chunk₂ L₁ L₂ _ hL₁ hL₂
      hb₁ hb₂ hlen₁ hlen₂ hd hw hin]
    rw [recvLoop_eof fuel
      { c with input := [], output := c.output ++ [[ACK], [ACK]], calls := c.calls + 14 }
      _ _ _ rfl]

set_option maxRecDepth 100000 in
theorem C18_no_sequence_check_witness :
    recvLoop (0 + 3)
        (Conn.script (frameWrites 1 [0x58] 128 ++ (frameWrites 1 [0x58] 128 ++ [[EOT]])))
        [7] 0 128 =
      some (([7] ++ padTo 128 [0x58] ++ padTo 128 [0x58], none),
        ⟨[], [[ACK], [ACK], [ACK]], 1, 2, none, 16⟩) ∧
    ModemReceive
        (Conn.script (frameWrites 1 [0x58] 128 ++ (frameWrites 1 [0x58] 128 ++ [[EOT]]))) =
      some ((padTo 128 [0x58] ++ padTo 128 [0x58], none),
        ⟨[], [[POLL], [ACK], [ACK], [ACK]], 1, 2, none, 17⟩) :=
  (C18_no_sequence_check 0
    (Conn.script (frameWrites 1 [0x58] 128 ++ (frameWrites 1 [0x58] 128 ++ [[EOT]])))
    [7] 0 128 1 1 [0x58] [0x58] 128 128 [[EOT]] (Or.inl rfl) (Or.inl rfl) (by decide) (by decide)
    (by decide) (by decide) (by decide) rfl rfl).2.2.1 [] rfl

/-- C19 (unknown marker): when the byte the loop of `ModemReceive` reads in the
header position is none of `SOH`, `STX`, `EOT`, the next two bytes are read as
block number and complement. If they fail the header test, the pass writes
`NAK`. Otherwise no payload byte is read: the two bytes `hi`, `lo` that follow
are read as the checksum (five `Read`s and one `Write` in all), and the pass
writes `ACK` exactly when both are 0, `NAK` otherwise. In every case the output
buffer and the length of `dBuffer` are as before. -/
theorem C19_unknown_marker (fuel : Nat) (c : Conn) (data : List Nat)
    (ob dLen pType packetCount inverseCount : Nat)
    (hs : pType ≠ SOH) (hx : pType ≠ STX) (ht : pType ≠ EOT) (hw : c.writeBudget = none) :
    (∀ bs : List Nat, headerRejected packetCount inverseCount = true →
      c.input.flatten = pType :: packetCount :: inverseCount :: bs →
      ∃ inp, inp.flatten = bs ∧
        recvLoop (fuel + 1) c data ob dLen =
          recvLoop fuel
            { c with input := inp, output := c.output ++ [[NAK]], calls := c.calls + 4 }
            data inverseCount dLen) ∧
    (∀ (hi lo : Nat) (bs : List Nat), hi < 256 → lo < 256 →
      headerRejected packetCount inverseCount = false →
      c.input.flatten = pType :: packetCount :: inverseCount :: hi :: lo :: bs →
      ∃ inp, inp.flatten = bs ∧
        recvLoop (fuel + 1) c data ob dLen =
          recvLoop fuel
            { c with
              input := inp
              output := c.output ++ [[if hi = 0 ∧ lo = 0 then ACK else NAK]]
              calls := c.calls + 6 }
            data lo dLen) := by
  constructor
  · intro bs hrej hin
    obtain ⟨inp, hinp, h⟩ := recvLoop_header_rejected fuel c data ob dLen pType packetCount
      inverseCount bs ht hrej hw hin
    rw [if_neg hx] at h
    exact ⟨inp, hinp, h⟩
  · intro hi lo bs hh hl hacc hin
    obtain ⟨inp, hinp, h⟩ := recvLoop_unknown_marker fuel c data ob dLen pType packetCount
      inverseCount hi lo bs hs hx ht hacc hw hin
    refine ⟨inp, hinp, ?_⟩
    rw [h]
    by_cases h0 : hi = 0 ∧ lo = 0
    · rw [if_pos h0, if_pos ((word_eq_zero hi lo hh hl).2 h0)]
    · rw [if_neg h0, if_neg (fun e => h0 ((word_eq_zero hi lo hh hl).1 e))]

theorem C19_unknown_marker_witness :
    (∃ inp, inp.flatten = [0x58] ∧
      recvLoop (1 + 1) (Conn.script [[0x55, 9, 3, 0x58]]) [7] 0 128 =
        recvLoop 1
          { Conn.script [[0x55, 9, 3, 0x58]] with
            input := inp
            output := (Conn.script [[0x55, 9, 3, 0x58]]).output ++ [[NAK]]
            calls := (Conn.script [[0x55, 9, 3, 0x58]]).calls + 4 }
          [7] 3 128) ∧
    (∃ inp, inp.flatten = [EOT] ∧
      recvLoop (1 + 1) (Conn.script [[0x55, 1, 254], [0, 0, EOT]]) [7] 0 128 =
        recvLoop 1
          { Conn.script [[0x55, 1, 254], [0, 0, EOT]] with
            input := inp
            output := (Conn.script [[0x55, 1, 254], [0, 0, EOT]]).output ++
              [[if (0 : Nat) = 0 ∧ (0 : Nat) = 0 then ACK else NAK]]
            calls := (Conn.script [[0x55, 1, 254], [0, 0, EOT]]).calls + 6 }
          [7] 0 128) ∧
    recvLoop (1 + 1) (Conn.script [[0x55, 1, 254], [0, 0, EOT]]) [7] 0 128 =
      some (([7], none), ⟨[], [[ACK], [ACK]], 1, 2, none, 8⟩) :=
  ⟨(C19_unknown_marker 1 (Conn.script [[0x55, 9, 3, 0x58]]) [7] 0 128 0x55 9 3
      (by decide) (by decide) (by decide) rfl).1 [0x58] (by decide) (by decide),
    (C19_unknown_marker 1 (Conn.script [[0x55, 1, 254], [0, 0, EOT]]) [7] 0 128 0x55 1 254
      (by decide) (by decide) (by decide) rfl).2 0 0 [EOT] (by decide) (by decide) (by decide)
      (by decide),
    by decide⟩

/-- C20 (CRC residue): for every byte sequence `d`, `CRC16` of `d` followed by
the high byte and then the low byte of `CRC16(d)`, computed as `sendBlock`
computes them, is 0; so the payload of a frame `sendBlock` writes, followed by
the two checksum bytes of that frame, has checksum 0. And the zero test
validates exactly what the comparison of `ModemReceive` validates: for bytes
`hi`, `lo`, `CRC16` of `d` followed by `hi`, `lo` is 0 exactly when `CRC16(d)`
equals the word `hi << 8 | lo`. -/
theorem C20_crc_residue (d : List Nat) :
    CRC16 (d ++ [(CRC16 d >>> 8) % 256, (CRC16 d &&& 0xFF) % 256]) = 0 ∧
      (∀ L : Nat, CRC16 (padTo L d ++
        [(CRC16Constant d L >>> 8) % 256, (CRC16Constant d L &&& 0xFF) % 256]) = 0) ∧
      ∀ hi lo : Nat, hi < 256 → lo < 256 →
        (CRC16 (d ++ [hi, lo]) = 0 ↔ CRC16 d = ((hi <<< 8) % 65536) ||| lo) := by
  refine ⟨?_, ?_, ?_⟩
  · obtain ⟨h1, h2⟩ := hi_lo_bytes (CRC16 d) (CRC16_lt d)
    rw [h1, h2]
    exact CRC16_residue d
  · intro L
    rw [CRC16Constant_eq]
    obtain ⟨h1, h2⟩ := hi_lo_bytes _ (CRC16_lt (d ++ List.replicate (L - d.length) SUB))
    rw [h1, h2]
    exact CRC16_residue _
  · intro hi lo hh hl
    rw [word_of_bytes hi lo hh hl]
    have h := CRC16_residue_iff d (hi * 256 + lo) (by omega)
    rw [show (hi * 256 + lo) / 256 = hi by omega, show (hi * 256 + lo) % 256 = lo by omega] at h
    exact h

theorem C20_crc_residue_witness :
    CRC16 ([0x58, 0x4d] ++ [(CRC16 [0x58, 0x4d] >>> 8) % 256,
        (CRC16 [0x58, 0x4d] &&& 0xFF) % 256]) = 0 ∧
      (CRC16 ([0x58, 0x4d] ++ [0x12, 0x34]) = 0 ↔
        CRC16 [0x58, 0x4d] = (((0x12 : Nat) <<< 8) % 65536) ||| 0x34) :=
  ⟨(C20_crc_residue [0x58, 0x4d]).1,
    (C20_crc_residue [0x58, 0x4d]).2.2 0x12 0x34 (by decide) (by decide)⟩

end Xmodem
